import Mathlib

/-!
Verification development for a checkpoint-pipeline orchestration system.

The system under study orchestrates multi-step pipelines of human-approved
checkpoints, with run versioning, artifact staging/promotion, and a
rollback/archival engine.  The definitions below are a shallow embedding of
the relevant Python services:

* `src/core/file_manager.py`     — path layout and file-system primitives
* `src/db/models.py`             — the relational data model
* `src/services/run_service.py`  — run creation / start / execution spawning
* `src/services/execution_service.py` — the execution state machine
* `src/services/rollback_service.py`  — checkpoint- and run-level rollback

Modelling conventions:

* Filesystem paths are modelled as lists of path components (`FPath`),
  matching `pathlib` semantics (joining is list append; `pathlib`
  normalizes away the leading "./" of the configured base path).
* The filesystem is a finite map from file paths to sizes plus a set of
  directories created by `mkdir`; `shutil` operations are modelled on it.
* Database rows are Lean structures; a table is the list of its rows in
  insertion order.  SQLAlchemy `ORDER BY ... DESC` is modelled with an
  insertion sort `sortByDesc`.  ORM cascade deletes (execution → its
  artifacts/interactions, run → its rollback events and their items) are
  applied explicitly where `session.delete` is called.
* `uuid4()` results and `datetime.utcnow()` are passed in as explicit
  parameters (fresh identifiers, a `Nat` clock).
* JSON configuration blobs read with `.get(key, default)` are structures
  of `Option` fields; the read is `Option.getD`.
* Serialized form-data content (`json.dumps(form_data)` or the rendered
  markdown) is abstracted as the pre-rendered string `content`.
* Python exceptions are `Except.error` carrying the error message and the
  session state at raise time (mutations already flushed remain visible,
  as in `request_revision`).
* `Event` log rows and the logger are not modelled: no claim concerns them.
-/

namespace PipelineSys

/-- Status of a pipeline run (`PipelineRun.status` enum in `db/models.py`). -/
inductive RunStatus
  | not_started
  | in_progress
  | paused
  | completed
  | failed
deriving DecidableEq, Repr

/-- Status of a checkpoint execution (`CheckpointExecution.status` enum). -/
inductive ExecStatus
  | pending
  | waiting_approval_to_start
  | in_progress
  | waiting_approval_to_complete
  | completed
  | failed
deriving DecidableEq, Repr

/-- Render an execution status the way the Python enum string reads,
used to reproduce error messages verbatim. -/
def ExecStatus.str : ExecStatus → String
  | .pending => "pending"
  | .waiting_approval_to_start => "waiting_approval_to_start"
  | .in_progress => "in_progress"
  | .waiting_approval_to_complete => "waiting_approval_to_complete"
  | .completed => "completed"
  | .failed => "failed"

/-- A filesystem path, as its list of components (`pathlib` semantics). -/
abbrev FPath := List String

/-- True when `p` equals `d` or lies strictly below directory `d`. -/
def pathUnder (d p : FPath) : Bool := d.isPrefixOf p

/-- The filesystem: regular files (path, size in bytes) plus the set of
directories that have been created.  Mirrors the hierarchical file store
the services manipulate through `shutil` / `pathlib`. -/
structure Fs where
  files : List (FPath × Nat) := []
  dirs : List FPath := []
deriving DecidableEq, Repr

/-- Size of the file at `p`, if a file exists there. -/
def Fs.fileSize (fs : Fs) (p : FPath) : Option Nat :=
  (fs.files.find? (fun f => f.1 == p)).map (·.2)

/-- Does a regular file exist at `p`? -/
def Fs.fileExists (fs : Fs) (p : FPath) : Bool :=
  (fs.fileSize p).isSome

/-- `Path.exists()`: a file or directory exists at `p` (a directory exists
also when something was created below it). -/
def Fs.pathExists (fs : Fs) (p : FPath) : Bool :=
  fs.files.any (fun f => pathUnder p f.1) || fs.dirs.any (fun d => pathUnder p d)

/-- `mkdir(parents=True, exist_ok=True)`. -/
def Fs.mkdirp (fs : Fs) (p : FPath) : Fs :=
  if fs.dirs.contains p then fs else { fs with dirs := p :: fs.dirs }

/-- Create or overwrite the regular file at `p` with `size` bytes. -/
def Fs.writeFile (fs : Fs) (p : FPath) (size : Nat) : Fs :=
  { fs with files := (p, size) :: fs.files.filter (fun f => f.1 != p) }

/-- Remove the regular file at `p` (no-op when absent). -/
def Fs.removeFile (fs : Fs) (p : FPath) : Fs :=
  { fs with files := fs.files.filter (fun f => f.1 != p) }

/-- `shutil.rmtree(p)`: remove `p` and everything below it. -/
def Fs.rmtree (fs : Fs) (p : FPath) : Fs :=
  { files := fs.files.filter (fun f => !(pathUnder p f.1)),
    dirs := fs.dirs.filter (fun d => !(pathUnder p d)) }

/-- `shutil.copy2(src, dst)`: copy the file, keeping the source. -/
def Fs.copy2 (fs : Fs) (src dst : FPath) : Fs :=
  match fs.fileSize src with
  | some sz => fs.writeFile dst sz
  | none => fs

/-- `shutil.move(src, dst)` on a file that is known to exist: the file
disappears from `src` and appears at `dst`. -/
def Fs.moveFile (fs : Fs) (src dst : FPath) : Fs :=
  match fs.fileSize src with
  | some sz => (fs.removeFile src).writeFile dst sz
  | none => fs

/-- `shutil.copytree(src, dst)`: recursively copy the directory `src`
(and every file and directory below it) to `dst`, keeping the source. -/
def Fs.copytree (fs : Fs) (src dst : FPath) : Fs :=
  { files := fs.files.filterMap
      (fun f => if pathUnder src f.1 then some (dst ++ f.1.drop src.length, f.2) else none)
      ++ fs.files,
    dirs := dst :: (fs.dirs.filterMap
      (fun d => if pathUnder src d then some (dst ++ d.drop src.length) else none)
      ++ fs.dirs) }

/-- The filename (last path component), `PurePath.name`. -/
def pathName (p : FPath) : String := p.getLastD ""

/-- `PurePath.suffix` of a filename: the final ".ext", empty when the
name has no dot or only a leading dot. -/
def nameSuffix (fname : String) : String :=
  let parts := fname.splitOn "."
  if 2 ≤ parts.length && String.intercalate "." parts.dropLast ≠ "" then
    "." ++ parts.getLastD ""
  else ""

/-- `PurePath.stem` of a filename: the name without its `nameSuffix`. -/
def nameStem (fname : String) : String :=
  let parts := fname.splitOn "."
  if 2 ≤ parts.length && String.intercalate "." parts.dropLast ≠ "" then
    String.intercalate "." parts.dropLast
  else fname

/-- Python `s.rsplit(sep, 1)` when it actually splits: the part before the
last separator and the part after it; `none` when `sep` does not occur. -/
def rsplitOnce (s sep : String) : Option (String × String) :=
  let qs := s.splitOn sep
  if 2 ≤ qs.length then
    some (String.intercalate sep qs.dropLast, qs.getLastD "")
  else none

/-- `config.BASE_PIPELINES_PATH` (default "./pipelines"; `pathlib`
normalizes the leading "./" away, so one component remains). -/
def BASE_PIPELINES_PATH : FPath := ["pipelines"]

/-- The `FileManager` of `src/core/file_manager.py`, scoped to a pipeline. -/
structure FileManager where
  pipeline_id : String
deriving DecidableEq, Repr

/-- Root directory of the pipeline: `{BASE}/{pipeline_id}`. -/
def FileManager.base_path (fm : FileManager) : FPath :=
  BASE_PIPELINES_PATH ++ [fm.pipeline_id]

/-- The `runs/` directory of the pipeline. -/
def FileManager.runs_dir (fm : FileManager) : FPath :=
  fm.base_path ++ ["runs"]

/-- The `.temp/` directory of the pipeline. -/
def FileManager.temp_dir (fm : FileManager) : FPath :=
  fm.base_path ++ [".temp"]

/-- The `.archived/` directory of the pipeline. -/
def FileManager.archived_dir (fm : FileManager) : FPath :=
  fm.base_path ++ [".archived"]

/-- `get_run_directory`: `runs/v{run_version}`. -/
def FileManager.get_run_directory (fm : FileManager) (run_version : Nat) : FPath :=
  fm.runs_dir ++ ["v" ++ toString run_version]

/-- `get_checkpoint_directory`: `runs/v{v}/checkpoint_{pos}_{name}`. -/
def FileManager.get_checkpoint_directory (fm : FileManager) (run_version : Nat)
    (checkpoint_name : String) (checkpoint_position : Nat) : FPath :=
  fm.get_run_directory run_version ++
    ["checkpoint_" ++ toString checkpoint_position ++ "_" ++ checkpoint_name]

/-- `get_checkpoint_outputs_directory`: the `outputs` subdirectory. -/
def FileManager.get_checkpoint_outputs_directory (fm : FileManager) (run_version : Nat)
    (checkpoint_name : String) (checkpoint_position : Nat) : FPath :=
  fm.get_checkpoint_directory run_version checkpoint_name checkpoint_position ++ ["outputs"]

/-- `get_temp_execution_directory`: `.temp/exec_{execution_id}`. -/
def FileManager.get_temp_execution_directory (fm : FileManager) (execution_id : String) : FPath :=
  fm.temp_dir ++ ["exec_" ++ execution_id]

/-- `get_artifact_staging_path`:
`.temp/exec_{eid}/artifacts_staging/{name}_{artifact_id}.{format}`. -/
def FileManager.get_artifact_staging_path (fm : FileManager) (execution_id : String)
    (artifact_name artifact_id artifact_format : String) : FPath :=
  fm.get_temp_execution_directory execution_id ++
    ["artifacts_staging", artifact_name ++ "_" ++ artifact_id ++ "." ++ artifact_format]

/-- `get_permanent_artifact_path`: inside the checkpoint `outputs` directory,
`{name}_{artifact_id}_v{run_version}.{format}`. -/
def FileManager.get_permanent_artifact_path (fm : FileManager) (run_version : Nat)
    (checkpoint_name : String) (checkpoint_position : Nat)
    (artifact_name artifact_id artifact_format : String) : FPath :=
  fm.get_checkpoint_outputs_directory run_version checkpoint_name checkpoint_position ++
    [artifact_name ++ "_" ++ artifact_id ++ "_v" ++ toString run_version ++ "." ++ artifact_format]

/-- The `retry_config` JSON blob of a checkpoint. -/
structure RetryCfg where
  max_auto_retries : Option Nat := none
deriving DecidableEq, Repr

/-- The `human_only_config` JSON blob of a checkpoint. -/
structure HumanOnlyCfg where
  save_as_artifact : Option Bool := none
  artifact_name : Option String := none
  artifact_format : Option String := none
deriving DecidableEq, Repr

/-- The `execution` JSON blob of a checkpoint definition. -/
structure ExecutionCfg where
  human_only_config : Option HumanOnlyCfg := none
  retry_config : Option RetryCfg := none
deriving DecidableEq, Repr

/-- The `human_interaction` JSON blob of a checkpoint definition. -/
structure HumanInteractionCfg where
  requires_approval_to_start : Option Bool := none
  requires_approval_to_complete : Option Bool := none
  max_revision_iterations : Option Nat := none
deriving DecidableEq, Repr

/-- A row of `checkpoint_definitions`. -/
structure CheckpointDefn where
  checkpoint_id : String
  pipeline_id : String
  checkpoint_name : String
  execution : ExecutionCfg := {}
  human_interaction : HumanInteractionCfg := {}
deriving DecidableEq, Repr

/-- A row of `pipelines`. -/
structure Pipeline where
  pipeline_id : String
  checkpoint_order : List String := []
  auto_advance : Bool := false
deriving DecidableEq, Repr

/-- A row of `pipeline_runs`. -/
structure PipelineRun where
  run_id : String
  pipeline_id : String
  run_version : Nat
  status : RunStatus := .not_started
  current_checkpoint_id : Option String := none
  current_checkpoint_position : Option Nat := none
  previous_run_id : Option String := none
  extends_from_run_version : Option Nat := none
  created_at : Nat := 0
  started_at : Option Nat := none
  completed_at : Option Nat := none
deriving DecidableEq, Repr

/-- A row of `checkpoint_executions`. -/
structure CheckpointExecution where
  execution_id : String
  run_id : String
  checkpoint_id : String
  checkpoint_position : Nat
  status : ExecStatus
  attempt_number : Nat := 1
  max_attempts : Nat := 1
  revision_iteration : Nat := 0
  max_revision_iterations : Nat := 3
  temp_workspace_path : FPath := []
  permanent_output_path : FPath := []
  created_at : Nat := 0
  started_at : Option Nat := none
  completed_at : Option Nat := none
  failed_at : Option Nat := none
deriving DecidableEq, Repr

/-- A row of `artifacts`. -/
structure Artifact where
  artifact_record_id : String
  execution_id : String
  artifact_id : String
  artifact_name : String
  file_path : FPath
  format : String
  size_bytes : Nat
  promoted_to_permanent_at : Option Nat := none
deriving DecidableEq, Repr

/-- A row of `human_interactions`. -/
structure HumanInteraction where
  execution_id : String
  interaction_type : String
  user_input : Option String := none
  system_response : String := ""
  timestamp : Nat := 0
deriving DecidableEq, Repr

/-- A row of `rollback_events` (the `rolled_back_items` JSON manifest is
kept as the lists it is built from). -/
structure RollbackEvent where
  rollback_id : String
  source_run_id : String
  source_run_version : Nat
  rollback_type : String
  target_run_id : String
  target_checkpoint_id : String
  target_checkpoint_position : Nat
  archive_location : FPath
  triggered_by : String := "user_request"
  user_reason : Option String := none
  created_at : Nat := 0
deriving DecidableEq, Repr

/-- A row of `archived_items`. -/
structure ArchivedItem where
  rollback_id : String
  item_type : String
  item_id : String
  original_path : FPath
  archived_path : FPath
  size_bytes : Nat
deriving DecidableEq, Repr

/-- The relational store: one list of rows per table, in insertion order. -/
structure Db where
  pipelines : List Pipeline := []
  checkpoint_defs : List CheckpointDefn := []
  runs : List PipelineRun := []
  executions : List CheckpointExecution := []
  artifacts : List Artifact := []
  interactions : List HumanInteraction := []
  rollback_events : List RollbackEvent := []
  archived_items : List ArchivedItem := []
deriving DecidableEq, Repr

/-- Observable side-effect events, in program order: the rollback engine's
archive copies and deletions, emitted so that ordering guarantees
("archive before delete") can be stated. -/
inductive Ev
  | archiveArtifactOf (execution_id artifact_record_id : String)
  | deleteTempWorkspace (execution_id : String)
  | deleteExecutionRow (execution_id : String)
  | copyRunDir (run_id : String) (src dst : FPath)
  | deleteRunRow (run_id : String)
deriving DecidableEq, Repr

/-- Full system state: database, filesystem, the per-pipeline "latest"
run-version pointer (the `runs/latest` symlink), and the emitted
side-effect trace. -/
structure St where
  db : Db := {}
  fs : Fs := {}
  latest : List (String × Nat) := []
  trace : List Ev := []
deriving DecidableEq, Repr

/-- `session.get(PipelineRun, run_id)`. -/
def Db.findRun (db : Db) (run_id : String) : Option PipelineRun :=
  db.runs.find? (fun r => r.run_id == run_id)

/-- `session.get(Pipeline, pipeline_id)`. -/
def Db.findPipeline (db : Db) (pipeline_id : String) : Option Pipeline :=
  db.pipelines.find? (fun p => p.pipeline_id == pipeline_id)

/-- `session.get(CheckpointDefinition, checkpoint_id)`. -/
def Db.findCheckpointDef (db : Db) (checkpoint_id : String) : Option CheckpointDefn :=
  db.checkpoint_defs.find? (fun c => c.checkpoint_id == checkpoint_id)

/-- Select the execution with the given id (`ExecutionService.get_execution`). -/
def Db.findExecution (db : Db) (execution_id : String) : Option CheckpointExecution :=
  db.executions.find? (fun e => e.execution_id == execution_id)

/-- All artifacts of one execution, in insertion order. -/
def Db.artifactsOf (db : Db) (execution_id : String) : List Artifact :=
  db.artifacts.filter (fun a => a.execution_id == execution_id)

/-- Apply `f` to the run row with the given id. -/
def Db.updateRun (db : Db) (run_id : String) (f : PipelineRun → PipelineRun) : Db :=
  { db with runs := db.runs.map (fun r => if r.run_id == run_id then f r else r) }

/-- Apply `f` to the execution row with the given id. -/
def Db.updateExecution (db : Db) (execution_id : String)
    (f : CheckpointExecution → CheckpointExecution) : Db :=
  { db with executions :=
      db.executions.map (fun e => if e.execution_id == execution_id then f e else e) }

/-- Apply `f` to the artifact row with the given record id. -/
def Db.updateArtifact (db : Db) (artifact_record_id : String)
    (f : Artifact → Artifact) : Db :=
  { db with artifacts :=
      db.artifacts.map (fun a => if a.artifact_record_id == artifact_record_id then f a else a) }

/-- Insert, stably, into a list sorted by strictly descending `key`. -/
def insertByDesc (key : α → Nat) (a : α) : List α → List α
  | [] => [a]
  | b :: l => if key b ≤ key a then a :: b :: l else b :: insertByDesc key a l

/-- Insertion sort by descending `key`; models `ORDER BY key DESC`. -/
def sortByDesc (key : α → Nat) : List α → List α
  | [] => []
  | a :: l => insertByDesc key a (sortByDesc key l)

/-- Update the per-pipeline latest pointer (`update_latest_symlink`). -/
def setLatest (l : List (String × Nat)) (pipeline_id : String) (v : Nat) : List (String × Nat) :=
  (pipeline_id, v) :: l.filter (fun e => e.1 != pipeline_id)

/-- Append a human-interaction row (`session.add(interaction)`). -/
def Db.addInteraction (db : Db) (i : HumanInteraction) : Db :=
  { db with interactions := db.interactions ++ [i] }

/-- `RunService.get_latest_valid_run`: latest run of the pipeline by
descending `run_version`, `LIMIT 1`. -/
def get_latest_valid_run (db : Db) (pipeline_id : String) : Option PipelineRun :=
  (sortByDesc (fun r => r.run_version)
    (db.runs.filter (fun r => r.pipeline_id == pipeline_id))).head?

/-- `RunService.get_next_run_version`: `(max existing version or 0) + 1`. -/
def get_next_run_version (db : Db) (pipeline_id : String) : Nat :=
  ((db.runs.filter (fun r => r.pipeline_id == pipeline_id)).map
    (fun r => r.run_version)).foldr max 0 + 1

/-- `RunService.create_checkpoint_execution`: create the temp workspace and
the permanent outputs directory, insert the execution row (transiently
`pending`), then flip it to `waiting_approval_to_start` (recording an
interaction) or to `in_progress` according to the checkpoint's
`requires_approval_to_start` flag.  `execution_id` stands for the
`uuid4()` the service generates. -/
def create_checkpoint_execution (st : St) (run : PipelineRun) (checkpoint_def : CheckpointDefn)
    (position : Nat) (execution_id : String) (now : Nat) : St × CheckpointExecution :=
  let fm : FileManager := ⟨run.pipeline_id⟩
  let temp_dirp := fm.get_temp_execution_directory execution_id
  let fs := ((st.fs.mkdirp temp_dirp).mkdirp (temp_dirp ++ ["workspace"])).mkdirp
      (temp_dirp ++ ["artifacts_staging"])
  let permanent_dirp := fm.get_checkpoint_outputs_directory run.run_version
      checkpoint_def.checkpoint_name position
  let fs := fs.mkdirp permanent_dirp
  let human_interaction := checkpoint_def.human_interaction
  let retry_config := checkpoint_def.execution.retry_config.getD {}
  let max_attempts := retry_config.max_auto_retries.getD 0 + 1
  let requires_approval := human_interaction.requires_approval_to_start.getD false
  let execution : CheckpointExecution :=
    { execution_id := execution_id
      run_id := run.run_id
      checkpoint_id := checkpoint_def.checkpoint_id
      checkpoint_position := position
      status := if requires_approval then .waiting_approval_to_start else .in_progress
      attempt_number := 1
      max_attempts := max_attempts
      revision_iteration := 0
      max_revision_iterations := human_interaction.max_revision_iterations.getD 3
      temp_workspace_path := temp_dirp
      permanent_output_path := permanent_dirp
      created_at := now
      started_at := if requires_approval then none else some now }
  let db := { st.db with executions := st.db.executions ++ [execution] }
  let db :=
    if requires_approval then
      db.addInteraction
        { execution_id := execution_id
          interaction_type := "approval_to_start"
          user_input := none
          system_response := "Waiting for user approval to start this checkpoint."
          timestamp := now }
    else db
  ({ st with db := db, fs := fs }, execution)

/-- `RunService.create_run`: next integer version, refuses pipelines with an
empty `checkpoint_order`, links to the given prior run or to the latest
run by version, creates the run directory and `run_info.json` (whose
serialized size is abstracted as 0). -/
def create_run (st : St) (pipeline_id : String) (extends_from_run_id : Option String)
    (new_run_id : String) (now : Nat) : Except (String × St) (St × PipelineRun) :=
  match st.db.findPipeline pipeline_id with
  | none => .error ("Pipeline with ID " ++ pipeline_id ++ " not found", st)
  | some pipeline =>
    if pipeline.checkpoint_order.isEmpty then
      .error ("Pipeline has no checkpoints. Add at least one checkpoint before starting a run.", st)
    else
      let prevE : Except (String × St) (Option PipelineRun) :=
        match extends_from_run_id with
        | some eid =>
          match st.db.findRun eid with
          | none => .error ("Run with ID " ++ eid ++ " not found", st)
          | some p =>
            if p.pipeline_id ≠ pipeline_id then
              .error ("Run " ++ eid ++ " does not belong to pipeline " ++ pipeline_id, st)
            else .ok (some p)
        | none => .ok (get_latest_valid_run st.db pipeline_id)
      match prevE with
      | .error e => .error e
      | .ok previous_run =>
        let run_version := get_next_run_version st.db pipeline_id
        let run : PipelineRun :=
          { run_id := new_run_id
            pipeline_id := pipeline_id
            run_version := run_version
            status := .not_started
            current_checkpoint_id := none
            current_checkpoint_position := none
            previous_run_id := previous_run.map (fun p => p.run_id)
            extends_from_run_version := previous_run.map (fun p => p.run_version)
            created_at := now }
        let db := { st.db with runs := st.db.runs ++ [run] }
        let fm : FileManager := ⟨pipeline_id⟩
        let fs := st.fs.mkdirp (fm.get_run_directory run_version)
        let fs := fs.writeFile (fm.get_run_directory run_version ++ ["run_info.json"]) 0
        .ok ({ st with db := db, fs := fs }, run)

/-- `RunService.start_run`: refuses unless `not_started`, creates the
execution at position 0, flips the run to `in_progress` and repoints the
`latest` symlink at this run's version. -/
def start_run (st : St) (run_id : String) (first_execution_id : String) (now : Nat) :
    Except (String × St) (St × PipelineRun) :=
  match st.db.findRun run_id with
  | none => .error ("Run with ID " ++ run_id ++ " not found", st)
  | some run =>
    if run.status ≠ .not_started then
      .error ("Run has already been started", st)
    else
      match st.db.findPipeline run.pipeline_id with
      | none => .error ("NoResultFound: Pipeline", st)
      | some pipeline =>
        match pipeline.checkpoint_order with
        | [] => .error ("Pipeline has no checkpoints", st)
        | first_checkpoint_id :: _ =>
          match st.db.findCheckpointDef first_checkpoint_id with
          | none => .error ("First checkpoint " ++ first_checkpoint_id ++ " not found", st)
          | some checkpoint_def =>
            let cr := create_checkpoint_execution st run checkpoint_def 0 first_execution_id now
            let st2 := cr.1
            let execution := cr.2
            let run2 : PipelineRun :=
              { run with status := .in_progress
                         current_checkpoint_id := some execution.checkpoint_id
                         current_checkpoint_position := some 0
                         started_at := some now }
            let db := st2.db.updateRun run_id (fun _ => run2)
            let latest := setLatest st2.latest run.pipeline_id run.run_version
            .ok ({ st2 with db := db, latest := latest }, run2)

/-- `ExecutionService.approve_start`: only from `waiting_approval_to_start`;
flips to `in_progress`, stamps `started_at`, appends an interaction. -/
def approve_start (st : St) (execution_id : String) (now : Nat) :
    Except (String × St) (St × CheckpointExecution) :=
  match st.db.findExecution execution_id with
  | none => .error ("Execution with ID " ++ execution_id ++ " not found", st)
  | some execution =>
    if execution.status ≠ .waiting_approval_to_start then
      .error ("Cannot approve start - execution is in status " ++ execution.status.str ++
        ", expected waiting_approval_to_start", st)
    else
      let execution2 := { execution with status := .in_progress, started_at := some now }
      let db := st.db.updateExecution execution_id
        (fun e => { e with status := .in_progress, started_at := some now })
      let db := db.addInteraction
        { execution_id := execution_id
          interaction_type := "approval_to_start"
          user_input := some "approved"
          system_response := "Checkpoint execution approved and started."
          timestamp := now }
      .ok ({ st with db := db }, execution2)

/-- Result of `_complete_checkpoint_and_advance`: promoted artifacts as
(name, permanent path), next checkpoint / execution when one was spawned,
and the run's resulting status. -/
structure CompleteResult where
  promoted_artifacts : List (String × FPath) := []
  next_checkpoint_id : Option String := none
  next_execution_id : Option String := none
  run_status : RunStatus := .in_progress
deriving DecidableEq, Repr

/-- One iteration of the promotion loop of `_complete_checkpoint_and_advance`:
re-derive (name, artifact id, format) from the staged filename, ensure the
permanent parent directory exists, then `shutil.move` the staged file to
its permanent path and stamp `promoted_to_permanent_at`; a missing staged
file raises `FileNotFoundError`, which is caught and skipped.
`promoteParts` is the (name, artifact id, format) triple parsed from the
staged filename by `stem.rsplit` and `suffix.lstrip`. -/
def promoteParts (a : Artifact) : String × String × String :=
  let stem := nameStem (pathName a.file_path)
  let np := match rsplitOnce stem "_" with
    | some ni => ni
    | none => (stem, a.artifact_id)
  (np.1, np.2, (nameSuffix (pathName a.file_path)).drop 1)

/-- The staging path the promotion loop re-derives for an artifact. -/
def promoteStagingPath (fm : FileManager) (execution : CheckpointExecution) (a : Artifact) :
    FPath :=
  fm.get_artifact_staging_path execution.execution_id (promoteParts a).1 (promoteParts a).2.1
    (promoteParts a).2.2

/-- The permanent path the promotion loop computes for an artifact. -/
def promotePermanentPath (fm : FileManager) (run_version : Nat) (checkpoint_name : String)
    (execution : CheckpointExecution) (a : Artifact) : FPath :=
  fm.get_permanent_artifact_path run_version checkpoint_name execution.checkpoint_position
    (promoteParts a).1 (promoteParts a).2.1 (promoteParts a).2.2

/-- The artifact row as rewritten by a successful promotion: the permanent
path and the promotion timestamp. -/
def promotedRow (fm : FileManager) (run_version : Nat) (checkpoint_name : String)
    (execution : CheckpointExecution) (now : Nat) (a : Artifact) : Artifact :=
  { a with file_path := promotePermanentPath fm run_version checkpoint_name execution a,
           promoted_to_permanent_at := some now }

def promoteOneArtifact (fm : FileManager) (run_version : Nat) (checkpoint_name : String)
    (execution : CheckpointExecution) (now : Nat)
    (acc : St × List (String × FPath)) (a : Artifact) : St × List (String × FPath) :=
  let st := acc.1
  let promoted := acc.2
  let staging_path := promoteStagingPath fm execution a
  let permanent_path := promotePermanentPath fm run_version checkpoint_name execution a
  let st := { st with fs := st.fs.mkdirp permanent_path.dropLast }
  if st.fs.fileExists staging_path then
    let fs := st.fs.moveFile staging_path permanent_path
    let db := st.db.updateArtifact a.artifact_record_id
      (fun a0 => { a0 with file_path := permanent_path, promoted_to_permanent_at := some now })
    ({ st with fs := fs, db := db }, promoted ++ [(a.artifact_name, permanent_path)])
  else
    (st, promoted)

/-- `ExecutionService._complete_checkpoint_and_advance`: promote staged
artifacts when requested, mark the execution `completed`, then either
spawn the next execution (deleting this execution's temp workspace first
and applying the `auto_advance` policy) or, when `checkpoint_order` has
no entry at the next position, complete the run, stamp `completed_at`,
delete the temp workspace and rewrite `run_info.json`.
`next_execution_id` stands for the `uuid4()` of the spawned execution. -/
def complete_checkpoint_and_advance (st : St) (execution_id : String)
    (promote_artifacts : Bool) (next_execution_id : String) (now : Nat) :
    Except (String × St) (St × CompleteResult) :=
  match st.db.findExecution execution_id with
  | none => .error ("NoResultFound: CheckpointExecution", st)
  | some execution =>
  match st.db.findCheckpointDef execution.checkpoint_id with
  | none => .error ("NoResultFound: CheckpointDefinition", st)
  | some checkpoint_def =>
  match st.db.findRun execution.run_id with
  | none => .error ("NoResultFound: PipelineRun", st)
  | some run =>
  match st.db.findPipeline run.pipeline_id with
  | none => .error ("NoResultFound: Pipeline", st)
  | some pipeline =>
  let fm : FileManager := ⟨run.pipeline_id⟩
  let stp :=
    if promote_artifacts then
      (st.db.artifactsOf execution.execution_id).foldl
        (promoteOneArtifact fm run.run_version checkpoint_def.checkpoint_name execution now)
        (st, [])
    else (st, [])
  let promoted := stp.2
  let db1 := stp.1.db.updateExecution execution_id
      (fun e => { e with status := .completed, completed_at := some now })
  let db1 := db1.addInteraction
      { execution_id := execution_id
        interaction_type := "approval_to_complete"
        user_input := some "approved"
        system_response := "Checkpoint completed."
        timestamp := now }
  let st1 : St := { stp.1 with db := db1 }
  let current_position := execution.checkpoint_position
  match pipeline.checkpoint_order[current_position + 1]? with
  | some next_checkpoint_id =>
    match st1.db.findCheckpointDef next_checkpoint_id with
    | none =>
      .ok (st1, { promoted_artifacts := promoted, next_checkpoint_id := some next_checkpoint_id,
                  next_execution_id := none, run_status := run.status })
    | some next_checkpoint_def =>
      let exec_dir := fm.get_temp_execution_directory execution.execution_id
      let fs2 := if st1.fs.pathExists exec_dir then st1.fs.rmtree exec_dir else st1.fs
      let cr := create_checkpoint_execution { st1 with fs := fs2 } run next_checkpoint_def
          (current_position + 1) next_execution_id now
      let next_execution := cr.2
      let db3 := cr.1.db.updateRun run.run_id
          (fun r => { r with current_checkpoint_id := some next_checkpoint_id,
                             current_checkpoint_position := some (current_position + 1) })
      let st3 : St := { cr.1 with db := db3 }
      let st4 : St :=
        if pipeline.auto_advance then
          if next_checkpoint_def.human_interaction.requires_approval_to_start.getD false then st3
          else
            let db4 := st3.db.updateExecution next_execution.execution_id
              (fun e => { e with status := .in_progress, started_at := some now })
            { st3 with db := db4 }
        else
          let db4 := st3.db.updateExecution next_execution.execution_id
            (fun e => { e with status := .waiting_approval_to_start })
          { st3 with db := db4 }
      .ok (st4, { promoted_artifacts := promoted, next_checkpoint_id := some next_checkpoint_id,
                  next_execution_id := some next_execution.execution_id, run_status := run.status })
  | none =>
    let db2 := st1.db.updateRun run.run_id
        (fun r => { r with status := .completed, completed_at := some now,
                           current_checkpoint_id := none, current_checkpoint_position := none })
    let exec_dir := fm.get_temp_execution_directory execution.execution_id
    let fs2 := if st1.fs.pathExists exec_dir then st1.fs.rmtree exec_dir else st1.fs
    let fs2 := fs2.writeFile (fm.get_run_directory run.run_version ++ ["run_info.json"]) 0
    .ok ({ st1 with db := db2, fs := fs2 },
         { promoted_artifacts := promoted, next_checkpoint_id := none,
           next_execution_id := none, run_status := .completed })

/-- `ExecutionService.submit_form_data`: only from `in_progress`; record the
submission interaction, optionally write/overwrite the staged form-data
artifact (reusing the stable `artifact_id` of an existing artifact with
the same name), then either wait for completion approval or auto-complete
via the completion protocol.  `content` is the rendered form payload. -/
def submit_form_data (st : St) (execution_id : String) (content : String)
    (fresh_artifact_id fresh_artifact_record_id next_execution_id : String) (now : Nat) :
    Except (String × St) (St × CheckpointExecution) :=
  match st.db.findExecution execution_id with
  | none => .error ("Execution with ID " ++ execution_id ++ " not found", st)
  | some execution =>
  if execution.status ≠ .in_progress then
    .error ("Cannot submit form data - execution is in status " ++ execution.status.str ++
      ", expected in_progress", st)
  else
  match st.db.findCheckpointDef execution.checkpoint_id with
  | none => .error ("NoResultFound: CheckpointDefinition", st)
  | some checkpoint_def =>
  match st.db.findRun execution.run_id with
  | none => .error ("NoResultFound: PipelineRun", st)
  | some _run =>
  let human_only_config := checkpoint_def.execution.human_only_config.getD {}
  let staging_dir := execution.temp_workspace_path ++ ["artifacts_staging"]
  let st0 : St := { st with fs := st.fs.mkdirp staging_dir }
  let dbi := st0.db.addInteraction
      { execution_id := execution_id
        interaction_type := "script_input"
        user_input := some content
        system_response := "Form data submitted successfully."
        timestamp := now }
  let st1 : St := { st0 with db := dbi }
  let st2 : St :=
    if human_only_config.save_as_artifact.getD false then
      let artifact_name := human_only_config.artifact_name.getD "form_data"
      let artifact_format := human_only_config.artifact_format.getD "json"
      let existing := st1.db.artifacts.find?
        (fun a => a.execution_id == execution_id && a.artifact_name == artifact_name)
      let artifact_id := match existing with
        | some a => a.artifact_id
        | none => fresh_artifact_id
      let artifact_file := staging_dir ++
        [artifact_name ++ "_" ++ artifact_id ++ "." ++ artifact_format]
      let stf : St := { st1 with fs := st1.fs.writeFile artifact_file content.length }
      match existing with
      | some a =>
        let dba := stf.db.updateArtifact a.artifact_record_id
            (fun a0 => { a0 with file_path := artifact_file, size_bytes := content.length,
                                 format := artifact_format })
        { stf with db := dba }
      | none =>
        let newArtifact : Artifact :=
          { artifact_record_id := fresh_artifact_record_id
            execution_id := execution_id
            artifact_id := artifact_id
            artifact_name := artifact_name
            file_path := artifact_file
            format := artifact_format
            size_bytes := content.length }
        let dba := { stf.db with artifacts := stf.db.artifacts ++ [newArtifact] }
        { stf with db := dba }
    else st1
  if checkpoint_def.human_interaction.requires_approval_to_complete.getD false then
    let db3 := st2.db.updateExecution execution_id
        (fun e => { e with status := .waiting_approval_to_complete })
    .ok ({ st2 with db := db3 }, { execution with status := .waiting_approval_to_complete })
  else
    match complete_checkpoint_and_advance st2 execution_id true next_execution_id now with
    | .error es => .error es
    | .ok (st3, _) => .ok (st3, (st3.db.findExecution execution_id).getD execution)

/-- `ExecutionService.approve_complete`: only from
`waiting_approval_to_complete`; runs the completion protocol. -/
def approve_complete (st : St) (execution_id : String) (promote_artifacts : Bool)
    (next_execution_id : String) (now : Nat) : Except (String × St) (St × CompleteResult) :=
  match st.db.findExecution execution_id with
  | none => .error ("Execution with ID " ++ execution_id ++ " not found", st)
  | some execution =>
  if execution.status ≠ .waiting_approval_to_complete then
    .error ("Cannot approve completion - execution is in status " ++ execution.status.str ++
      ", expected waiting_approval_to_complete", st)
  else
    complete_checkpoint_and_advance st execution_id promote_artifacts next_execution_id now

/-- `ExecutionService.request_revision`: only from
`waiting_approval_to_complete`.  At or above the revision limit: mark the
execution `failed`, stamp `failed_at`, record the interaction, and raise
(the mutations are already flushed, so the error carries the mutated
state).  Below the limit: increment `revision_iteration`, flip back to
`in_progress`, record the interaction. -/
def request_revision (st : St) (execution_id : String) (feedback : String) (now : Nat) :
    Except (String × St) (St × CheckpointExecution) :=
  match st.db.findExecution execution_id with
  | none => .error ("Execution with ID " ++ execution_id ++ " not found", st)
  | some execution =>
  if execution.status ≠ .waiting_approval_to_complete then
    .error ("Cannot request revision - execution is in status " ++ execution.status.str ++
      ", expected waiting_approval_to_complete", st)
  else
  if execution.max_revision_iterations ≤ execution.revision_iteration then
    let db := st.db.updateExecution execution_id
      (fun e => { e with status := .failed, failed_at := some now })
    let db := db.addInteraction
      { execution_id := execution_id
        interaction_type := "revision_request"
        user_input := some feedback
        system_response := "Max revision iterations exceeded. Checkpoint failed."
        timestamp := now }
    .error ("Max revision iterations (" ++ toString execution.max_revision_iterations ++
      ") exceeded. Checkpoint has been marked as failed.", { st with db := db })
  else
    let execution2 := { execution with revision_iteration := execution.revision_iteration + 1,
                                       status := .in_progress }
    let db := st.db.updateExecution execution_id
      (fun e => { e with revision_iteration := e.revision_iteration + 1, status := .in_progress })
    let db := db.addInteraction
      { execution_id := execution_id
        interaction_type := "revision_request"
        user_input := some feedback
        system_response := "Revision requested. Status reset to in_progress."
        timestamp := now }
    .ok ({ st with db := db }, execution2)

/-- `session.delete(execution)` with ORM cascade: the execution row and its
artifact and interaction rows disappear. -/
def Db.deleteExecutionCascade (db : Db) (execution_id : String) : Db :=
  { db with executions := db.executions.filter (fun e => e.execution_id != execution_id),
            artifacts := db.artifacts.filter (fun a => a.execution_id != execution_id),
            interactions := db.interactions.filter (fun i => i.execution_id != execution_id) }

/-- `session.delete(run)` with ORM cascade: the run row, its remaining
executions (with their artifacts/interactions), its rollback events
(source side) and their archived items disappear. -/
def Db.deleteRunCascade (db : Db) (run_id : String) : Db :=
  let deadExec := fun (eid : String) =>
    db.executions.any (fun e => e.run_id == run_id && e.execution_id == eid)
  let deadEvent := fun (rbid : String) =>
    db.rollback_events.any (fun ev => ev.source_run_id == run_id && ev.rollback_id == rbid)
  { db with runs := db.runs.filter (fun r => r.run_id != run_id),
            executions := db.executions.filter (fun e => e.run_id != run_id),
            artifacts := db.artifacts.filter (fun a => !(deadExec a.execution_id)),
            interactions := db.interactions.filter (fun i => !(deadExec i.execution_id)),
            rollback_events := db.rollback_events.filter (fun ev => ev.source_run_id != run_id),
            archived_items := db.archived_items.filter (fun it => !(deadEvent it.rollback_id)) }

/-- Append an archived-item row (`session.add(archived_item)`). -/
def Db.addArchivedItem (db : Db) (it : ArchivedItem) : Db :=
  { db with archived_items := db.archived_items ++ [it] }

/-- `RollbackService._get_checkpoint_at_position`: resolve the ids of
`checkpoint_order` to definitions and index the resulting list. -/
def getCheckpointAtPosition (db : Db) (pipeline_id : String) (position : Nat) :
    Option CheckpointDefn :=
  match db.findPipeline pipeline_id with
  | none => none
  | some pipeline =>
    (pipeline.checkpoint_order.filterMap (fun cp_id => db.findCheckpointDef cp_id))[position]?

/-- `RollbackService._archive_artifact`: a missing source yields a path
under `missing/` without copying anything; otherwise the file is copied
into `artifacts/` under a filename embedding name, artifact id and run
version. -/
def archive_artifact (fs : Fs) (artifact : Artifact) (archive_base_path : FPath)
    (run_version : Nat) : Fs × FPath :=
  if !(fs.fileExists artifact.file_path) then
    (fs, archive_base_path ++ ["missing", pathName artifact.file_path])
  else
    let archived_dirp := archive_base_path ++ ["artifacts"]
    let fs := fs.mkdirp archived_dirp
    let archived_filename := artifact.artifact_name ++ "_" ++ artifact.artifact_id ++
      "_v" ++ toString run_version ++ nameSuffix (pathName artifact.file_path)
    let final_path := archived_dirp ++ [archived_filename]
    (fs.copy2 artifact.file_path final_path, final_path)

/-- An entry of the `archived_artifacts` list both rollback operations
return and store in the rollback event manifest. -/
structure ArchInfo where
  artifact_record_id : String
  artifact_id : String
  artifact_name : String
  original_path : FPath
  archived_path : FPath
  size_bytes : Nat
deriving DecidableEq, Repr

/-- One artifact of a victim execution: archive the file via
`_archive_artifact`, record the `ArchivedItem` row and the manifest entry. -/
def archiveOneArtifact (rollback_id : String) (archive_data_dirp : FPath)
    (run_version : Nat) (execution_id : String) (a2 : St × List ArchInfo)
    (artifact : Artifact) : St × List ArchInfo :=
  let far := archive_artifact a2.1.fs artifact archive_data_dirp run_version
  let info : ArchInfo :=
    { artifact_record_id := artifact.artifact_record_id
      artifact_id := artifact.artifact_id
      artifact_name := artifact.artifact_name
      original_path := artifact.file_path
      archived_path := far.2
      size_bytes := artifact.size_bytes }
  let item : ArchivedItem :=
    { rollback_id := rollback_id
      item_type := "artifact"
      item_id := artifact.artifact_record_id
      original_path := artifact.file_path
      archived_path := far.2
      size_bytes := artifact.size_bytes }
  let db := a2.1.db.addArchivedItem item
  let tr := a2.1.trace ++ [.archiveArtifactOf execution_id artifact.artifact_record_id]
  ({ a2.1 with fs := far.1, db := db, trace := tr }, a2.2 ++ [info])

/-- The archive destination `_archive_artifact` computes for an existing
source: `{archive_base}/artifacts/{name}_{artifact_id}_v{version}{suffix}`. -/
def archivedArtifactPath (archive_base_path : FPath) (run_version : Nat) (a : Artifact) :
    FPath :=
  (archive_base_path ++ ["artifacts"]) ++
    [a.artifact_name ++ "_" ++ a.artifact_id ++ "_v" ++ toString run_version ++
      nameSuffix (pathName a.file_path)]

/-- The placeholder `ArchivedItem` row recorded for a deleted execution:
a relative pseudo-path, size 0. -/
def executionArchivedItem (rollback_id : String) (e : CheckpointExecution) : ArchivedItem :=
  { rollback_id := rollback_id
    item_type := "checkpoint_execution"
    item_id := e.execution_id
    original_path := ["execution_" ++ e.execution_id]
    archived_path := ["archived_data", "execution_" ++ e.execution_id]
    size_bytes := 0 }

/-- The `ArchivedItem` row recorded for an archived artifact, with its
archive destination (the `missing/` path when the source was absent). -/
def artifactArchivedItemAt (rollback_id : String) (a : Artifact) (ap : FPath) : ArchivedItem :=
  { rollback_id := rollback_id, item_type := "artifact", item_id := a.artifact_record_id,
    original_path := a.file_path, archived_path := ap, size_bytes := a.size_bytes }

/-- The `ArchivedItem` row recorded for an archived artifact whose source
file existed. -/
def artifactArchivedItem (rollback_id : String) (archive_base_path : FPath)
    (run_version : Nat) (a : Artifact) : ArchivedItem :=
  { rollback_id := rollback_id, item_type := "artifact", item_id := a.artifact_record_id,
    original_path := a.file_path,
    archived_path := archivedArtifactPath archive_base_path run_version a,
    size_bytes := a.size_bytes }

/-- The loop body shared verbatim by both rollback operations for one victim
execution: archive each artifact (file copy + `ArchivedItem` row), delete
the temp workspace if its (mis-joined) path exists, record the execution's
own `ArchivedItem` placeholder, then delete the execution row. -/
def processExecutionVictim (pipeline_id rollback_id : String) (archive_data_dirp : FPath)
    (run_version : Nat) (acc : St × List ArchInfo) (e : CheckpointExecution) :
    St × List ArchInfo :=
  let fm : FileManager := ⟨pipeline_id⟩
  let artifacts := acc.1.db.artifactsOf e.execution_id
  let stA := artifacts.foldl
    (archiveOneArtifact rollback_id archive_data_dirp run_version e.execution_id) acc
  let st1 := stA.1
  let temp_path := fm.base_path ++ e.temp_workspace_path
  let st2 : St :=
    if !e.temp_workspace_path.isEmpty && st1.fs.pathExists temp_path then
      { st1 with fs := st1.fs.rmtree temp_path,
                 trace := st1.trace ++ [.deleteTempWorkspace e.execution_id] }
    else st1
  let db3 := (st2.db.addArchivedItem
    (executionArchivedItem rollback_id e)).deleteExecutionCascade e.execution_id
  ({ st2 with db := db3, trace := st2.trace ++ [.deleteExecutionRow e.execution_id] }, stA.2)

/-- The update `checkpoint_level_rollback` applies to the rolled-back run:
reopen a completed run, then point it at the target checkpoint. -/
def rollbackRunUpdate (target_checkpoint_id : String) (target_checkpoint_position : Nat)
    (r : PipelineRun) : PipelineRun :=
  let r1 := if r.status = .completed
    then { r with status := .in_progress, completed_at := none } else r
  { r1 with current_checkpoint_id := some target_checkpoint_id,
            current_checkpoint_position := some target_checkpoint_position }

/-- Result dictionary of `checkpoint_level_rollback` (the no-op result has
`rollback_id := none` and a message). -/
structure CkptRollbackResult where
  rollback_id : Option String := none
  deleted_executions : List String := []
  archived_artifacts : List ArchInfo := []
  target_checkpoint_position : Nat := 0
  archive_location : Option FPath := none
  run_status : Option RunStatus := none
  message : Option String := none
deriving DecidableEq, Repr

/-- The distinct no-op result `checkpoint_level_rollback` returns when no
execution lies beyond the target position. -/
def noopCkptResult (target_checkpoint_position : Nat) : CkptRollbackResult :=
  { rollback_id := none
    deleted_executions := []
    archived_artifacts := []
    target_checkpoint_position := target_checkpoint_position
    message := some "No checkpoints to delete - already at or before target position" }

/-- `RollbackService.checkpoint_level_rollback`: validate run and target
position, select the victim executions (position strictly above target,
descending), report a distinct no-op when there are none; otherwise
archive-and-delete each victim, record the rollback event, reopen a
completed run to `in_progress` and reset the current-position pointer. -/
def checkpoint_level_rollback (st : St) (pipeline_id run_id : String)
    (target_checkpoint_position : Nat) (user_reason : Option String)
    (rollback_id : String) (now : Nat) : Except (String × St) (St × CkptRollbackResult) :=
  match st.db.findRun run_id with
  | none => .error ("Run " ++ run_id ++ " not found", st)
  | some run =>
  if run.pipeline_id ≠ pipeline_id then
    .error ("Run " ++ run_id ++ " does not belong to pipeline " ++ pipeline_id, st)
  else
  match getCheckpointAtPosition st.db pipeline_id target_checkpoint_position with
  | none => .error ("No checkpoint found at position " ++ toString target_checkpoint_position, st)
  | some target_checkpoint =>
  let executions_to_delete := sortByDesc (fun e => e.checkpoint_position)
    (st.db.executions.filter
      (fun e => e.run_id == run_id && target_checkpoint_position < e.checkpoint_position))
  if executions_to_delete.isEmpty then
    .ok (st, { rollback_id := none
               deleted_executions := []
               archived_artifacts := []
               target_checkpoint_position := target_checkpoint_position
               message := some "No checkpoints to delete - already at or before target position" })
  else
    let fm : FileManager := ⟨pipeline_id⟩
    let archive_dirp := fm.archived_dir ++ ["rollback_" ++ rollback_id ++ "_" ++ toString now]
    let st0 : St :=
      { st with fs := (st.fs.mkdirp archive_dirp).mkdirp (archive_dirp ++ ["archived_data"]) }
    let folded := executions_to_delete.foldl
      (processExecutionVictim pipeline_id rollback_id (archive_dirp ++ ["archived_data"])
        run.run_version)
      (st0, [])
    let deleted_executions := executions_to_delete.map (fun e => e.execution_id)
    let rollback_event : RollbackEvent :=
      { rollback_id := rollback_id
        source_run_id := run_id
        source_run_version := run.run_version
        rollback_type := "checkpoint_level"
        target_run_id := run_id
        target_checkpoint_id := target_checkpoint.checkpoint_id
        target_checkpoint_position := target_checkpoint_position
        archive_location := archive_dirp
        triggered_by := "user_request"
        user_reason := user_reason
        created_at := now }
    let db1 := { folded.1.db with
      rollback_events := folded.1.db.rollback_events ++ [rollback_event] }
    let db2 := db1.updateRun run_id
      (rollbackRunUpdate target_checkpoint.checkpoint_id target_checkpoint_position)
    let finalStatus := if run.status = .completed then RunStatus.in_progress else run.status
    .ok ({ folded.1 with db := db2 },
      { rollback_id := some rollback_id
        deleted_executions := deleted_executions
        archived_artifacts := folded.2
        target_checkpoint_position := target_checkpoint_position
        archive_location := some archive_dirp
        run_status := some finalStatus })

/-- One victim run of `run_level_rollback`: archive-and-delete each of its
executions, recursively copy the whole run directory into the archive
(recording a `run` archived item), then delete the run row. -/
def processRunVictim (pipeline_id rollback_id : String) (archive_dirp : FPath)
    (acc : St × List ArchInfo) (r : PipelineRun) : St × List ArchInfo :=
  let st := acc.1
  let executions := st.db.executions.filter (fun e => e.run_id == r.run_id)
  let stE := executions.foldl
    (processExecutionVictim pipeline_id rollback_id (archive_dirp ++ ["archived_data"])
      r.run_version)
    (st, acc.2)
  let st1 := stE.1
  let fm : FileManager := ⟨pipeline_id⟩
  let run_dir := fm.get_run_directory r.run_version
  let st2 : St :=
    if st1.fs.pathExists run_dir then
      let archived_run_dir := archive_dirp ++ ["archived_data", "v" ++ toString r.run_version]
      let item : ArchivedItem :=
        { rollback_id := rollback_id
          item_type := "run"
          item_id := r.run_id
          original_path := run_dir
          archived_path := archived_run_dir
          size_bytes := 0 }
      { st1 with fs := st1.fs.copytree run_dir archived_run_dir,
                 db := st1.db.addArchivedItem item,
                 trace := st1.trace ++ [.copyRunDir r.run_id run_dir archived_run_dir] }
    else st1
  let db3 := st2.db.deleteRunCascade r.run_id
  ({ st2 with db := db3, trace := st2.trace ++ [.deleteRunRow r.run_id] }, stE.2)

/-- Result dictionary of `run_level_rollback`. -/
structure RunRollbackResult where
  rollback_id : Option String := none
  deleted_runs : List (String × Nat) := []
  archived_artifacts : List ArchInfo := []
  target_run_version : Option Nat := none
  target_checkpoint_position : Nat := 0
  archive_location : Option FPath := none
  message : Option String := none
deriving DecidableEq, Repr

/-- `RollbackService.run_level_rollback`: validate both runs and the target
position, select victim runs (version strictly above the target's,
descending, plus the current run when newer), report a no-op when there
are none; otherwise archive-and-delete every victim run, record the
rollback event, reopen the target run when it had completed, reset its
current-position pointer and repoint the `latest` symlink. -/
def run_level_rollback (st : St) (pipeline_id current_run_id target_run_id : String)
    (target_checkpoint_position : Nat) (user_reason : Option String)
    (rollback_id : String) (now : Nat) : Except (String × St) (St × RunRollbackResult) :=
  match st.db.findRun current_run_id with
  | none => .error ("Current run " ++ current_run_id ++ " not found", st)
  | some current_run =>
  match st.db.findRun target_run_id with
  | none => .error ("Target run " ++ target_run_id ++ " not found", st)
  | some target_run =>
  if current_run.pipeline_id ≠ pipeline_id ∨ target_run.pipeline_id ≠ pipeline_id then
    .error ("Runs do not belong to pipeline " ++ pipeline_id, st)
  else
  match getCheckpointAtPosition st.db pipeline_id target_checkpoint_position with
  | none => .error ("No checkpoint found at position " ++ toString target_checkpoint_position, st)
  | some target_checkpoint =>
  let runs_to_delete := sortByDesc (fun r => r.run_version)
    (st.db.runs.filter
      (fun r => r.pipeline_id == pipeline_id && target_run.run_version < r.run_version))
  let runs_to_delete :=
    if target_run.run_version < current_run.run_version &&
        !(runs_to_delete.any (fun r => r.run_id == current_run.run_id)) then
      current_run :: runs_to_delete
    else runs_to_delete
  if runs_to_delete.isEmpty then
    .ok (st, { rollback_id := none, deleted_runs := [], archived_artifacts := [],
               message := some "No runs to delete" })
  else
    let fm : FileManager := ⟨pipeline_id⟩
    let archive_dirp := fm.archived_dir ++ ["rollback_" ++ rollback_id ++ "_" ++ toString now]
    let st0 : St :=
      { st with fs := (st.fs.mkdirp archive_dirp).mkdirp (archive_dirp ++ ["archived_data"]) }
    let folded := runs_to_delete.foldl
      (processRunVictim pipeline_id rollback_id archive_dirp) (st0, [])
    let deleted_runs := runs_to_delete.map (fun r => (r.run_id, r.run_version))
    let rollback_event : RollbackEvent :=
      { rollback_id := rollback_id
        source_run_id := current_run_id
        source_run_version := current_run.run_version
        rollback_type := "run_level"
        target_run_id := target_run_id
        target_checkpoint_id := target_checkpoint.checkpoint_id
        target_checkpoint_position := target_checkpoint_position
        archive_location := archive_dirp
        triggered_by := "user_request"
        user_reason := user_reason
        created_at := now }
    let db1 := { folded.1.db with
      rollback_events := folded.1.db.rollback_events ++ [rollback_event] }
    let db2 := db1.updateRun target_run_id
      (rollbackRunUpdate target_checkpoint.checkpoint_id target_checkpoint_position)
    let latest := setLatest folded.1.latest pipeline_id target_run.run_version
    .ok ({ folded.1 with db := db2, latest := latest },
      { rollback_id := some rollback_id
        deleted_runs := deleted_runs
        archived_artifacts := folded.2
        target_run_version := some target_run.run_version
        target_checkpoint_position := target_checkpoint_position
        archive_location := some archive_dirp })

/-- `RollbackService.get_rollback_history`: note the base query filters by
`RollbackEvent.source_run_id == self.pipeline_id` (a run-id column
compared against the pipeline id); an optional `run_id` adds a second
conjunct on the same column; newest first, limited. -/
def get_rollback_history (db : Db) (pipeline_id : String) (run_id : Option String)
    (limit : Nat) : List RollbackEvent :=
  let evs := db.rollback_events.filter (fun ev => ev.source_run_id == pipeline_id)
  let evs := match run_id with
    | some rid => evs.filter (fun ev => ev.source_run_id == rid)
    | none => evs
  (sortByDesc (fun ev => ev.created_at) evs).take limit

/-- The database after `request_revision` hits the revision limit. -/
def dbRevisionFailed (db : Db) (execution_id feedback : String) (now : Nat) : Db :=
  (db.updateExecution execution_id
    (fun e => { e with status := .failed, failed_at := some now })).addInteraction
      { execution_id := execution_id, interaction_type := "revision_request",
        user_input := some feedback,
        system_response := "Max revision iterations exceeded. Checkpoint failed.",
        timestamp := now }

/-- The database after a successful `request_revision`. -/
def dbRevisionBumped (db : Db) (execution_id feedback : String) (now : Nat) : Db :=
  (db.updateExecution execution_id
    (fun e => { e with revision_iteration := e.revision_iteration + 1,
                       status := .in_progress })).addInteraction
      { execution_id := execution_id, interaction_type := "revision_request",
        user_input := some feedback,
        system_response := "Revision requested. Status reset to in_progress.",
        timestamp := now }

/-! Concrete sample states used to exercise the theorems below on explicit
inputs (witnesses and counterexamples). -/

/-- A pipeline with one run (version 3) and one checkpoint, for exercising
`create_run`. -/
def c6st : St :=
  { db := { pipelines := [{ pipeline_id := "p6", checkpoint_order := ["c6a"] }],
            runs := [{ run_id := "r6a", pipeline_id := "p6", run_version := 3,
                       status := .completed }] } }

/-- A single execution already `completed`, for exercising the invalid-state
guards. -/
def c7exec : CheckpointExecution :=
  { execution_id := "e7", run_id := "r7", checkpoint_id := "c7", checkpoint_position := 0,
    status := .completed }

/-- State holding only `c7exec`. -/
def c7st : St := { db := { executions := [c7exec] } }

/-- An execution waiting for completion approval that has used up its
revision budget. -/
def c3exec : CheckpointExecution :=
  { execution_id := "e3", run_id := "r3", checkpoint_id := "c3", checkpoint_position := 0,
    status := .waiting_approval_to_complete, revision_iteration := 2,
    max_revision_iterations := 2 }

/-- State holding only `c3exec`. -/
def c3st : St := { db := { executions := [c3exec] } }

/-- A pipeline whose only rollback event belongs to one of its runs (its
`source_run_id` is a run id, never the pipeline id). -/
def c10db : Db :=
  { pipelines := [{ pipeline_id := "p10", checkpoint_order := ["c10a"] }],
    runs := [{ run_id := "r10", pipeline_id := "p10", run_version := 1 }],
    rollback_events := [{ rollback_id := "rb10", source_run_id := "r10",
                          source_run_version := 1, rollback_type := "checkpoint_level",
                          target_run_id := "r10", target_checkpoint_id := "c10a",
                          target_checkpoint_position := 0, archive_location := [],
                          created_at := 5 }] }

/-- Scenario-A fixtures: a two-checkpoint pipeline with `auto_advance`, its
run at position 0 with an `in_progress` execution. -/
def c2cd0 : CheckpointDefn :=
  { checkpoint_id := "c0", pipeline_id := "p2", checkpoint_name := "alpha",
    human_interaction := { requires_approval_to_start := some false,
                           requires_approval_to_complete := some false } }

/-- Second checkpoint of the Scenario-A pipeline. -/
def c2cd1 : CheckpointDefn :=
  { checkpoint_id := "c1", pipeline_id := "p2", checkpoint_name := "beta",
    human_interaction := { requires_approval_to_start := some false } }

/-- The Scenario-A pipeline. -/
def c2pl : Pipeline :=
  { pipeline_id := "p2", checkpoint_order := ["c0", "c1"], auto_advance := true }

/-- The Scenario-A run, at position 0. -/
def c2run : PipelineRun :=
  { run_id := "r2", pipeline_id := "p2", run_version := 1, status := .in_progress,
    current_checkpoint_id := some "c0", current_checkpoint_position := some 0 }

/-- The Scenario-A execution at position 0, `in_progress`. -/
def c2exec : CheckpointExecution :=
  { execution_id := "e0", run_id := "r2", checkpoint_id := "c0", checkpoint_position := 0,
    status := .in_progress,
    temp_workspace_path := ["pipelines", "p2", ".temp", "exec_e0"],
    permanent_output_path := ["pipelines", "p2", "runs", "v1", "checkpoint_0_alpha", "outputs"] }

/-- The Scenario-A state. -/
def c2st : St :=
  { db := { pipelines := [c2pl], checkpoint_defs := [c2cd0, c2cd1], runs := [c2run],
            executions := [c2exec] } }

/-- A staged artifact of the Scenario-A execution, used to exercise the
promotion loop: its staged file lives in the execution's
`artifacts_staging` directory. -/
def c8art : Artifact :=
  { artifact_record_id := "ar0", execution_id := "e0", artifact_id := "a0",
    artifact_name := "report",
    file_path := ["pipelines", "p2", ".temp", "exec_e0", "artifacts_staging", "report_a0.md"],
    format := "md", size_bytes := 7 }

/-- Scenario A with one staged artifact present on disk. -/
def c8st : St :=
  { db := { pipelines := [c2pl], checkpoint_defs := [c2cd0, c2cd1], runs := [c2run],
            executions := [c2exec], artifacts := [c8art] },
    fs := { files := [(["pipelines", "p2", ".temp", "exec_e0", "artifacts_staging",
                        "report_a0.md"], 7)] } }

/-- First checkpoint of the C5 pipeline. -/
def c5kd0 : CheckpointDefn :=
  { checkpoint_id := "k0", pipeline_id := "p5", checkpoint_name := "one" }

/-- Second checkpoint of the C5 pipeline. -/
def c5kd1 : CheckpointDefn :=
  { checkpoint_id := "k1", pipeline_id := "p5", checkpoint_name := "two" }

/-- The C5 pipeline, two checkpoints. -/
def c5pl : Pipeline :=
  { pipeline_id := "p5", checkpoint_order := ["k0", "k1"] }

/-- The C5 run, past position 0. -/
def c5run : PipelineRun :=
  { run_id := "r5", pipeline_id := "p5", run_version := 1, status := .in_progress }

/-- The C5 execution at position 0 (survivor). -/
def c5e0 : CheckpointExecution :=
  { execution_id := "e50", run_id := "r5", checkpoint_id := "k0", checkpoint_position := 0,
    status := .completed }

/-- The C5 execution at position 1 (rollback victim). -/
def c5e1 : CheckpointExecution :=
  { execution_id := "e51", run_id := "r5", checkpoint_id := "k1", checkpoint_position := 1,
    status := .in_progress }

/-- The C5 counterexample state: rolling r5 back to position 0 archives and
deletes e51, recording a placeholder `ArchivedItem` for it. -/
def c5st : St :=
  { db := { pipelines := [c5pl], checkpoint_defs := [c5kd0, c5kd1], runs := [c5run],
            executions := [c5e0, c5e1] } }

/-- A victim artifact with its source file on disk (3 bytes), for the C5
amended-claim witness. -/
def c5wart : Artifact :=
  { artifact_record_id := "war", execution_id := "e9", artifact_id := "wa",
    artifact_name := "doc", file_path := ["data", "doc_wa.txt"], format := "txt",
    size_bytes := 3 }

/-- A victim execution with an empty stored temp-workspace path. -/
def c5we : CheckpointExecution :=
  { execution_id := "e9", run_id := "r9", checkpoint_id := "k9", checkpoint_position := 0,
    status := .in_progress }

/-- The C5 amended-claim witness state. -/
def c5wst : St :=
  { db := { executions := [c5we], artifacts := [c5wart] },
    fs := { files := [(["data", "doc_wa.txt"], 3)] } }

/-- The single checkpoint of the C4 pipeline. -/
def c4kd : CheckpointDefn :=
  { checkpoint_id := "kc", pipeline_id := "p4", checkpoint_name := "main" }

/-- The C4 pipeline. -/
def c4pl : Pipeline :=
  { pipeline_id := "p4", checkpoint_order := ["kc"] }

/-- The C4 target run (version 1, completed). -/
def c4r1 : PipelineRun :=
  { run_id := "r41", pipeline_id := "p4", run_version := 1, status := .completed }

/-- The C4 current run (version 2, the rollback victim). -/
def c4r2 : PipelineRun :=
  { run_id := "r42", pipeline_id := "p4", run_version := 2, status := .in_progress }

/-- The victim run's execution. -/
def c4e : CheckpointExecution :=
  { execution_id := "e42", run_id := "r42", checkpoint_id := "kc", checkpoint_position := 0,
    status := .in_progress }

/-- The C4 witness state: two runs, rolling back to version 1. -/
def c4st : St :=
  { db := { pipelines := [c4pl], checkpoint_defs := [c4kd], runs := [c4r1, c4r2],
            executions := [c4e] } }

/-- An execution whose state machine is still live: the three statuses from
which the services can move the row further.  `completed` and `failed` are
terminal; `pending` is a transient constructor value never stored by any
modelled operation. -/
def ExecStatus.active : ExecStatus → Bool
  | .waiting_approval_to_start => true
  | .in_progress => true
  | .waiting_approval_to_complete => true
  | _ => false

/-- Per-(run, position) uniqueness of execution rows: no two rows of the
executions table share both their run and their checkpoint position. -/
def uniquePositions (db : Db) : Prop :=
  db.executions.Pairwise
    (fun x y => x.run_id = y.run_id → x.checkpoint_position ≠ y.checkpoint_position)

/-- For every run id and checkpoint position, at most one execution row
exists in the executions table (archived executions have been deleted from
it, so these are exactly the non-archived ones). -/
def atMostOnePerPosition (db : Db) : Prop :=
  ∀ (rid : String) (pos : Nat),
    (db.executions.filter
      (fun e => e.run_id == rid && e.checkpoint_position == pos)).length ≤ 1

/-- The inductive invariant that carries per-(run, position) uniqueness
through every operation: execution ids are unique; positions are unique
per run; a live execution is the only live one of its run and sits at the
run's highest occupied position; a run that was never started has no
execution rows. -/
def Inv (st : St) : Prop :=
  ((st.db.executions.map (fun e => e.execution_id)).Nodup) ∧
  uniquePositions st.db ∧
  (∀ e ∈ st.db.executions, e.status.active = true →
    ∀ e2 ∈ st.db.executions, e2.run_id = e.run_id →
      e2.checkpoint_position ≤ e.checkpoint_position ∧ (e2.status.active = true → e2 = e)) ∧
  (∀ r ∈ st.db.runs, r.status = RunStatus.not_started →
    ∀ e ∈ st.db.executions, e.run_id ≠ r.run_id)

/-- The state a service call leaves behind: the state returned on success,
or the session state attached to the raised exception (mutations flushed
before the raise remain visible there). -/
def outState (r : Except (String × St) (St × α)) : St :=
  match r with
  | .ok (st2, _) => st2
  | .error (_, st2) => st2

/-- The execution-row rewrite the completion protocol applies to the
completing execution: status `completed`, `completed_at` stamped; other
rows are untouched. -/
def completionUpd (execution_id : String) (now : Nat) (e : CheckpointExecution) :
    CheckpointExecution :=
  if e.execution_id == execution_id then
    { e with status := .completed, completed_at := some now }
  else e

/-- The run row as rewritten when the completion protocol finds no next
checkpoint: the run completes. -/
def completedRunUpd (now : Nat) (r : PipelineRun) : PipelineRun :=
  { r with status := .completed, completed_at := some now,
           current_checkpoint_id := none, current_checkpoint_position := none }

/-- The run row as rewritten when the completion protocol advances to the
next checkpoint: only the current-checkpoint pointer moves. -/
def advancedRunUpd (next_checkpoint_id : String) (pos : Nat) (r : PipelineRun) : PipelineRun :=
  { r with current_checkpoint_id := some next_checkpoint_id,
           current_checkpoint_position := some pos }

/-- The spawned execution row after the `auto_advance` policy starts it. -/
def startedNext (now : Nat) (e : CheckpointExecution) : CheckpointExecution :=
  { e with status := .in_progress, started_at := some now }

/-- The spawned execution row after the no-`auto_advance` policy queues it
for start approval. -/
def queuedNext (e : CheckpointExecution) : CheckpointExecution :=
  { e with status := .waiting_approval_to_start }

/-- The submitting execution row once it waits for completion approval. -/
def waitUpd (e : CheckpointExecution) : CheckpointExecution :=
  { e with status := .waiting_approval_to_complete }

/-- The run row as rewritten by `start_run`: opened `in_progress`, pointed
at position 0. -/
def startedRun (run : PipelineRun) (checkpoint_id : String) (now : Nat) : PipelineRun :=
  { run with status := .in_progress, current_checkpoint_id := some checkpoint_id,
             current_checkpoint_position := some 0, started_at := some now }

/-- One public service call, relating the state before the call to the state
it leaves behind (`outState`, so failed calls are covered too).  The
freshness hypotheses say the `uuid4()` values handed to the call do not
collide with identifiers already stored.  The completion-protocol advance
(`_complete_checkpoint_and_advance`) is private in the source and enters
only through `submit_form_data` and `approve_complete`. -/
inductive Step : St → St → Prop
  | createRun (st : St) (pipeline_id : String) (ext : Option String) (new_run_id : String)
      (now : Nat) (hfr : ∀ e ∈ st.db.executions, e.run_id ≠ new_run_id) :
      Step st (outState (create_run st pipeline_id ext new_run_id now))
  | startRun (st : St) (run_id first_execution_id : String) (now : Nat)
      (hfr : ∀ e ∈ st.db.executions, e.execution_id ≠ first_execution_id) :
      Step st (outState (start_run st run_id first_execution_id now))
  | approveStart (st : St) (execution_id : String) (now : Nat) :
      Step st (outState (approve_start st execution_id now))
  | submitForm (st : St) (execution_id content faid frid next_execution_id : String)
      (now : Nat)
      (hfr : ∀ e ∈ st.db.executions, e.execution_id ≠ next_execution_id) :
      Step st
        (outState (submit_form_data st execution_id content faid frid next_execution_id now))
  | approveComplete (st : St) (execution_id : String) (promote : Bool)
      (next_execution_id : String) (now : Nat)
      (hfr : ∀ e ∈ st.db.executions, e.execution_id ≠ next_execution_id) :
      Step st (outState (approve_complete st execution_id promote next_execution_id now))
  | requestRevision (st : St) (execution_id feedback : String) (now : Nat) :
      Step st (outState (request_revision st execution_id feedback now))
  | ckptRollback (st : St) (pipeline_id run_id : String) (target : Nat)
      (reason : Option String) (rollback_id : String) (now : Nat) :
      Step st
        (outState (checkpoint_level_rollback st pipeline_id run_id target reason
          rollback_id now))
  | runRollback (st : St) (pipeline_id current_run_id target_run_id : String) (target : Nat)
      (reason : Option String) (rollback_id : String) (now : Nat) :
      Step st
        (outState (run_level_rollback st pipeline_id current_run_id target_run_id target
          reason rollback_id now))

/-- An initial state: static configuration only (pipelines and checkpoint
definitions are authored by other services), no runs, no executions, empty
filesystem. -/
def initSt (pipelines : List Pipeline) (checkpoint_defs : List CheckpointDefn) : St :=
  { db := { pipelines := pipelines, checkpoint_defs := checkpoint_defs } }

/-- The C9 witness pipeline. -/
def c9pl : Pipeline := { pipeline_id := "p9", checkpoint_order := ["c9a"] }

/-- The C9 witness checkpoint definition. -/
def c9cd : CheckpointDefn :=
  { checkpoint_id := "c9a", pipeline_id := "p9", checkpoint_name := "step" }

/-- The C9 initial state. -/
def c9s0 : St := initSt [c9pl] [c9cd]

/-- The C9 state after creating a run. -/
def c9s1 : St := outState (create_run c9s0 "p9" none "r9" 0)

/-- The C9 state after starting the run (one execution at position 0). -/
def c9s2 : St := outState (start_run c9s1 "r9" "e9" 1)

/-! Supporting lemmas: the insertion sort, `foldr max`, finite-map reads of
the filesystem, and row lookups after row updates. -/

theorem insertByDesc_perm (key : α → Nat) (a : α) (l : List α) :
    (insertByDesc key a l).Perm (a :: l) := by
  induction l with
  | nil => simp [insertByDesc]
  | cons b t ih =>
    simp only [insertByDesc]
    split
    · exact List.Perm.refl _
    · exact (ih.cons b).trans (List.Perm.swap a b t)

theorem sortByDesc_perm (key : α → Nat) (l : List α) : (sortByDesc key l).Perm l := by
  induction l with
  | nil => simp [sortByDesc]
  | cons a t ih => exact (insertByDesc_perm key a _).trans (ih.cons a)

theorem sorted_insertByDesc (key : α → Nat) (a : α) (l : List α)
    (h : l.Pairwise (fun x y => key y ≤ key x)) :
    (insertByDesc key a l).Pairwise (fun x y => key y ≤ key x) := by
  induction l with
  | nil => simp [insertByDesc]
  | cons b t ih =>
    rcases List.pairwise_cons.mp h with ⟨hb, ht⟩
    simp only [insertByDesc]
    split
    · rename_i hba
      refine List.pairwise_cons.mpr ⟨?_, h⟩
      intro x hx
      rcases List.mem_cons.mp hx with rfl | hx
      · exact hba
      · exact le_trans (hb x hx) hba
    · rename_i hba
      refine List.pairwise_cons.mpr ⟨?_, ih ht⟩
      intro x hx
      have hx2 := (insertByDesc_perm key a t).mem_iff.mp hx
      rcases List.mem_cons.mp hx2 with rfl | hx2
      · exact le_of_not_le hba
      · exact hb x hx2

theorem sortByDesc_sorted (key : α → Nat) (l : List α) :
    (sortByDesc key l).Pairwise (fun x y => key y ≤ key x) := by
  induction l with
  | nil => simp [sortByDesc]
  | cons a t ih => exact sorted_insertByDesc key a _ ih

theorem sortByDesc_mem (key : α → Nat) (l : List α) (x : α) :
    x ∈ sortByDesc key l ↔ x ∈ l :=
  (sortByDesc_perm key l).mem_iff

theorem le_foldr_max (l : List Nat) (x : Nat) (hx : x ∈ l) : x ≤ l.foldr max 0 := by
  induction l with
  | nil => cases hx
  | cons a t ih =>
    rcases List.mem_cons.mp hx with rfl | hx
    · exact le_max_left _ _
    · exact le_trans (ih hx) (le_max_right _ _)

theorem foldr_max_mem (l : List Nat) (h : l ≠ []) : l.foldr max 0 ∈ l := by
  induction l with
  | nil => exact absurd rfl h
  | cons a t ih =>
    cases t with
    | nil => simp
    | cons b u =>
      rw [List.foldr_cons]
      rcases le_total ((b :: u).foldr max 0) a with hle | hle
      · rw [max_eq_left hle]
        exact List.mem_cons_self a _
      · rw [max_eq_right hle]
        exact List.mem_cons_of_mem a (ih (by simp))

theorem find?_filter_bne (l : List (FPath × Nat)) (p q : FPath) (hpq : p ≠ q) :
    (l.filter (fun f => f.1 != q)).find? (fun f => f.1 == p) = l.find? (fun f => f.1 == p) := by
  induction l with
  | nil => rfl
  | cons f t ih =>
    rcases eq_or_ne f.1 q with hfq | hfq
    · have hfp : f.1 ≠ p := by rw [hfq]; exact fun h => hpq h.symm
      rw [List.filter_cons_of_neg (by simp [hfq]), List.find?_cons_of_neg t (by simp [hfp])]
      exact ih
    · rw [List.filter_cons_of_pos (by simp [hfq])]
      rcases eq_or_ne f.1 p with hfp | hfp
      · rw [List.find?_cons_of_pos _ (by simp [hfp]), List.find?_cons_of_pos _ (by simp [hfp])]
      · rw [List.find?_cons_of_neg _ (by simp [hfp]), List.find?_cons_of_neg _ (by simp [hfp])]
        exact ih

theorem fileSize_writeFile (fs : Fs) (q p : FPath) (n : Nat) :
    (fs.writeFile q n).fileSize p = if p = q then some n else fs.fileSize p := by
  simp only [Fs.writeFile, Fs.fileSize]
  by_cases hpq : p = q
  · subst hpq
    rw [if_pos rfl, List.find?_cons_of_pos _ (by simp)]
    rfl
  · rw [if_neg hpq, List.find?_cons_of_neg _ (by simp; exact fun h => hpq h.symm),
      find?_filter_bne _ _ _ hpq]

theorem fileSize_removeFile (fs : Fs) (q p : FPath) :
    (fs.removeFile q).fileSize p = if p = q then none else fs.fileSize p := by
  simp only [Fs.removeFile, Fs.fileSize]
  by_cases hpq : p = q
  · subst hpq
    rw [if_pos rfl]
    have hnone : (fs.files.filter (fun f => f.1 != p)).find? (fun f => f.1 == p) = none := by
      refine List.find?_eq_none.mpr (fun f hf => ?_)
      have h2 := (List.mem_filter.mp hf).2
      simp only [bne_iff_ne, ne_eq] at h2
      simp [h2]
    rw [hnone]
    rfl
  · rw [if_neg hpq, find?_filter_bne _ _ _ hpq]

theorem fileSize_mkdirp (fs : Fs) (q p : FPath) :
    (fs.mkdirp q).fileSize p = fs.fileSize p := by
  simp only [Fs.mkdirp]
  split <;> rfl

theorem fileSize_moveFile (fs : Fs) (src dst p : FPath) (sz : Nat)
    (hsrc : fs.fileSize src = some sz) :
    (fs.moveFile src dst).fileSize p =
      if p = dst then some sz else if p = src then none else fs.fileSize p := by
  simp only [Fs.moveFile, hsrc]
  rw [fileSize_writeFile]
  by_cases hd : p = dst
  · simp [hd]
  · rw [if_neg hd, if_neg hd, fileSize_removeFile]

theorem fileExists_mkdirp (fs : Fs) (q p : FPath) :
    (fs.mkdirp q).fileExists p = fs.fileExists p := by
  simp only [Fs.fileExists, fileSize_mkdirp]

theorem any_pathUnder_filter_bne (l : List (FPath × Nat)) (p q : FPath)
    (hu : pathUnder p q = false) :
    (l.filter (fun f => f.1 != q)).any (fun f => pathUnder p f.1) =
      l.any (fun f => pathUnder p f.1) := by
  induction l with
  | nil => rfl
  | cons f t ih =>
    rcases eq_or_ne f.1 q with hfq | hfq
    · have hpf : pathUnder p f.1 = false := by rw [hfq]; exact hu
      rw [List.filter_cons_of_neg (by simp [hfq]), List.any_cons, hpf, Bool.false_or]
      exact ih
    · rw [List.filter_cons_of_pos (by simp [hfq]), List.any_cons, List.any_cons, ih]

theorem pathExists_mkdirp (fs : Fs) (q p : FPath) :
    (fs.mkdirp q).pathExists p = (fs.pathExists p || pathUnder p q) := by
  simp only [Fs.mkdirp, Fs.pathExists]
  split
  · rename_i hq
    cases hu : pathUnder p q
    · simp
    · have hqm : q ∈ fs.dirs := by simpa using hq
      have hd : fs.dirs.any (fun d => pathUnder p d) = true :=
        List.any_eq_true.mpr ⟨q, hqm, hu⟩
      simp [hd]
  · rw [List.any_cons]
    cases hu : pathUnder p q <;>
      cases h1 : fs.files.any (fun f => pathUnder p f.1) <;>
        cases h2 : fs.dirs.any (fun d => pathUnder p d) <;> simp [hu, h1, h2]

theorem pathExists_writeFile (fs : Fs) (q p : FPath) (n : Nat) :
    (fs.writeFile q n).pathExists p = (fs.pathExists p || pathUnder p q) := by
  simp only [Fs.writeFile, Fs.pathExists, List.any_cons]
  cases hu : pathUnder p q
  · rw [any_pathUnder_filter_bne _ _ _ hu]
    simp
  · simp

theorem pathExists_rmtree_self (fs : Fs) (p : FPath) :
    (fs.rmtree p).pathExists p = false := by
  simp only [Fs.rmtree, Fs.pathExists, Bool.or_eq_false_iff]
  constructor
  · rw [List.any_eq_false]
    intro f hf
    have h2 := (List.mem_filter.mp hf).2
    simp only [Bool.not_eq_eq_eq_not, Bool.not_true] at h2
    simp [h2]
  · rw [List.any_eq_false]
    intro d hd
    have h2 := (List.mem_filter.mp hd).2
    simp only [Bool.not_eq_eq_eq_not, Bool.not_true] at h2
    simp [h2]

theorem pathExists_rmtree_mono (fs : Fs) (q p : FPath)
    (h : (fs.rmtree q).pathExists p = true) : fs.pathExists p = true := by
  simp only [Fs.rmtree, Fs.pathExists] at h ⊢
  rcases Bool.or_eq_true_iff.mp h with h1 | h1
  · rcases List.any_eq_true.mp h1 with ⟨f, hf, hpf⟩
    exact Bool.or_eq_true_iff.mpr
      (Or.inl (List.any_eq_true.mpr ⟨f, (List.mem_filter.mp hf).1, hpf⟩))
  · rcases List.any_eq_true.mp h1 with ⟨d, hd, hpd⟩
    exact Bool.or_eq_true_iff.mpr
      (Or.inr (List.any_eq_true.mpr ⟨d, (List.mem_filter.mp hd).1, hpd⟩))

theorem find?_filter_not_pathUnder (l : List (FPath × Nat)) (p q : FPath)
    (h : pathUnder q p = false) :
    (l.filter (fun f => !(pathUnder q f.1))).find? (fun f => f.1 == p) =
      l.find? (fun f => f.1 == p) := by
  induction l with
  | nil => rfl
  | cons f t ih =>
    rcases eq_or_ne f.1 p with hfp | hfp
    · have hq : pathUnder q f.1 = false := by rw [hfp]; exact h
      rw [List.filter_cons_of_pos (by simp [hq]), List.find?_cons_of_pos _ (by simp [hfp]),
        List.find?_cons_of_pos _ (by simp [hfp])]
    · cases hq : pathUnder q f.1
      · rw [List.filter_cons_of_pos (by simp [hq]), List.find?_cons_of_neg _ (by simp [hfp]),
          List.find?_cons_of_neg _ (by simp [hfp])]
        exact ih
      · rw [List.filter_cons_of_neg (by simp [hq]), List.find?_cons_of_neg _ (by simp [hfp])]
        exact ih

theorem fileSize_rmtree (fs : Fs) (q p : FPath) (h : pathUnder q p = false) :
    (fs.rmtree q).fileSize p = fs.fileSize p := by
  simp only [Fs.rmtree, Fs.fileSize]
  rw [find?_filter_not_pathUnder _ _ _ h]

theorem findExecution_updateExecution (db : Db) (i : String)
    (f : CheckpointExecution → CheckpointExecution)
    (hf : ∀ e, (f e).execution_id = e.execution_id) :
    (db.updateExecution i f).findExecution i = (db.findExecution i).map f := by
  simp only [Db.updateExecution, Db.findExecution]
  induction db.executions with
  | nil => rfl
  | cons e t ih =>
    by_cases he : e.execution_id = i
    · have hb : (e.execution_id == i) = true := by simp [he]
      rw [List.map_cons, if_pos hb,
        @List.find?_cons_of_pos _ (fun x => x.execution_id == i) (f e) _ (by simp [hf, he]),
        @List.find?_cons_of_pos _ (fun x => x.execution_id == i) e _ hb]
      rfl
    · have hb : (e.execution_id == i) = false := by simp [he]
      rw [List.map_cons, if_neg (by simp [hb]), List.find?_cons_of_neg _ (by simp [he]),
        List.find?_cons_of_neg _ (by simp [he])]
      exact ih

theorem findExecution_updateExecution_ne (db : Db) (i j : String)
    (f : CheckpointExecution → CheckpointExecution)
    (hf : ∀ e, (f e).execution_id = e.execution_id) (hne : j ≠ i) :
    (db.updateExecution i f).findExecution j = db.findExecution j := by
  simp only [Db.updateExecution, Db.findExecution]
  induction db.executions with
  | nil => rfl
  | cons e t ih =>
    by_cases he : e.execution_id = i
    · have hb : (e.execution_id == i) = true := by simp [he]
      have hj : (f e).execution_id ≠ j := by
        rw [hf, he]; exact fun h => hne h.symm
      have hj2 : e.execution_id ≠ j := by rw [he]; exact fun h => hne h.symm
      rw [List.map_cons, if_pos hb, List.find?_cons_of_neg _ (by simp [hj]),
        List.find?_cons_of_neg _ (by simp [hj2])]
      exact ih
    · have hb : (e.execution_id == i) = false := by simp [he]
      rw [List.map_cons, if_neg (by simp [hb])]
      rcases eq_or_ne e.execution_id j with hej | hej
      · rw [List.find?_cons_of_pos _ (by simp [hej]), List.find?_cons_of_pos _ (by simp [hej])]
      · rw [List.find?_cons_of_neg _ (by simp [hej]), List.find?_cons_of_neg _ (by simp [hej])]
        exact ih

theorem findRun_updateRun (db : Db) (i : String)
    (f : PipelineRun → PipelineRun)
    (hf : ∀ r, (f r).run_id = r.run_id) :
    (db.updateRun i f).findRun i = (db.findRun i).map f := by
  simp only [Db.updateRun, Db.findRun]
  induction db.runs with
  | nil => rfl
  | cons r t ih =>
    by_cases hr : r.run_id = i
    · have hb : (r.run_id == i) = true := by simp [hr]
      rw [List.map_cons, if_pos hb,
        @List.find?_cons_of_pos _ (fun x => x.run_id == i) (f r) _ (by simp [hf, hr]),
        @List.find?_cons_of_pos _ (fun x => x.run_id == i) r _ hb]
      rfl
    · have hb : (r.run_id == i) = false := by simp [hr]
      rw [List.map_cons, if_neg (by simp [hb]), List.find?_cons_of_neg _ (by simp [hr]),
        List.find?_cons_of_neg _ (by simp [hr])]
      exact ih

/-- Characterization of `get_latest_valid_run`: `none` on an empty run set,
otherwise some run of the pipeline whose version is maximal. -/
theorem get_latest_valid_run_spec (db : Db) (pid : String) :
    (db.runs.filter (fun r => r.pipeline_id == pid) = [] →
      get_latest_valid_run db pid = none) ∧
    (db.runs.filter (fun r => r.pipeline_id == pid) ≠ [] →
      ∃ best, get_latest_valid_run db pid = some best ∧
        best ∈ db.runs.filter (fun r => r.pipeline_id == pid) ∧
        ∀ r2 ∈ db.runs.filter (fun r => r.pipeline_id == pid),
          r2.run_version ≤ best.run_version) := by
  constructor
  · intro h
    simp [get_latest_valid_run, h, sortByDesc]
  · intro h
    unfold get_latest_valid_run
    cases hs : sortByDesc (fun r => r.run_version)
        (db.runs.filter (fun r => r.pipeline_id == pid)) with
    | nil =>
      exfalso
      have := (sortByDesc_perm (fun r => r.run_version)
        (db.runs.filter (fun r => r.pipeline_id == pid))).length_eq
      rw [hs] at this
      exact h (List.length_eq_zero.mp this.symm)
    | cons b t =>
      refine ⟨b, rfl, ?_, ?_⟩
      · have hb : b ∈ sortByDesc (fun r => r.run_version)
            (db.runs.filter (fun r => r.pipeline_id == pid)) := by
          rw [hs]; exact List.mem_cons_self b t
        exact (sortByDesc_mem _ _ _).mp hb
      · intro r2 hr2
        have hm : r2 ∈ b :: t := by
          rw [← hs]; exact (sortByDesc_mem _ _ _).mpr hr2
        rcases List.mem_cons.mp hm with rfl | hmt
        · exact le_refl _
        · have hsorted := sortByDesc_sorted (fun r => r.run_version)
            (db.runs.filter (fun r => r.pipeline_id == pid))
          rw [hs] at hsorted
          exact (List.pairwise_cons.mp hsorted).1 r2 hmt

/-- C10: without a `run_id`, `get_rollback_history` filters rollback events
by `RollbackEvent.source_run_id` equal to the *pipeline* id; hence every
returned event has `source_run_id` equal to the pipeline id, and whenever
no stored event has `source_run_id` equal to the pipeline id (the normal
case, since run ids are generated independently of pipeline ids), the
result is empty even when rollback events for the pipeline's runs exist. -/
theorem c10_rollback_history_source_filter (db : Db) (pipeline_id : String) (limit : Nat) :
    (∀ ev ∈ get_rollback_history db pipeline_id none limit, ev.source_run_id = pipeline_id) ∧
    ((∀ ev ∈ db.rollback_events, ev.source_run_id ≠ pipeline_id) →
      get_rollback_history db pipeline_id none limit = []) := by
  constructor
  · intro ev hev
    simp only [get_rollback_history] at hev
    have h2 := List.take_subset _ _ hev
    have h3 := (sortByDesc_mem (fun ev : RollbackEvent => ev.created_at) _ _).mp h2
    have h4 := List.mem_filter.mp h3
    simpa using h4.2
  · intro h
    simp only [get_rollback_history]
    have hnil : db.rollback_events.filter (fun ev => ev.source_run_id == pipeline_id) = [] := by
      refine List.filter_eq_nil_iff.mpr (fun ev hev => ?_)
      simp [h ev hev]
    rw [hnil]
    simp [sortByDesc]

/-- C10 witness: a state where the pipeline's run has a rollback event, yet
the history query for the pipeline returns nothing. -/
theorem c10_witness :
    c10db.rollback_events ≠ [] ∧ get_rollback_history c10db "p10" none 50 = [] :=
  ⟨by decide, (c10_rollback_history_source_filter c10db "p10" 50).2 (by decide)⟩

/-- C7: each of the four execution-state-machine operations, called on an
existing execution whose status is not the single status the operation
requires, raises an invalid-state error naming the actual and the expected
status and returns the state unchanged (so the execution keeps its status,
`revision_iteration` and every timestamp). -/
theorem c7_invalid_state_rejection (st : St) (execution_id : String) (now : Nat)
    (execution : CheckpointExecution)
    (he : st.db.findExecution execution_id = some execution) :
    (execution.status ≠ .waiting_approval_to_start →
      approve_start st execution_id now =
        .error ("Cannot approve start - execution is in status " ++ execution.status.str ++
          ", expected waiting_approval_to_start", st)) ∧
    (execution.status ≠ .in_progress →
      ∀ content faid frid nid, submit_form_data st execution_id content faid frid nid now =
        .error ("Cannot submit form data - execution is in status " ++ execution.status.str ++
          ", expected in_progress", st)) ∧
    (execution.status ≠ .waiting_approval_to_complete →
      ∀ promote nid, approve_complete st execution_id promote nid now =
        .error ("Cannot approve completion - execution is in status " ++ execution.status.str ++
          ", expected waiting_approval_to_complete", st)) ∧
    (execution.status ≠ .waiting_approval_to_complete →
      ∀ feedback, request_revision st execution_id feedback now =
        .error ("Cannot request revision - execution is in status " ++ execution.status.str ++
          ", expected waiting_approval_to_complete", st)) := by
  refine ⟨fun hs => ?_, fun hs content faid frid nid => ?_,
    fun hs promote nid => ?_, fun hs feedback => ?_⟩
  · simp only [approve_start, he]
    rw [if_pos hs]
  · simp only [submit_form_data, he]
    rw [if_pos hs]
  · simp only [approve_complete, he]
    rw [if_pos hs]
  · simp only [request_revision, he]
    rw [if_pos hs]

/-- C7 witness: `request_revision` on a `completed` execution fails with the
invalid-state error and the state is returned unchanged. -/
theorem c7_witness :
    request_revision c7st "e7" "fb" 9 =
      .error ("Cannot request revision - execution is in status " ++
        ExecStatus.completed.str ++ ", expected waiting_approval_to_complete", c7st) :=
  (c7_invalid_state_rejection c7st "e7" 9 c7exec (by rfl)).2.2.2 (by decide) "fb"

/-- C3: `request_revision` from `waiting_approval_to_complete`.  At or above
the revision limit it marks the execution `failed`, stamps `failed_at`,
records the interaction and reports the max-revisions-exceeded error, and
afterwards no further revision is possible (a new `request_revision` fails
with the invalid-state error, changing nothing).  Below the limit it
increments `revision_iteration` by one, returns the status to
`in_progress` and appends a HumanInteraction. -/
theorem c3_request_revision_limit (st : St) (execution_id feedback : String) (now : Nat)
    (execution : CheckpointExecution)
    (he : st.db.findExecution execution_id = some execution)
    (hs : execution.status = .waiting_approval_to_complete) :
    (execution.max_revision_iterations ≤ execution.revision_iteration →
      ∃ st2, request_revision st execution_id feedback now =
          .error ("Max revision iterations (" ++ toString execution.max_revision_iterations ++
            ") exceeded. Checkpoint has been marked as failed.", st2) ∧
        st2.db.findExecution execution_id =
          some { execution with status := .failed, failed_at := some now } ∧
        st2.db.interactions = st.db.interactions ++
          [{ execution_id := execution_id, interaction_type := "revision_request",
             user_input := some feedback,
             system_response := "Max revision iterations exceeded. Checkpoint failed.",
             timestamp := now }] ∧
        (∀ fb2 now2, request_revision st2 execution_id fb2 now2 =
          .error ("Cannot request revision - execution is in status failed, " ++
            "expected waiting_approval_to_complete", st2))) ∧
    (execution.revision_iteration < execution.max_revision_iterations →
      ∃ st2, request_revision st execution_id feedback now =
          .ok (st2, { execution with revision_iteration := execution.revision_iteration + 1,
                                     status := .in_progress }) ∧
        st2.db.findExecution execution_id =
          some { execution with revision_iteration := execution.revision_iteration + 1,
                                status := .in_progress } ∧
        st2.db.interactions = st.db.interactions ++
          [{ execution_id := execution_id, interaction_type := "revision_request",
             user_input := some feedback,
             system_response := "Revision requested. Status reset to in_progress.",
             timestamp := now }]) := by
  have hguard : ¬ execution.status ≠ ExecStatus.waiting_approval_to_complete := by
    simp [hs]
  constructor
  · intro hmax
    refine ⟨{ st with db := dbRevisionFailed st.db execution_id feedback now }, ?_, ?_, ?_, ?_⟩
    · simp only [request_revision, he]
      rw [if_neg hguard, if_pos hmax]
      rfl
    · show (st.db.updateExecution execution_id
          (fun e => { e with status := .failed, failed_at := some now })).findExecution
            execution_id = _
      rw [findExecution_updateExecution st.db execution_id
        (fun e => { e with status := .failed, failed_at := some now }) (fun e => rfl), he]
      rfl
    · rfl
    · intro fb2 now2
      have he2 : ({ st with db := dbRevisionFailed st.db execution_id feedback now } : St).db.findExecution execution_id =
          some { execution with status := .failed, failed_at := some now } := by
        show (st.db.updateExecution execution_id
          (fun e => { e with status := .failed, failed_at := some now })).findExecution
            execution_id = _
        rw [findExecution_updateExecution st.db execution_id
          (fun e => { e with status := .failed, failed_at := some now }) (fun e => rfl), he]
        rfl
      simp only [request_revision, he2]
      rw [if_pos (by simp)]
      rfl
  · intro hlt
    have hmax : ¬ execution.max_revision_iterations ≤ execution.revision_iteration :=
      not_le.mpr hlt
    refine ⟨{ st with db := dbRevisionBumped st.db execution_id feedback now }, ?_, ?_, ?_⟩
    · simp only [request_revision, he]
      rw [if_neg hguard, if_neg hmax]
      rfl
    · show (st.db.updateExecution execution_id
          (fun e => { e with revision_iteration := e.revision_iteration + 1,
                             status := .in_progress })).findExecution execution_id = _
      rw [findExecution_updateExecution st.db execution_id
        (fun e => { e with revision_iteration := e.revision_iteration + 1,
                           status := .in_progress }) (fun e => rfl), he]
      rfl
    · rfl

/-- C3 witness: with `revision_iteration = max_revision_iterations = 2`, the
call fails, marks the execution `failed` and is terminal. -/
theorem c3_witness :
    ∃ st2, request_revision c3st "e3" "needs work" 12 =
        .error ("Max revision iterations (" ++ toString c3exec.max_revision_iterations ++
          ") exceeded. Checkpoint has been marked as failed.", st2) ∧
      st2.db.findExecution "e3" =
        some { c3exec with status := .failed, failed_at := some 12 } ∧
      st2.db.interactions = c3st.db.interactions ++
        [{ execution_id := "e3", interaction_type := "revision_request",
           user_input := some "needs work",
           system_response := "Max revision iterations exceeded. Checkpoint failed.",
           timestamp := 12 }] ∧
      (∀ fb2 now2, request_revision st2 "e3" fb2 now2 =
        .error ("Cannot request revision - execution is in status failed, " ++
          "expected waiting_approval_to_complete", st2)) :=
  (c3_request_revision_limit c3st "e3" "needs work" 12 c3exec (by rfl) (by decide)).1
    (by decide)

/-- C6: `create_run` fails on a pipeline with an empty checkpoint order;
otherwise it assigns a `run_version` strictly above every existing version
of the pipeline (1 when no runs exist, some existing version + 1
otherwise), links — when `extends_from_run_id` is omitted — to a run of
maximal `run_version` (no link when none exists), and the created run is
`not_started` with no current checkpoint. -/
theorem c6_create_run_versioning (st : St) (pipeline_id new_run_id : String) (now : Nat)
    (pipeline : Pipeline) (hp : st.db.findPipeline pipeline_id = some pipeline) :
    (pipeline.checkpoint_order = [] →
      create_run st pipeline_id none new_run_id now =
        .error
          ("Pipeline has no checkpoints. Add at least one checkpoint before starting a run.",
            st)) ∧
    (pipeline.checkpoint_order ≠ [] →
      ∃ st2 run, create_run st pipeline_id none new_run_id now = .ok (st2, run) ∧
        (∀ r2 ∈ st.db.runs.filter (fun r => r.pipeline_id == pipeline_id),
          r2.run_version < run.run_version) ∧
        (st.db.runs.filter (fun r => r.pipeline_id == pipeline_id) = [] →
          run.run_version = 1 ∧ run.previous_run_id = none ∧
            run.extends_from_run_version = none) ∧
        (st.db.runs.filter (fun r => r.pipeline_id == pipeline_id) ≠ [] →
          (∃ r2 ∈ st.db.runs.filter (fun r => r.pipeline_id == pipeline_id),
            run.run_version = r2.run_version + 1) ∧
          (∃ best, best ∈ st.db.runs.filter (fun r => r.pipeline_id == pipeline_id) ∧
            (∀ r2 ∈ st.db.runs.filter (fun r => r.pipeline_id == pipeline_id),
              r2.run_version ≤ best.run_version) ∧
            run.previous_run_id = some best.run_id ∧
            run.extends_from_run_version = some best.run_version)) ∧
        run.status = .not_started ∧ run.current_checkpoint_id = none ∧
        run.current_checkpoint_position = none) := by
  constructor
  · intro hord
    simp only [create_run, hp]
    rw [if_pos (by simp [hord])]
  · intro hord
    simp only [create_run, hp]
    rw [if_neg (by simp [hord])]
    refine ⟨_, _, rfl, ?_, ?_, ?_, rfl, rfl, rfl⟩
    · intro r2 hr2
      show r2.run_version < get_next_run_version st.db pipeline_id
      unfold get_next_run_version
      exact Nat.lt_succ_of_le (le_foldr_max _ _ (List.mem_map_of_mem _ hr2))
    · intro hnil
      refine ⟨?_, ?_, ?_⟩
      · show get_next_run_version st.db pipeline_id = 1
        simp [get_next_run_version, hnil]
      · show (get_latest_valid_run st.db pipeline_id).map (fun p => p.run_id) = none
        rw [(get_latest_valid_run_spec st.db pipeline_id).1 hnil]
        rfl
      · show (get_latest_valid_run st.db pipeline_id).map (fun p => p.run_version) = none
        rw [(get_latest_valid_run_spec st.db pipeline_id).1 hnil]
        rfl
    · intro hne
      constructor
      · have hmapne :
            (st.db.runs.filter (fun r => r.pipeline_id == pipeline_id)).map
              (fun r => r.run_version) ≠ [] := by
          simpa using hne
        have hmem := foldr_max_mem _ hmapne
        rcases List.mem_map.mp hmem with ⟨r2, hr2, hv⟩
        refine ⟨r2, hr2, ?_⟩
        show get_next_run_version st.db pipeline_id = r2.run_version + 1
        unfold get_next_run_version
        rw [hv]
      · rcases (get_latest_valid_run_spec st.db pipeline_id).2 hne with ⟨best, hb, hbm, hbmax⟩
        refine ⟨best, hbm, hbmax, ?_, ?_⟩
        · show (get_latest_valid_run st.db pipeline_id).map (fun p => p.run_id) =
            some best.run_id
          rw [hb]
          rfl
        · show (get_latest_valid_run st.db pipeline_id).map (fun p => p.run_version) =
            some best.run_version
          rw [hb]
          rfl

/-- C6 witness: with one existing run at version 3, the new run gets
version 4 and links to it. -/
theorem c6_witness :
    ∃ st2 run, create_run c6st "p6" none "r6b" 44 = .ok (st2, run) ∧
      (∀ r2 ∈ c6st.db.runs.filter (fun r => r.pipeline_id == "p6"),
        r2.run_version < run.run_version) ∧
      (c6st.db.runs.filter (fun r => r.pipeline_id == "p6") = [] →
        run.run_version = 1 ∧ run.previous_run_id = none ∧
          run.extends_from_run_version = none) ∧
      (c6st.db.runs.filter (fun r => r.pipeline_id == "p6") ≠ [] →
        (∃ r2 ∈ c6st.db.runs.filter (fun r => r.pipeline_id == "p6"),
          run.run_version = r2.run_version + 1) ∧
        (∃ best, best ∈ c6st.db.runs.filter (fun r => r.pipeline_id == "p6") ∧
          (∀ r2 ∈ c6st.db.runs.filter (fun r => r.pipeline_id == "p6"),
            r2.run_version ≤ best.run_version) ∧
          run.previous_run_id = some best.run_id ∧
          run.extends_from_run_version = some best.run_version)) ∧
      run.status = .not_started ∧ run.current_checkpoint_id = none ∧
      run.current_checkpoint_position = none :=
  (c6_create_run_versioning c6st "p6" "r6b" 44
    { pipeline_id := "p6", checkpoint_order := ["c6a"] } (by rfl)).2 (by decide)

/-! Projection lemmas: each row-update touches exactly one table. -/

@[simp] theorem updateExecution_pipelines (db : Db) (i : String) (f : CheckpointExecution → CheckpointExecution) : (db.updateExecution i f).pipelines = db.pipelines := rfl
@[simp] theorem updateExecution_checkpoint_defs (db : Db) (i : String) (f : CheckpointExecution → CheckpointExecution) : (db.updateExecution i f).checkpoint_defs = db.checkpoint_defs := rfl
@[simp] theorem updateExecution_runs (db : Db) (i : String) (f : CheckpointExecution → CheckpointExecution) : (db.updateExecution i f).runs = db.runs := rfl
@[simp] theorem updateExecution_artifacts (db : Db) (i : String) (f : CheckpointExecution → CheckpointExecution) : (db.updateExecution i f).artifacts = db.artifacts := rfl
@[simp] theorem updateExecution_interactions (db : Db) (i : String) (f : CheckpointExecution → CheckpointExecution) : (db.updateExecution i f).interactions = db.interactions := rfl
@[simp] theorem updateExecution_rollback_events (db : Db) (i : String) (f : CheckpointExecution → CheckpointExecution) : (db.updateExecution i f).rollback_events = db.rollback_events := rfl
@[simp] theorem updateExecution_archived_items (db : Db) (i : String) (f : CheckpointExecution → CheckpointExecution) : (db.updateExecution i f).archived_items = db.archived_items := rfl
@[simp] theorem updateRun_pipelines (db : Db) (i : String) (f : PipelineRun → PipelineRun) : (db.updateRun i f).pipelines = db.pipelines := rfl
@[simp] theorem updateRun_checkpoint_defs (db : Db) (i : String) (f : PipelineRun → PipelineRun) : (db.updateRun i f).checkpoint_defs = db.checkpoint_defs := rfl
@[simp] theorem updateRun_executions (db : Db) (i : String) (f : PipelineRun → PipelineRun) : (db.updateRun i f).executions = db.executions := rfl
@[simp] theorem updateRun_artifacts (db : Db) (i : String) (f : PipelineRun → PipelineRun) : (db.updateRun i f).artifacts = db.artifacts := rfl
@[simp] theorem updateRun_interactions (db : Db) (i : String) (f : PipelineRun → PipelineRun) : (db.updateRun i f).interactions = db.interactions := rfl
@[simp] theorem updateArtifact_pipelines (db : Db) (i : String) (f : Artifact → Artifact) : (db.updateArtifact i f).pipelines = db.pipelines := rfl
@[simp] theorem updateArtifact_checkpoint_defs (db : Db) (i : String) (f : Artifact → Artifact) : (db.updateArtifact i f).checkpoint_defs = db.checkpoint_defs := rfl
@[simp] theorem updateArtifact_runs (db : Db) (i : String) (f : Artifact → Artifact) : (db.updateArtifact i f).runs = db.runs := rfl
@[simp] theorem updateArtifact_executions (db : Db) (i : String) (f : Artifact → Artifact) : (db.updateArtifact i f).executions = db.executions := rfl
@[simp] theorem updateArtifact_interactions (db : Db) (i : String) (f : Artifact → Artifact) : (db.updateArtifact i f).interactions = db.interactions := rfl
@[simp] theorem addInteraction_pipelines (db : Db) (i : HumanInteraction) : (db.addInteraction i).pipelines = db.pipelines := rfl
@[simp] theorem addInteraction_checkpoint_defs (db : Db) (i : HumanInteraction) : (db.addInteraction i).checkpoint_defs = db.checkpoint_defs := rfl
@[simp] theorem addInteraction_runs (db : Db) (i : HumanInteraction) : (db.addInteraction i).runs = db.runs := rfl
@[simp] theorem addInteraction_executions (db : Db) (i : HumanInteraction) : (db.addInteraction i).executions = db.executions := rfl
@[simp] theorem addInteraction_artifacts (db : Db) (i : HumanInteraction) : (db.addInteraction i).artifacts = db.artifacts := rfl
@[simp] theorem addInteraction_rollback_events (db : Db) (i : HumanInteraction) : (db.addInteraction i).rollback_events = db.rollback_events := rfl
@[simp] theorem addInteraction_archived_items (db : Db) (i : HumanInteraction) : (db.addInteraction i).archived_items = db.archived_items := rfl
@[simp] theorem addArchivedItem_pipelines (db : Db) (it : ArchivedItem) : (db.addArchivedItem it).pipelines = db.pipelines := rfl
@[simp] theorem addArchivedItem_checkpoint_defs (db : Db) (it : ArchivedItem) : (db.addArchivedItem it).checkpoint_defs = db.checkpoint_defs := rfl
@[simp] theorem addArchivedItem_runs (db : Db) (it : ArchivedItem) : (db.addArchivedItem it).runs = db.runs := rfl
@[simp] theorem addArchivedItem_executions (db : Db) (it : ArchivedItem) : (db.addArchivedItem it).executions = db.executions := rfl
@[simp] theorem addArchivedItem_artifacts (db : Db) (it : ArchivedItem) : (db.addArchivedItem it).artifacts = db.artifacts := rfl

/-- An element returned by `findExecution` carries the looked-up id. -/
theorem findExecution_id (db : Db) (i : String) (e : CheckpointExecution)
    (h : db.findExecution i = some e) : e.execution_id = i := by
  have h2 := List.find?_some h
  simpa using h2

/-- `findExecution` returns a member of the table. -/
theorem findExecution_mem (db : Db) (i : String) (e : CheckpointExecution)
    (h : db.findExecution i = some e) : e ∈ db.executions :=
  List.mem_of_find?_eq_some h

/-- An element returned by `findRun` carries the looked-up id. -/
theorem findRun_id (db : Db) (i : String) (r : PipelineRun)
    (h : db.findRun i = some r) : r.run_id = i := by
  have h2 := List.find?_some h
  simpa using h2

/-- `findRun` returns a member of the table. -/
theorem findRun_mem (db : Db) (i : String) (r : PipelineRun)
    (h : db.findRun i = some r) : r ∈ db.runs :=
  List.mem_of_find?_eq_some h

/-- A `find?` over executions none of which carries id `i` is `none`. -/
theorem find?_executions_none (l : List CheckpointExecution) (i : String)
    (h : ∀ e ∈ l, e.execution_id ≠ i) :
    l.find? (fun e => e.execution_id == i) = none :=
  List.find?_eq_none.mpr (fun e he => by simp [h e he])

/-- Distinct final components rule out the directory relation after a shared
prefix. -/
theorem pathUnder_append_diff_head (A : FPath) (x y : String) (xs rest : FPath)
    (hxy : x ≠ y) : pathUnder (A ++ x :: xs) (A ++ y :: rest) = false := by
  cases h : (A ++ x :: xs).isPrefixOf (A ++ y :: rest) with
  | false => exact h
  | true =>
    exfalso
    have h1 := List.isPrefixOf_iff_prefix.mp h
    have h2 := (List.prefix_append_right_inj A).mp h1
    exact hxy (List.cons_prefix_cons.mp h2).1

/-- Appending to a string is left-cancellative. -/
theorem string_append_cancel (a b c : String) (h : a ++ b = a ++ c) : b = c := by
  have hd := congrArg String.data h
  rw [String.data_append, String.data_append] at hd
  cases b with
  | mk bl => cases c with
    | mk cl =>
      have h2 := List.append_cancel_left hd
      exact congrArg String.mk h2

/-- Normal form of the artifact-promotion loop: it touches only the
filesystem and the artifact rows. -/
theorem promote_fold_shape (fm : FileManager) (v : Nat) (cname : String)
    (exec : CheckpointExecution) (now : Nat) (arts : List Artifact) :
    ∀ (st : St) (acc : List (String × FPath)),
      ∃ fsX artsX promX,
        arts.foldl (promoteOneArtifact fm v cname exec now) (st, acc) =
          ({ st with fs := fsX, db := { st.db with artifacts := artsX } }, promX) := by
  induction arts with
  | nil =>
    intro st acc
    exact ⟨st.fs, st.db.artifacts, acc, rfl⟩
  | cons a t ih =>
    intro st acc
    have hstep : ∃ F1 A1 P1, promoteOneArtifact fm v cname exec now (st, acc) a =
        ({ st with fs := F1, db := { st.db with artifacts := A1 } }, P1) := by
      unfold promoteOneArtifact
      dsimp only
      split
      · exact ⟨_, _, _, rfl⟩
      · exact ⟨_, _, _, rfl⟩
    rcases hstep with ⟨F1, A1, P1, hstep⟩
    rw [List.foldl_cons, hstep]
    rcases ih { st with fs := F1, db := { st.db with artifacts := A1 } } P1 with
      ⟨F2, A2, P2, hfold⟩
    rw [hfold]
    exact ⟨F2, A2, P2, rfl⟩

set_option maxHeartbeats 1000000

/-- Run-row updates do not affect execution lookups. -/
@[simp] theorem findExecution_updateRun (db : Db) (i j : String) (f : PipelineRun → PipelineRun) :
    (db.updateRun i f).findExecution j = db.findExecution j := rfl
@[simp] theorem findExecution_addInteraction (db : Db) (j : String) (i : HumanInteraction) :
    (db.addInteraction i).findExecution j = db.findExecution j := rfl
@[simp] theorem findExecution_updateArtifact (db : Db) (i j : String) (f : Artifact → Artifact) :
    (db.updateArtifact i f).findExecution j = db.findExecution j := rfl
@[simp] theorem findRun_updateExecution2 (db : Db) (i j : String)
    (f : CheckpointExecution → CheckpointExecution) :
    (db.updateExecution i f).findRun j = db.findRun j := rfl
@[simp] theorem findRun_addInteraction (db : Db) (j : String) (i : HumanInteraction) :
    (db.addInteraction i).findRun j = db.findRun j := rfl
@[simp] theorem findRun_updateArtifact (db : Db) (i j : String) (f : Artifact → Artifact) :
    (db.updateArtifact i f).findRun j = db.findRun j := rfl

/-- The execution row produced by `create_checkpoint_execution`. -/
theorem cce_snd (s : St) (run : PipelineRun) (cd : CheckpointDefn) (pos : Nat)
    (eid : String) (now : Nat) :
    (create_checkpoint_execution s run cd pos eid now).2 =
      { execution_id := eid
        run_id := run.run_id
        checkpoint_id := cd.checkpoint_id
        checkpoint_position := pos
        status := if cd.human_interaction.requires_approval_to_start.getD false then
            .waiting_approval_to_start else .in_progress
        attempt_number := 1
        max_attempts := (cd.execution.retry_config.getD {}).max_auto_retries.getD 0 + 1
        revision_iteration := 0
        max_revision_iterations := cd.human_interaction.max_revision_iterations.getD 3
        temp_workspace_path :=
          (⟨run.pipeline_id⟩ : FileManager).get_temp_execution_directory eid
        permanent_output_path :=
          (⟨run.pipeline_id⟩ : FileManager).get_checkpoint_outputs_directory run.run_version
            cd.checkpoint_name pos
        created_at := now
        started_at := if cd.human_interaction.requires_approval_to_start.getD false then
            none else some now } := rfl

/-- The created execution carries the provided fresh id. -/
theorem cce_snd_execution_id (s : St) (run : PipelineRun) (cd : CheckpointDefn) (pos : Nat)
    (eid : String) (now : Nat) :
    (create_checkpoint_execution s run cd pos eid now).2.execution_id = eid := rfl

/-- `create_checkpoint_execution` appends exactly one execution row. -/
theorem cce_fst_executions (s : St) (run : PipelineRun) (cd : CheckpointDefn) (pos : Nat)
    (eid : String) (now : Nat) :
    (create_checkpoint_execution s run cd pos eid now).1.db.executions =
      s.db.executions ++ [(create_checkpoint_execution s run cd pos eid now).2] := by
  unfold create_checkpoint_execution
  dsimp only
  split <;> rfl

/-- `create_checkpoint_execution` leaves the run table unchanged. -/
theorem cce_fst_runs (s : St) (run : PipelineRun) (cd : CheckpointDefn) (pos : Nat)
    (eid : String) (now : Nat) :
    (create_checkpoint_execution s run cd pos eid now).1.db.runs = s.db.runs := by
  unfold create_checkpoint_execution
  dsimp only
  split <;> rfl

/-- The filesystem effect of `create_checkpoint_execution`: the temp
workspace with its two subdirectories and the permanent outputs
directory are created. -/
theorem cce_fst_fs (s : St) (run : PipelineRun) (cd : CheckpointDefn) (pos : Nat)
    (eid : String) (now : Nat) :
    (create_checkpoint_execution s run cd pos eid now).1.fs =
      (((s.fs.mkdirp ((⟨run.pipeline_id⟩ : FileManager).get_temp_execution_directory
            eid)).mkdirp
          ((⟨run.pipeline_id⟩ : FileManager).get_temp_execution_directory eid ++
            ["workspace"])).mkdirp
        ((⟨run.pipeline_id⟩ : FileManager).get_temp_execution_directory eid ++
          ["artifacts_staging"])).mkdirp
        ((⟨run.pipeline_id⟩ : FileManager).get_checkpoint_outputs_directory run.run_version
          cd.checkpoint_name pos) := by
  unfold create_checkpoint_execution
  dsimp only

/-- Looking up the fresh id after `create_checkpoint_execution` returns the
new execution. -/
theorem cce_findExecution (s : St) (run : PipelineRun) (cd : CheckpointDefn) (pos : Nat)
    (eid : String) (now : Nat)
    (hfr : ∀ e ∈ s.db.executions, e.execution_id ≠ eid) :
    (create_checkpoint_execution s run cd pos eid now).1.db.findExecution eid =
      some (create_checkpoint_execution s run cd pos eid now).2 := by
  unfold Db.findExecution
  rw [cce_fst_executions, List.find?_append, find?_executions_none _ _ hfr]
  rw [cce_snd]
  simp

/-- Lookups of other ids pass through `create_checkpoint_execution`. -/
theorem cce_findExecution_ne (s : St) (run : PipelineRun) (cd : CheckpointDefn) (pos : Nat)
    (eid j : String) (now : Nat) (hne : j ≠ eid) :
    (create_checkpoint_execution s run cd pos eid now).1.db.findExecution j =
      s.db.findExecution j := by
  unfold Db.findExecution
  rw [cce_fst_executions, List.find?_append]
  have hr : ((create_checkpoint_execution s run cd pos eid now).2 ::
      ([] : List CheckpointExecution)).find? (fun e => e.execution_id == j) = none := by
    rw [cce_snd]
    simp [hne, Ne.symm hne]
  rw [hr, Option.or_none]


/-- Freshness of an id is preserved by id-preserving row maps. -/
theorem fresh_map (l : List CheckpointExecution) (f : CheckpointExecution → CheckpointExecution)
    (hf : ∀ e, (f e).execution_id = e.execution_id) (i : String)
    (h : ∀ e ∈ l, e.execution_id ≠ i) : ∀ e ∈ l.map f, e.execution_id ≠ i := by
  intro e he
  rcases List.mem_map.mp he with ⟨e0, he0, rfl⟩
  rw [hf]
  exact h e0 he0

/-- Run lookups pass through `create_checkpoint_execution`. -/
theorem cce_findRun (s : St) (run : PipelineRun) (cd : CheckpointDefn) (pos : Nat)
    (eid j : String) (now : Nat) :
    (create_checkpoint_execution s run cd pos eid now).1.db.findRun j = s.db.findRun j := by
  unfold Db.findRun
  rw [cce_fst_runs]

/-- An element returned by `findCheckpointDef` carries the looked-up id. -/
theorem findCheckpointDef_id (db : Db) (i : String) (c : CheckpointDefn)
    (h : db.findCheckpointDef i = some c) : c.checkpoint_id = i := by
  have h2 := List.find?_some h
  simpa using h2

/-- Two distinct temp workspaces are unrelated directories. -/
theorem pathUnder_temp_temp_false (fm : FileManager) (a b : String) (hab : a ≠ b) :
    pathUnder (fm.temp_dir ++ [a]) (fm.temp_dir ++ [b]) = false :=
  pathUnder_append_diff_head _ _ _ _ _ hab

/-- A temp workspace is unrelated to subdirectories of a different one. -/
theorem pathUnder_temp_sub_false (fm : FileManager) (a b sub : String) (hab : a ≠ b) :
    pathUnder (fm.temp_dir ++ [a]) ((fm.temp_dir ++ [b]) ++ [sub]) = false := by
  have h2 : (fm.temp_dir ++ [b]) ++ [sub] = fm.temp_dir ++ b :: [sub] := by simp
  rw [h2]
  exact pathUnder_append_diff_head _ _ _ _ _ hab

/-- A temp workspace is unrelated to any checkpoint outputs directory. -/
theorem pathUnder_temp_outputs_false (fm : FileManager) (a : String) (v : Nat)
    (cname : String) (pos : Nat) :
    pathUnder (fm.temp_dir ++ [a]) (fm.get_checkpoint_outputs_directory v cname pos) = false := by
  have h1 : fm.temp_dir ++ [a] = fm.base_path ++ ".temp" :: [a] := by
    simp [FileManager.temp_dir]
  have h2 : fm.get_checkpoint_outputs_directory v cname pos =
      fm.base_path ++ "runs" :: ["v" ++ toString v,
        "checkpoint_" ++ toString pos ++ "_" ++ cname, "outputs"] := by
    simp [FileManager.get_checkpoint_outputs_directory, FileManager.get_checkpoint_directory,
      FileManager.get_run_directory, FileManager.runs_dir]
  rw [h1, h2]
  exact pathUnder_append_diff_head _ _ _ _ _ (by decide)

/-- A temp workspace is unrelated to any `run_info.json` path. -/
theorem pathUnder_temp_runinfo_false (fm : FileManager) (a : String) (v : Nat) :
    pathUnder (fm.temp_dir ++ [a]) (fm.get_run_directory v ++ ["run_info.json"]) = false := by
  have h1 : fm.temp_dir ++ [a] = fm.base_path ++ ".temp" :: [a] := by
    simp [FileManager.temp_dir]
  have h2 : fm.get_run_directory v ++ ["run_info.json"] =
      fm.base_path ++ "runs" :: ["v" ++ toString v, "run_info.json"] := by
    simp [FileManager.get_run_directory, FileManager.runs_dir]
  rw [h1, h2]
  exact pathUnder_append_diff_head _ _ _ _ _ (by decide)

/-- Checkpoint-definition lookups pass through execution updates and
interaction inserts. -/
theorem findCheckpointDef_update_addInteraction (db : Db) (i : String)
    (f : CheckpointExecution → CheckpointExecution) (intr : HumanInteraction) (x : String) :
    ((db.updateExecution i f).addInteraction intr).findCheckpointDef x =
      db.findCheckpointDef x := rfl

/-- Checkpoint-definition lookups ignore the artifact table. -/
theorem findCheckpointDef_setArtifacts (db : Db) (a : List Artifact) (x : String) :
    ({ db with artifacts := a } : Db).findCheckpointDef x = db.findCheckpointDef x := rfl

/-- Execution lookups ignore the artifact table. -/
theorem findExecution_setArtifacts (db : Db) (a : List Artifact) (x : String) :
    ({ db with artifacts := a } : Db).findExecution x = db.findExecution x := rfl

/-- Run lookups ignore the artifact table. -/
theorem findRun_setArtifacts (db : Db) (a : List Artifact) (x : String) :
    ({ db with artifacts := a } : Db).findRun x = db.findRun x := rfl

/-- C2: the completion protocol (`_complete_checkpoint_and_advance`, shared
by `submit_form_data` auto-complete and `approve_complete`).  When the
pipeline's current `checkpoint_order` has an entry at
`checkpoint_position + 1` (with a resolvable definition): the completed
execution's temp workspace is gone, a new CheckpointExecution exists at
position + 1, the run's current-position pointer advances to it, and the
new execution is `in_progress` exactly when the pipeline has
`auto_advance` and the next checkpoint does not require start-approval,
`waiting_approval_to_start` otherwise.  When there is no entry at that
position: the run becomes `completed` with `completed_at` stamped and the
temp workspace is deleted. -/
theorem c2_completion_protocol (st : St) (execution_id next_execution_id : String)
    (promote : Bool) (now : Nat) (execution : CheckpointExecution)
    (checkpoint_def : CheckpointDefn) (run : PipelineRun) (pipeline : Pipeline)
    (he : st.db.findExecution execution_id = some execution)
    (hcd : st.db.findCheckpointDef execution.checkpoint_id = some checkpoint_def)
    (hr : st.db.findRun execution.run_id = some run)
    (hp : st.db.findPipeline run.pipeline_id = some pipeline)
    (hfresh : ∀ e ∈ st.db.executions, e.execution_id ≠ next_execution_id) :
    (∀ ncid ncp,
      pipeline.checkpoint_order[execution.checkpoint_position + 1]? = some ncid →
      st.db.findCheckpointDef ncid = some ncp →
      ∃ st2 res, complete_checkpoint_and_advance st execution_id promote next_execution_id now =
          .ok (st2, res) ∧
        st2.fs.pathExists ((⟨run.pipeline_id⟩ : FileManager).get_temp_execution_directory
          execution.execution_id) = false ∧
        (∃ ne, st2.db.findExecution next_execution_id = some ne ∧
          ne.run_id = run.run_id ∧
          ne.checkpoint_id = ncid ∧
          ne.checkpoint_position = execution.checkpoint_position + 1 ∧
          ne.status = (if pipeline.auto_advance &&
              !(ncp.human_interaction.requires_approval_to_start.getD false) then
            ExecStatus.in_progress else ExecStatus.waiting_approval_to_start)) ∧
        (∃ r2, st2.db.findRun run.run_id = some r2 ∧
          r2.current_checkpoint_position = some (execution.checkpoint_position + 1) ∧
          r2.current_checkpoint_id = some ncid) ∧
        (∃ e2, st2.db.findExecution execution_id = some e2 ∧
          e2.status = .completed ∧ e2.completed_at = some now) ∧
        res.next_execution_id = some next_execution_id) ∧
    (pipeline.checkpoint_order[execution.checkpoint_position + 1]? = none →
      ∃ st2 res, complete_checkpoint_and_advance st execution_id promote next_execution_id now =
          .ok (st2, res) ∧
        st2.fs.pathExists ((⟨run.pipeline_id⟩ : FileManager).get_temp_execution_directory
          execution.execution_id) = false ∧
        (∃ r2, st2.db.findRun run.run_id = some r2 ∧ r2.status = .completed ∧
          r2.completed_at = some now ∧ r2.current_checkpoint_position = none ∧
          r2.current_checkpoint_id = none) ∧
        (∃ e2, st2.db.findExecution execution_id = some e2 ∧
          e2.status = .completed ∧ e2.completed_at = some now) ∧
        res.run_status = .completed) := by
  have hstp : ∃ fsX artsX promX,
      (if promote then (st.db.artifactsOf execution.execution_id).foldl
          (promoteOneArtifact ⟨run.pipeline_id⟩ run.run_version checkpoint_def.checkpoint_name
            execution now) (st, [])
        else (st, [])) =
        (({ st with fs := fsX, db := { st.db with artifacts := artsX } } : St), promX) := by
    by_cases hpr : promote
    · rw [if_pos hpr]
      exact promote_fold_shape _ _ _ _ _ _ st []
    · rw [if_neg hpr]
      exact ⟨st.fs, st.db.artifacts, [], rfl⟩
  rcases hstp with ⟨fsX, artsX, promX, hstp⟩
  have hrunid : run.run_id = execution.run_id := findRun_id st.db _ run hr
  have hr3 : st.db.findRun run.run_id = some run := by rw [hrunid]; exact hr
  have heid : execution.execution_id = execution_id := findExecution_id st.db _ execution he
  have hneid : execution.execution_id ≠ next_execution_id :=
    hfresh execution (findExecution_mem st.db _ execution he)
  have hexid : execution_id ≠ next_execution_id := heid ▸ hneid
  have hne1 : "exec_" ++ execution.execution_id ≠ "exec_" ++ next_execution_id :=
    fun h => hneid (string_append_cancel _ _ _ h)
  have hfrMid : ∀ e ∈ (st.db.executions.map
      (fun e => if e.execution_id == execution_id then
        ({ e with status := .completed, completed_at := some now } : CheckpointExecution)
        else e)), e.execution_id ≠ next_execution_id :=
    fresh_map st.db.executions
      (fun e => if e.execution_id == execution_id then
        ({ e with status := .completed, completed_at := some now } : CheckpointExecution)
        else e)
      (fun e => by by_cases hc : (e.execution_id == execution_id) = true <;> simp [hc])
      next_execution_id hfresh
  have hfsMid : ∀ oe : FPath,
      (if fsX.pathExists oe = true then fsX.rmtree oe else fsX).pathExists oe = false := by
    intro oe
    by_cases hex : fsX.pathExists oe = true
    · rw [if_pos hex]
      exact pathExists_rmtree_self fsX oe
    · rw [if_neg hex]
      simpa using hex
  constructor
  · intro ncid ncp hnext hncd
    have hncd2 : st.db.checkpoint_defs.find? (fun c => c.checkpoint_id == ncid) = some ncp := hncd
    have hncpid : ncp.checkpoint_id = ncid := findCheckpointDef_id st.db ncid ncp hncd
    simp only [complete_checkpoint_and_advance, he, hcd, hr, hp, hstp, hnext,
      findCheckpointDef_update_addInteraction, findCheckpointDef_setArtifacts, hncd]
    have hfsOld : ∀ (v2 : Nat) (cn2 : String),
        ((((((if fsX.pathExists (FileManager.get_temp_execution_directory ⟨run.pipeline_id⟩
              execution.execution_id) = true then
            fsX.rmtree (FileManager.get_temp_execution_directory ⟨run.pipeline_id⟩
              execution.execution_id)
          else fsX)).mkdirp
            (FileManager.get_temp_execution_directory ⟨run.pipeline_id⟩
              next_execution_id)).mkdirp
            (FileManager.get_temp_execution_directory ⟨run.pipeline_id⟩ next_execution_id ++
              ["workspace"])).mkdirp
            (FileManager.get_temp_execution_directory ⟨run.pipeline_id⟩ next_execution_id ++
              ["artifacts_staging"])).mkdirp
            (FileManager.get_checkpoint_outputs_directory ⟨run.pipeline_id⟩ v2 cn2
              (execution.checkpoint_position + 1))).pathExists
          (FileManager.get_temp_execution_directory ⟨run.pipeline_id⟩
            execution.execution_id) = false := by
      intro v2 cn2
      simp only [pathExists_mkdirp, FileManager.get_temp_execution_directory]
      rw [pathUnder_temp_temp_false _ _ _ hne1, pathUnder_temp_sub_false _ _ _ _ hne1,
        pathUnder_temp_sub_false _ _ _ _ hne1, pathUnder_temp_outputs_false]
      have hm := hfsMid (FileManager.temp_dir ⟨run.pipeline_id⟩ ++
        ["exec_" ++ execution.execution_id])
      simp only [FileManager.get_temp_execution_directory] at hm
      simp [hm]
    by_cases hauto : pipeline.auto_advance = true
    · by_cases hra : ncp.human_interaction.requires_approval_to_start.getD false = true
      · simp only [hauto, hra, if_true]
        have hfr4 : ∀ r : PipelineRun,
            ({ r with current_checkpoint_id := some ncid, current_checkpoint_position := some (execution.checkpoint_position + 1) } : PipelineRun).run_id = r.run_id := fun r => rfl
        refine ⟨_, _, rfl, ?_, ?_, ?_, ?_, ?_⟩
        · dsimp only
          rw [cce_fst_fs]
          exact hfsOld _ _
        · exact ⟨_,
            by dsimp only; simp only [findExecution_updateRun]; rw [cce_findExecution _ _ _ _ _ _ (by intro e he2x; exact hfrMid e he2x)],
            by simp [cce_snd],
            by simp [cce_snd, hncpid],
            by simp [cce_snd],
            by simp [cce_snd, hra, hauto]⟩
        · exact ⟨_,
            by dsimp only; rw [findRun_updateRun _ run.run_id _ hfr4, cce_findRun]; simp only [findRun_addInteraction, findRun_updateExecution2, findRun_setArtifacts]; rw [hr3]; rfl,
            rfl, rfl⟩
        · exact ⟨_,
            by dsimp only; simp only [findExecution_updateRun]; rw [cce_findExecution_ne _ _ _ _ _ _ _ hexid]; dsimp only; rw [findExecution_addInteraction, findExecution_updateExecution _ execution_id (fun e => { e with status := .completed, completed_at := some now }) (fun e => rfl), findExecution_setArtifacts, he]; rfl,
            rfl, rfl⟩
        · simp [cce_snd_execution_id]
      · have hra2 : ncp.human_interaction.requires_approval_to_start.getD false = false := by
          simpa using hra
        have hfr4 : ∀ r : PipelineRun,
            ({ r with current_checkpoint_id := some ncid, current_checkpoint_position := some (execution.checkpoint_position + 1) } : PipelineRun).run_id = r.run_id := fun r => rfl
        simp only [hauto, hra2, if_true, Bool.false_eq_true, if_false]
        refine ⟨_, _, rfl, ?_, ?_, ?_, ?_, ?_⟩
        · dsimp only
          rw [cce_fst_fs]
          exact hfsOld _ _
        · exact ⟨_,
            by dsimp only; simp only [cce_snd_execution_id]; rw [findExecution_updateExecution _ next_execution_id (fun e => { e with status := .in_progress, started_at := some now }) (fun e => rfl)]; simp only [findExecution_updateRun]; rw [cce_findExecution _ _ _ _ _ _ (by intro e he2x; exact hfrMid e he2x)]; rfl,
            by simp [cce_snd],
            by simp [cce_snd, hncpid],
            by simp [cce_snd],
            by simp [cce_snd, hra2, hauto]⟩
        · exact ⟨_,
            by dsimp only; simp only [findRun_updateExecution2]; rw [findRun_updateRun _ run.run_id _ hfr4, cce_findRun]; simp only [findRun_addInteraction, findRun_updateExecution2, findRun_setArtifacts]; rw [hr3]; rfl,
            rfl, rfl⟩
        · exact ⟨_,
            by dsimp only; simp only [cce_snd_execution_id]; rw [findExecution_updateExecution_ne _ next_execution_id execution_id (fun e => { e with status := .in_progress, started_at := some now }) (fun e => rfl) hexid]; simp only [findExecution_updateRun]; rw [cce_findExecution_ne _ _ _ _ _ _ _ hexid]; dsimp only; rw [findExecution_addInteraction, findExecution_updateExecution _ execution_id (fun e => { e with status := .completed, completed_at := some now }) (fun e => rfl), findExecution_setArtifacts, he]; rfl,
            rfl, rfl⟩
        · simp [cce_snd_execution_id]
    · have hauto2 : pipeline.auto_advance = false := by simpa using hauto
      have hfr4 : ∀ r : PipelineRun,
          ({ r with current_checkpoint_id := some ncid, current_checkpoint_position := some (execution.checkpoint_position + 1) } : PipelineRun).run_id = r.run_id := fun r => rfl
      simp only [hauto2, Bool.false_eq_true, if_false]
      refine ⟨_, _, rfl, ?_, ?_, ?_, ?_, ?_⟩
      · dsimp only
        rw [cce_fst_fs]
        exact hfsOld _ _
      · exact ⟨_,
          by dsimp only; simp only [cce_snd_execution_id]; rw [findExecution_updateExecution _ next_execution_id (fun e => { e with status := .waiting_approval_to_start }) (fun e => rfl)]; simp only [findExecution_updateRun]; rw [cce_findExecution _ _ _ _ _ _ (by intro e he2x; exact hfrMid e he2x)]; rfl,
          by simp [cce_snd],
          by simp [cce_snd, hncpid],
          by simp [cce_snd],
          by simp [cce_snd, hauto2]⟩
      · exact ⟨_,
          by dsimp only; simp only [findRun_updateExecution2]; rw [findRun_updateRun _ run.run_id _ hfr4, cce_findRun]; simp only [findRun_addInteraction, findRun_updateExecution2, findRun_setArtifacts]; rw [hr3]; rfl,
          rfl, rfl⟩
      · exact ⟨_,
          by dsimp only; simp only [cce_snd_execution_id]; rw [findExecution_updateExecution_ne _ next_execution_id execution_id (fun e => { e with status := .waiting_approval_to_start }) (fun e => rfl) hexid]; simp only [findExecution_updateRun]; rw [cce_findExecution_ne _ _ _ _ _ _ _ hexid]; dsimp only; rw [findExecution_addInteraction, findExecution_updateExecution _ execution_id (fun e => { e with status := .completed, completed_at := some now }) (fun e => rfl), findExecution_setArtifacts, he]; rfl,
          rfl, rfl⟩
      · simp [cce_snd_execution_id]
  · intro hnone
    have hfr5 : ∀ r : PipelineRun,
        ({ r with status := RunStatus.completed, completed_at := some now, current_checkpoint_id := none, current_checkpoint_position := none } : PipelineRun).run_id = r.run_id := fun r => rfl
    simp only [complete_checkpoint_and_advance, he, hcd, hr, hp, hstp, hnone]
    refine ⟨_, _, rfl, ?_, ?_, ?_, rfl⟩
    · dsimp only
      rw [pathExists_writeFile]
      have hm := hfsMid (FileManager.get_temp_execution_directory ⟨run.pipeline_id⟩
        execution.execution_id)
      rw [hm]
      simp only [FileManager.get_temp_execution_directory]
      rw [pathUnder_temp_runinfo_false]
      rfl
    · exact ⟨_,
        by dsimp only; rw [findRun_updateRun _ run.run_id _ hfr5]; simp only [findRun_addInteraction, findRun_updateExecution2, findRun_setArtifacts]; rw [hr3]; rfl,
        rfl, rfl, rfl, rfl⟩
    · exact ⟨_,
        by dsimp only; simp only [findExecution_updateRun]; rw [findExecution_addInteraction, findExecution_updateExecution _ execution_id (fun e => { e with status := .completed, completed_at := some now }) (fun e => rfl), findExecution_setArtifacts, he]; rfl,
        rfl, rfl⟩

/-- C2 witness: Scenario A — two checkpoints, no approvals, auto_advance;
completing position 0 spawns position 1 already `in_progress`, advances
the run pointer and deletes the old temp workspace. -/
theorem c2_witness :
    ∃ st2 res, complete_checkpoint_and_advance c2st "e0" true "e1" 99 = .ok (st2, res) ∧
      st2.fs.pathExists ((⟨"p2"⟩ : FileManager).get_temp_execution_directory "e0") = false ∧
      (∃ ne, st2.db.findExecution "e1" = some ne ∧ ne.run_id = "r2" ∧ ne.checkpoint_id = "c1" ∧
        ne.checkpoint_position = 1 ∧ ne.status = ExecStatus.in_progress) ∧
      (∃ r2, st2.db.findRun "r2" = some r2 ∧ r2.current_checkpoint_position = some 1 ∧
        r2.current_checkpoint_id = some "c1") ∧
      (∃ e2, st2.db.findExecution "e0" = some e2 ∧ e2.status = .completed ∧
        e2.completed_at = some 99) ∧
      res.next_execution_id = some "e1" :=
  (c2_completion_protocol c2st "e0" "e1" true 99 c2exec c2cd0 c2run c2pl rfl rfl rfl rfl
    (by decide)).1 "c1" c2cd1 rfl rfl

/-! C8 support: the promotion loop of `_complete_checkpoint_and_advance`.
Path disequalities separate the staging area (under `.temp/`) from the
permanent outputs (under `runs/`), per-step lemmas describe one
`promoteOneArtifact` application, and fold lemmas lift them to the whole
artifact list. -/

theorem isPrefixOf_self (l : FPath) : l.isPrefixOf l = true := by
  induction l with
  | nil => rfl
  | cons a t ih => simp [List.isPrefixOf, ih]

/-- Two appends to a common prefix differ when the next components differ. -/
theorem append_head_ne (A : FPath) (x y : String) (xs ys : FPath) (hxy : x ≠ y) :
    A ++ x :: xs ≠ A ++ y :: ys := by
  intro h
  have h2 : x :: xs = y :: ys := List.append_cancel_left h
  injection h2 with h3 h4
  exact hxy h3

/-- Two appends to a common prefix differ when the suffix lengths differ. -/
theorem append_ne_of_length (A xs ys : FPath) (h : xs.length ≠ ys.length) :
    A ++ xs ≠ A ++ ys :=
  fun he => h (by rw [List.append_cancel_left he])

/-- The staging path the promotion loop derives, written with an explicit
`.temp` spine. -/
theorem stagingPath_eq (fm : FileManager) (exec : CheckpointExecution) (a : Artifact) :
    promoteStagingPath fm exec a =
      fm.base_path ++ ".temp" :: ["exec_" ++ exec.execution_id, "artifacts_staging",
        (promoteParts a).1 ++ "_" ++ (promoteParts a).2.1 ++ "." ++ (promoteParts a).2.2] := by
  simp [promoteStagingPath, FileManager.get_artifact_staging_path,
    FileManager.get_temp_execution_directory, FileManager.temp_dir]

/-- The permanent path the promotion loop derives, written with an explicit
`runs` spine. -/
theorem permanentPath_eq (fm : FileManager) (v : Nat) (cname : String)
    (exec : CheckpointExecution) (a : Artifact) :
    promotePermanentPath fm v cname exec a =
      fm.base_path ++ "runs" :: ["v" ++ toString v,
        "checkpoint_" ++ toString exec.checkpoint_position ++ "_" ++ cname, "outputs",
        (promoteParts a).1 ++ "_" ++ (promoteParts a).2.1 ++ "_v" ++ toString v ++ "." ++
          (promoteParts a).2.2] := by
  simp [promotePermanentPath, FileManager.get_permanent_artifact_path,
    FileManager.get_checkpoint_outputs_directory, FileManager.get_checkpoint_directory,
    FileManager.get_run_directory, FileManager.runs_dir]

/-- Staging paths (under `.temp/`) are never permanent paths (under `runs/`). -/
theorem stagingPath_ne_permanentPath (fm : FileManager) (v : Nat) (cname : String)
    (ex1 ex2 : CheckpointExecution) (a b : Artifact) :
    promoteStagingPath fm ex1 a ≠ promotePermanentPath fm v cname ex2 b := by
  rw [stagingPath_eq, permanentPath_eq]
  exact append_head_ne _ _ _ _ _ (by decide)

/-- Permanent paths are never below any temp execution directory. -/
theorem pathUnder_temp_permanentPath_false (fm : FileManager) (x : String) (v : Nat)
    (cname : String) (exec : CheckpointExecution) (b : Artifact) :
    pathUnder (fm.temp_dir ++ [x]) (promotePermanentPath fm v cname exec b) = false := by
  have h1 : fm.temp_dir ++ [x] = fm.base_path ++ ".temp" :: [x] := by
    simp [FileManager.temp_dir]
  rw [h1, permanentPath_eq]
  exact pathUnder_append_diff_head _ _ _ _ _ (by decide)

/-- The `run_info.json` path, written with an explicit `runs` spine. -/
theorem runinfo_eq (fm : FileManager) (v : Nat) :
    fm.get_run_directory v ++ ["run_info.json"] =
      fm.base_path ++ "runs" :: ["v" ++ toString v, "run_info.json"] := by
  simp [FileManager.get_run_directory, FileManager.runs_dir]

/-- A staging path is never the `run_info.json` path. -/
theorem stagingPath_ne_runinfo (fm : FileManager) (exec : CheckpointExecution) (a : Artifact)
    (v : Nat) :
    promoteStagingPath fm exec a ≠ fm.get_run_directory v ++ ["run_info.json"] := by
  rw [stagingPath_eq, runinfo_eq]
  exact append_head_ne _ _ _ _ _ (by decide)

/-- A permanent artifact path is never the `run_info.json` path. -/
theorem permanentPath_ne_runinfo (fm : FileManager) (v : Nat) (cname : String)
    (exec : CheckpointExecution) (a : Artifact) (v2 : Nat) :
    promotePermanentPath fm v cname exec a ≠
      fm.get_run_directory v2 ++ ["run_info.json"] := by
  rw [permanentPath_eq, runinfo_eq]
  exact append_ne_of_length _ _ _ (by simp)

/-- `rmtree` never creates a file. -/
theorem fileSize_rmtree_none (fs : Fs) (q p : FPath) (h : fs.fileSize p = none) :
    (fs.rmtree q).fileSize p = none := by
  simp only [Fs.fileSize, Fs.rmtree, Option.map_eq_none'] at h ⊢
  rw [List.find?_eq_none] at h ⊢
  intro x hx
  exact h x (List.mem_of_mem_filter hx)

/-- A file absent before `rmtree` is absent after it. -/
theorem fileExists_rmtree_of_false (fs : Fs) (q p : FPath) (h : fs.fileExists p = false) :
    (fs.rmtree q).fileExists p = false := by
  have h2 : fs.fileSize p = none := by
    cases hs : fs.fileSize p with
    | none => rfl
    | some sz =>
      rw [Fs.fileExists, hs] at h
      simp at h
  rw [Fs.fileExists, fileSize_rmtree_none fs q p h2]
  rfl

/-- Writing another path does not change what exists at `p`. -/
theorem fileExists_writeFile_ne (fs : Fs) (q p : FPath) (n : Nat) (h : p ≠ q) :
    (fs.writeFile q n).fileExists p = fs.fileExists p := by
  simp only [Fs.fileExists, fileSize_writeFile, if_neg h]

/-- One promotion step leaves every path other than the artifact's staging
and permanent path untouched. -/
theorem promoteOne_fileSize_frame (fm : FileManager) (v : Nat) (cname : String)
    (exec : CheckpointExecution) (now : Nat) (acc : St × List (String × FPath)) (a : Artifact)
    (p : FPath) (h1 : p ≠ promoteStagingPath fm exec a)
    (h2 : p ≠ promotePermanentPath fm v cname exec a) :
    (promoteOneArtifact fm v cname exec now acc a).1.fs.fileSize p = acc.1.fs.fileSize p := by
  unfold promoteOneArtifact
  dsimp only
  split
  · rename_i hex
    rw [fileExists_mkdirp] at hex
    simp only [Fs.fileExists] at hex
    rcases Option.isSome_iff_exists.mp hex with ⟨sz, hsz⟩
    have hsz2 : ((acc.1.fs.mkdirp (promotePermanentPath fm v cname exec a).dropLast).fileSize
        (promoteStagingPath fm exec a)) = some sz := by
      rw [fileSize_mkdirp]; exact hsz
    dsimp only
    rw [fileSize_moveFile _ _ _ _ sz hsz2, if_neg h2, if_neg h1, fileSize_mkdirp]
  · dsimp only
    rw [fileSize_mkdirp]

/-- One promotion step on an artifact whose staged file exists: the file
moves — the permanent path now holds the staged size and the staging path
holds nothing. -/
theorem promoteOne_moved (fm : FileManager) (v : Nat) (cname : String)
    (exec : CheckpointExecution) (now : Nat) (acc : St × List (String × FPath)) (a : Artifact)
    (hex : acc.1.fs.fileExists (promoteStagingPath fm exec a) = true) :
    (promoteOneArtifact fm v cname exec now acc a).1.fs.fileSize
        (promotePermanentPath fm v cname exec a) =
      acc.1.fs.fileSize (promoteStagingPath fm exec a) ∧
    (promoteOneArtifact fm v cname exec now acc a).1.fs.fileSize
        (promoteStagingPath fm exec a) = none := by
  unfold promoteOneArtifact
  dsimp only
  have hex2 : (acc.1.fs.mkdirp (promotePermanentPath fm v cname exec a).dropLast).fileExists
      (promoteStagingPath fm exec a) = true := by
    rw [fileExists_mkdirp]; exact hex
  rw [if_pos hex2]
  dsimp only
  simp only [Fs.fileExists] at hex
  rcases Option.isSome_iff_exists.mp hex with ⟨sz, hsz⟩
  have hsz2 : ((acc.1.fs.mkdirp (promotePermanentPath fm v cname exec a).dropLast).fileSize
      (promoteStagingPath fm exec a)) = some sz := by
    rw [fileSize_mkdirp]; exact hsz
  constructor
  · rw [fileSize_moveFile _ _ _ _ sz hsz2, if_pos rfl, hsz]
  · rw [fileSize_moveFile _ _ _ _ sz hsz2,
      if_neg (stagingPath_ne_permanentPath fm v cname exec exec a a), if_pos rfl]

/-- One promotion step on an artifact whose staged file exists updates the
artifact row: new `file_path`, `promoted_to_permanent_at` stamped. -/
theorem promoteOne_moved_mem (fm : FileManager) (v : Nat) (cname : String)
    (exec : CheckpointExecution) (now : Nat) (acc : St × List (String × FPath)) (a : Artifact)
    (hex : acc.1.fs.fileExists (promoteStagingPath fm exec a) = true)
    (hmem : a ∈ acc.1.db.artifacts) :
    promotedRow fm v cname exec now a ∈
      (promoteOneArtifact fm v cname exec now acc a).1.db.artifacts := by
  unfold promoteOneArtifact
  dsimp only
  have hex2 : (acc.1.fs.mkdirp (promotePermanentPath fm v cname exec a).dropLast).fileExists
      (promoteStagingPath fm exec a) = true := by
    rw [fileExists_mkdirp]; exact hex
  rw [if_pos hex2]
  dsimp only [Db.updateArtifact]
  refine List.mem_map.mpr ⟨a, hmem, ?_⟩
  simp [promotedRow]

/-- One promotion step on an artifact whose staged file is missing changes
no database row and no file. -/
theorem promoteOne_skipped (fm : FileManager) (v : Nat) (cname : String)
    (exec : CheckpointExecution) (now : Nat) (acc : St × List (String × FPath)) (a : Artifact)
    (hex : acc.1.fs.fileExists (promoteStagingPath fm exec a) = false) :
    (promoteOneArtifact fm v cname exec now acc a).1.db = acc.1.db ∧
    ∀ p, (promoteOneArtifact fm v cname exec now acc a).1.fs.fileSize p =
      acc.1.fs.fileSize p := by
  unfold promoteOneArtifact
  dsimp only
  have hex2 : ¬ ((acc.1.fs.mkdirp (promotePermanentPath fm v cname exec a).dropLast).fileExists
      (promoteStagingPath fm exec a) = true) := by
    rw [fileExists_mkdirp, hex]
    exact Bool.false_ne_true
  rw [if_neg hex2]
  exact ⟨rfl, fun p => fileSize_mkdirp _ _ _⟩

/-- One promotion step keeps every artifact row with a different record id. -/
theorem promoteOne_mem_frame (fm : FileManager) (v : Nat) (cname : String)
    (exec : CheckpointExecution) (now : Nat) (acc : St × List (String × FPath))
    (a b : Artifact) (hb : b ∈ acc.1.db.artifacts)
    (hne : b.artifact_record_id ≠ a.artifact_record_id) :
    b ∈ (promoteOneArtifact fm v cname exec now acc a).1.db.artifacts := by
  unfold promoteOneArtifact
  dsimp only
  split
  · dsimp only [Db.updateArtifact]
    refine List.mem_map.mpr ⟨b, hb, ?_⟩
    have hf : (b.artifact_record_id == a.artifact_record_id) = false := by
      simp [hne]
    simp [hf]
  · exact hb

/-- The whole promotion fold leaves untouched every path that is neither a
staging nor a permanent path of one of the processed artifacts. -/
theorem promote_fold_fileSize_frame (fm : FileManager) (v : Nat) (cname : String)
    (exec : CheckpointExecution) (now : Nat) :
    ∀ (arts : List Artifact) (sp : St × List (String × FPath)) (p : FPath),
      (∀ b ∈ arts, p ≠ promoteStagingPath fm exec b ∧
        p ≠ promotePermanentPath fm v cname exec b) →
      (arts.foldl (promoteOneArtifact fm v cname exec now) sp).1.fs.fileSize p =
        sp.1.fs.fileSize p := by
  intro arts
  induction arts with
  | nil => intro sp p _; rfl
  | cons a t ih =>
    intro sp p hp
    rw [List.foldl_cons,
      ih (promoteOneArtifact fm v cname exec now sp a) p
        (fun b hb => hp b (List.mem_cons_of_mem a hb))]
    exact promoteOne_fileSize_frame fm v cname exec now sp a p
      (hp a (List.mem_cons_self a t)).1 (hp a (List.mem_cons_self a t)).2

/-- The whole promotion fold keeps every artifact row whose record id is
not among the processed artifacts. -/
theorem promote_fold_mem_frame (fm : FileManager) (v : Nat) (cname : String)
    (exec : CheckpointExecution) (now : Nat) :
    ∀ (arts : List Artifact) (sp : St × List (String × FPath)) (b : Artifact),
      b ∈ sp.1.db.artifacts →
      (∀ c ∈ arts, b.artifact_record_id ≠ c.artifact_record_id) →
      b ∈ (arts.foldl (promoteOneArtifact fm v cname exec now) sp).1.db.artifacts := by
  intro arts
  induction arts with
  | nil => intro sp b hb _; exact hb
  | cons a t ih =>
    intro sp b hb hc
    rw [List.foldl_cons]
    exact ih _ b
      (promoteOne_mem_frame fm v cname exec now sp a b hb (hc a (List.mem_cons_self a t)))
      (fun c hcc => hc c (List.mem_cons_of_mem a hcc))

/-- Effect of the promotion fold on each artifact of the list: an artifact
whose staged file exists is moved to its permanent path (same size, staging
gone) and its row is restamped; an artifact whose staged file is missing is
skipped and its row survives unchanged. -/
theorem promote_fold_effects (fm : FileManager) (v : Nat) (cname : String)
    (exec : CheckpointExecution) (now : Nat) :
    ∀ (arts : List Artifact) (sp : St × List (String × FPath)),
      (∀ b ∈ arts, b ∈ sp.1.db.artifacts) →
      ((arts.map (fun b => b.artifact_record_id)).Nodup) →
      (arts.Pairwise (fun b c => promoteStagingPath fm exec b ≠ promoteStagingPath fm exec c)) →
      (arts.Pairwise (fun b c => promotePermanentPath fm v cname exec b ≠
        promotePermanentPath fm v cname exec c)) →
      ∀ a ∈ arts,
        (sp.1.fs.fileExists (promoteStagingPath fm exec a) = true →
          (arts.foldl (promoteOneArtifact fm v cname exec now) sp).1.fs.fileSize
              (promotePermanentPath fm v cname exec a) =
            sp.1.fs.fileSize (promoteStagingPath fm exec a) ∧
          (arts.foldl (promoteOneArtifact fm v cname exec now) sp).1.fs.fileExists
              (promoteStagingPath fm exec a) = false ∧
          promotedRow fm v cname exec now a ∈
            (arts.foldl (promoteOneArtifact fm v cname exec now) sp).1.db.artifacts) ∧
        (sp.1.fs.fileExists (promoteStagingPath fm exec a) = false →
          a ∈ (arts.foldl (promoteOneArtifact fm v cname exec now) sp).1.db.artifacts) := by
  intro arts
  induction arts with
  | nil =>
    intro sp _ _ _ _ a ha
    exact absurd ha (List.not_mem_nil a)
  | cons hd t ih =>
    intro sp hsub hnd hps hpp a ha
    have hnd2 : ((fun b : Artifact => b.artifact_record_id) hd ::
        t.map (fun b => b.artifact_record_id)).Nodup := by
      rw [← List.map_cons]
      exact hnd
    have hhd_mem : hd ∈ sp.1.db.artifacts := hsub hd (List.mem_cons_self hd t)
    have hnd_head : ∀ c ∈ t, hd.artifact_record_id ≠ c.artifact_record_id := by
      intro c hc heq
      apply (List.nodup_cons.mp hnd2).1
      show hd.artifact_record_id ∈ List.map (fun b : Artifact => b.artifact_record_id) t
      rw [heq]
      exact List.mem_map_of_mem (fun b : Artifact => b.artifact_record_id) hc
    have hps_head : ∀ c ∈ t,
        promoteStagingPath fm exec hd ≠ promoteStagingPath fm exec c :=
      (List.pairwise_cons.mp hps).1
    have hpp_head : ∀ c ∈ t, promotePermanentPath fm v cname exec hd ≠
        promotePermanentPath fm v cname exec c :=
      (List.pairwise_cons.mp hpp).1
    rw [List.foldl_cons]
    rcases List.mem_cons.mp ha with rfl | hat
    · constructor
      · intro hex
        have hm := promoteOne_moved fm v cname exec now sp a hex
        have hmm := promoteOne_moved_mem fm v cname exec now sp a hex hhd_mem
        have hfrPP : ∀ b ∈ t,
            promotePermanentPath fm v cname exec a ≠ promoteStagingPath fm exec b ∧
            promotePermanentPath fm v cname exec a ≠ promotePermanentPath fm v cname exec b :=
          fun b hb => ⟨Ne.symm (stagingPath_ne_permanentPath fm v cname exec exec b a),
            hpp_head b hb⟩
        have hframePP := promote_fold_fileSize_frame fm v cname exec now t
          (promoteOneArtifact fm v cname exec now sp a)
          (promotePermanentPath fm v cname exec a) hfrPP
        have hfrSP : ∀ b ∈ t,
            promoteStagingPath fm exec a ≠ promoteStagingPath fm exec b ∧
            promoteStagingPath fm exec a ≠ promotePermanentPath fm v cname exec b :=
          fun b hb => ⟨hps_head b hb, stagingPath_ne_permanentPath fm v cname exec exec a b⟩
        have hframeSP := promote_fold_fileSize_frame fm v cname exec now t
          (promoteOneArtifact fm v cname exec now sp a)
          (promoteStagingPath fm exec a) hfrSP
        refine ⟨?_, ?_, ?_⟩
        · rw [hframePP, hm.1]
        · simp only [Fs.fileExists]
          rw [hframeSP, hm.2]
          rfl
        · exact promote_fold_mem_frame fm v cname exec now t
            (promoteOneArtifact fm v cname exec now sp a) _ hmm
            (fun c hc => hnd_head c hc)
      · intro hex
        have hsk := promoteOne_skipped fm v cname exec now sp a hex
        have hmem2 : a ∈ (promoteOneArtifact fm v cname exec now sp a).1.db.artifacts := by
          rw [hsk.1]
          exact hhd_mem
        exact promote_fold_mem_frame fm v cname exec now t
          (promoteOneArtifact fm v cname exec now sp a) a hmem2 hnd_head
    · have hstep_sub : ∀ b ∈ t,
          b ∈ (promoteOneArtifact fm v cname exec now sp hd).1.db.artifacts :=
        fun b hb => promoteOne_mem_frame fm v cname exec now sp hd b
          (hsub b (List.mem_cons_of_mem hd hb)) (Ne.symm (hnd_head b hb))
      have hihall := ih (promoteOneArtifact fm v cname exec now sp hd) hstep_sub
        (List.nodup_cons.mp hnd2).2 (List.pairwise_cons.mp hps).2
        (List.pairwise_cons.mp hpp).2 a hat
      have hfr1 : (promoteOneArtifact fm v cname exec now sp hd).1.fs.fileSize
          (promoteStagingPath fm exec a) = sp.1.fs.fileSize (promoteStagingPath fm exec a) :=
        promoteOne_fileSize_frame fm v cname exec now sp hd (promoteStagingPath fm exec a)
          (Ne.symm (hps_head a hat))
          (stagingPath_ne_permanentPath fm v cname exec exec a hd)
      have hexeq : (promoteOneArtifact fm v cname exec now sp hd).1.fs.fileExists
          (promoteStagingPath fm exec a) = sp.1.fs.fileExists (promoteStagingPath fm exec a) := by
        simp only [Fs.fileExists, hfr1]
      constructor
      · intro hex
        have h2 := hihall.1 (by rw [hexeq]; exact hex)
        refine ⟨?_, h2.2.1, h2.2.2⟩
        rw [h2.1, hfr1]
      · intro hex
        exact hihall.2 (by rw [hexeq]; exact hex)

/-- `create_checkpoint_execution` leaves the artifact table unchanged. -/
theorem cce_fst_artifacts (s : St) (run : PipelineRun) (cd : CheckpointDefn) (pos : Nat)
    (eid : String) (now : Nat) :
    (create_checkpoint_execution s run cd pos eid now).1.db.artifacts = s.db.artifacts := by
  unfold create_checkpoint_execution
  dsimp only
  split <;> rfl

/-- Reduction of `complete_checkpoint_and_advance` with promotion: the call
succeeds, the final artifact table is the fold's, the filesystem agrees
with the fold's outside the removed temp workspace and `run_info.json`,
files absent after the fold stay absent, and the completing execution ends
`completed`. -/
theorem ccaa_promote_shape (st : St) (execution_id next_execution_id : String) (now : Nat)
    (execution : CheckpointExecution) (checkpoint_def : CheckpointDefn) (run : PipelineRun)
    (pipeline : Pipeline)
    (he : st.db.findExecution execution_id = some execution)
    (hcd : st.db.findCheckpointDef execution.checkpoint_id = some checkpoint_def)
    (hr : st.db.findRun execution.run_id = some run)
    (hp : st.db.findPipeline run.pipeline_id = some pipeline)
    (hfresh : ∀ e ∈ st.db.executions, e.execution_id ≠ next_execution_id) :
    ∃ st2 res,
      complete_checkpoint_and_advance st execution_id true next_execution_id now =
        .ok (st2, res) ∧
      st2.db.artifacts = ((st.db.artifactsOf execution.execution_id).foldl
        (promoteOneArtifact ⟨run.pipeline_id⟩ run.run_version checkpoint_def.checkpoint_name
          execution now) (st, [])).1.db.artifacts ∧
      (∀ p : FPath,
        pathUnder ((⟨run.pipeline_id⟩ : FileManager).get_temp_execution_directory
          execution.execution_id) p = false →
        p ≠ (⟨run.pipeline_id⟩ : FileManager).get_run_directory run.run_version ++
          ["run_info.json"] →
        st2.fs.fileSize p = ((st.db.artifactsOf execution.execution_id).foldl
          (promoteOneArtifact ⟨run.pipeline_id⟩ run.run_version checkpoint_def.checkpoint_name
            execution now) (st, [])).1.fs.fileSize p) ∧
      (∀ p : FPath,
        p ≠ (⟨run.pipeline_id⟩ : FileManager).get_run_directory run.run_version ++
          ["run_info.json"] →
        ((st.db.artifactsOf execution.execution_id).foldl
          (promoteOneArtifact ⟨run.pipeline_id⟩ run.run_version checkpoint_def.checkpoint_name
            execution now) (st, [])).1.fs.fileExists p = false →
        st2.fs.fileExists p = false) ∧
      (∃ e2, st2.db.findExecution execution_id = some e2 ∧ e2.status = .completed ∧
        e2.completed_at = some now) := by
  rcases promote_fold_shape ⟨run.pipeline_id⟩ run.run_version checkpoint_def.checkpoint_name
    execution now (st.db.artifactsOf execution.execution_id) st [] with ⟨fsX, artsX, promX, hstp⟩
  have heid : execution.execution_id = execution_id := findExecution_id st.db _ execution he
  have hneid : execution.execution_id ≠ next_execution_id :=
    hfresh execution (findExecution_mem st.db _ execution he)
  have hexid : execution_id ≠ next_execution_id := heid ▸ hneid
  simp only [complete_checkpoint_and_advance, he, hcd, hr, hp, if_true, hstp]
  cases hnext : pipeline.checkpoint_order[execution.checkpoint_position + 1]? with
  | none =>
    simp only [hnext]
    refine ⟨_, _, rfl, rfl, ?_, ?_, ?_⟩
    · intro p hpU hpRI
      dsimp only
      rw [fileSize_writeFile, if_neg hpRI]
      split
      · exact fileSize_rmtree fsX _ p hpU
      · rfl
    · intro p hpRI hfalse
      have hfalse2 : fsX.fileExists p = false := hfalse
      dsimp only
      rw [fileExists_writeFile_ne _ _ _ _ hpRI]
      split
      · exact fileExists_rmtree_of_false _ _ _ hfalse2
      · exact hfalse2
    · exact ⟨_,
        by dsimp only; simp only [findExecution_updateRun]; rw [findExecution_addInteraction, findExecution_updateExecution _ execution_id (fun e => { e with status := .completed, completed_at := some now }) (fun e => rfl), findExecution_setArtifacts, he]; rfl,
        rfl, rfl⟩
  | some ncid =>
    simp only [hnext, findCheckpointDef_update_addInteraction, findCheckpointDef_setArtifacts]
    cases hncd : st.db.findCheckpointDef ncid with
    | none =>
      simp only [hncd]
      refine ⟨_, _, rfl, rfl, ?_, ?_, ?_⟩
      · intro p hpU hpRI
        rfl
      · intro p hpRI hfalse
        exact hfalse
      · exact ⟨_,
          by dsimp only; rw [findExecution_addInteraction, findExecution_updateExecution _ execution_id (fun e => { e with status := .completed, completed_at := some now }) (fun e => rfl), findExecution_setArtifacts, he]; rfl,
          rfl, rfl⟩
    | some ncp =>
      simp only [hncd]
      by_cases hauto : pipeline.auto_advance = true
      · by_cases hra : ncp.human_interaction.requires_approval_to_start.getD false = true
        · simp only [hauto, hra, if_true]
          refine ⟨_, _, rfl, ?_, ?_, ?_, ?_⟩
          · dsimp only
            simp only [updateRun_artifacts, cce_fst_artifacts, updateExecution_artifacts,
              addInteraction_artifacts]
          · intro p hpU hpRI
            dsimp only
            rw [cce_fst_fs]
            simp only [fileSize_mkdirp]
            split
            · exact fileSize_rmtree fsX _ p hpU
            · rfl
          · intro p hpRI hfalse
            have hfalse2 : fsX.fileExists p = false := hfalse
            dsimp only
            rw [cce_fst_fs]
            simp only [fileExists_mkdirp]
            split
            · exact fileExists_rmtree_of_false _ _ _ hfalse2
            · exact hfalse2
          · exact ⟨_,
              by dsimp only; simp only [findExecution_updateRun]; rw [cce_findExecution_ne _ _ _ _ _ _ _ hexid]; dsimp only; rw [findExecution_addInteraction, findExecution_updateExecution _ execution_id (fun e => { e with status := .completed, completed_at := some now }) (fun e => rfl), findExecution_setArtifacts, he]; rfl,
              rfl, rfl⟩
        · have hra2 : ncp.human_interaction.requires_approval_to_start.getD false = false := by
            simpa using hra
          simp only [hauto, hra2, if_true, Bool.false_eq_true, if_false]
          refine ⟨_, _, rfl, ?_, ?_, ?_, ?_⟩
          · dsimp only
            simp only [updateExecution_artifacts, updateRun_artifacts, cce_fst_artifacts,
              addInteraction_artifacts]
          · intro p hpU hpRI
            dsimp only
            rw [cce_fst_fs]
            simp only [fileSize_mkdirp]
            split
            · exact fileSize_rmtree fsX _ p hpU
            · rfl
          · intro p hpRI hfalse
            have hfalse2 : fsX.fileExists p = false := hfalse
            dsimp only
            rw [cce_fst_fs]
            simp only [fileExists_mkdirp]
            split
            · exact fileExists_rmtree_of_false _ _ _ hfalse2
            · exact hfalse2
          · exact ⟨_,
              by dsimp only; simp only [cce_snd_execution_id]; rw [findExecution_updateExecution_ne _ next_execution_id execution_id (fun e => { e with status := ExecStatus.in_progress, started_at := some now }) (fun e => rfl) hexid]; simp only [findExecution_updateRun]; rw [cce_findExecution_ne _ _ _ _ _ _ _ hexid]; dsimp only; rw [findExecution_addInteraction, findExecution_updateExecution _ execution_id (fun e => { e with status := .completed, completed_at := some now }) (fun e => rfl), findExecution_setArtifacts, he]; rfl,
              rfl, rfl⟩
      · have hauto2 : pipeline.auto_advance = false := by simpa using hauto
        simp only [hauto2, Bool.false_eq_true, if_false]
        refine ⟨_, _, rfl, ?_, ?_, ?_, ?_⟩
        · dsimp only
          simp only [updateExecution_artifacts, updateRun_artifacts, cce_fst_artifacts,
            addInteraction_artifacts]
        · intro p hpU hpRI
          dsimp only
          rw [cce_fst_fs]
          simp only [fileSize_mkdirp]
          split
          · exact fileSize_rmtree fsX _ p hpU
          · rfl
        · intro p hpRI hfalse
          have hfalse2 : fsX.fileExists p = false := hfalse
          dsimp only
          rw [cce_fst_fs]
          simp only [fileExists_mkdirp]
          split
          · exact fileExists_rmtree_of_false _ _ _ hfalse2
          · exact hfalse2
        · exact ⟨_,
            by dsimp only; simp only [cce_snd_execution_id]; rw [findExecution_updateExecution_ne _ next_execution_id execution_id (fun e => { e with status := ExecStatus.waiting_approval_to_start }) (fun e => rfl) hexid]; simp only [findExecution_updateRun]; rw [cce_findExecution_ne _ _ _ _ _ _ _ hexid]; dsimp only; rw [findExecution_addInteraction, findExecution_updateExecution _ execution_id (fun e => { e with status := .completed, completed_at := some now }) (fun e => rfl), findExecution_setArtifacts, he]; rfl,
            rfl, rfl⟩

/-- C8: completion with promotion requested.  Every artifact of the
completing execution whose staged file exists is moved — not copied — to
its permanent path (the permanent file carries the staged size and the
staging path no longer exists) and its row is restamped with
`promoted_to_permanent_at` and the new path; an artifact whose staged file
is missing is skipped without aborting: the call still succeeds and the
execution still reaches `completed`.  The well-formedness hypotheses say
the execution's artifacts have pairwise distinct record ids, staging paths
and permanent paths. -/
theorem c8_promotion_missing_skipped (st : St) (execution_id next_execution_id : String)
    (now : Nat) (execution : CheckpointExecution) (checkpoint_def : CheckpointDefn)
    (run : PipelineRun) (pipeline : Pipeline)
    (he : st.db.findExecution execution_id = some execution)
    (hcd : st.db.findCheckpointDef execution.checkpoint_id = some checkpoint_def)
    (hr : st.db.findRun execution.run_id = some run)
    (hp : st.db.findPipeline run.pipeline_id = some pipeline)
    (hfresh : ∀ e ∈ st.db.executions, e.execution_id ≠ next_execution_id)
    (hrec : ((st.db.artifactsOf execution.execution_id).map
      (fun b => b.artifact_record_id)).Nodup)
    (hps : (st.db.artifactsOf execution.execution_id).Pairwise
      (fun b c => promoteStagingPath ⟨run.pipeline_id⟩ execution b ≠
        promoteStagingPath ⟨run.pipeline_id⟩ execution c))
    (hpp : (st.db.artifactsOf execution.execution_id).Pairwise
      (fun b c => promotePermanentPath ⟨run.pipeline_id⟩ run.run_version
          checkpoint_def.checkpoint_name execution b ≠
        promotePermanentPath ⟨run.pipeline_id⟩ run.run_version
          checkpoint_def.checkpoint_name execution c)) :
    ∃ st2 res,
      complete_checkpoint_and_advance st execution_id true next_execution_id now =
        .ok (st2, res) ∧
      (∃ e2, st2.db.findExecution execution_id = some e2 ∧ e2.status = .completed ∧
        e2.completed_at = some now) ∧
      ∀ a ∈ st.db.artifactsOf execution.execution_id,
        (st.fs.fileExists (promoteStagingPath ⟨run.pipeline_id⟩ execution a) = true →
          st2.fs.fileSize (promotePermanentPath ⟨run.pipeline_id⟩ run.run_version
              checkpoint_def.checkpoint_name execution a) =
            st.fs.fileSize (promoteStagingPath ⟨run.pipeline_id⟩ execution a) ∧
          st2.fs.fileExists (promoteStagingPath ⟨run.pipeline_id⟩ execution a) = false ∧
          promotedRow ⟨run.pipeline_id⟩ run.run_version checkpoint_def.checkpoint_name
            execution now a ∈ st2.db.artifacts) ∧
        (st.fs.fileExists (promoteStagingPath ⟨run.pipeline_id⟩ execution a) = false →
          a ∈ st2.db.artifacts) := by
  rcases ccaa_promote_shape st execution_id next_execution_id now execution checkpoint_def run
    pipeline he hcd hr hp hfresh with ⟨st2, res, hok, harts, hsize, hexfr, he2⟩
  refine ⟨st2, res, hok, he2, ?_⟩
  intro a ha
  have hsub : ∀ b ∈ st.db.artifactsOf execution.execution_id, b ∈ st.db.artifacts :=
    fun b hb => List.mem_of_mem_filter hb
  have heff := promote_fold_effects ⟨run.pipeline_id⟩ run.run_version
    checkpoint_def.checkpoint_name execution now (st.db.artifactsOf execution.execution_id)
    (st, []) hsub hrec hps hpp a ha
  constructor
  · intro hx
    have h1 := heff.1 hx
    refine ⟨?_, ?_, ?_⟩
    · rw [hsize _
        (pathUnder_temp_permanentPath_false ⟨run.pipeline_id⟩ ("exec_" ++ execution.execution_id)
          run.run_version checkpoint_def.checkpoint_name execution a)
        (permanentPath_ne_runinfo ⟨run.pipeline_id⟩ run.run_version
          checkpoint_def.checkpoint_name execution a run.run_version), h1.1]
    · exact hexfr _
        (stagingPath_ne_runinfo ⟨run.pipeline_id⟩ execution a run.run_version) h1.2.1
    · rw [harts]
      exact h1.2.2
  · intro hx
    rw [harts]
    exact heff.2 hx

/-- C8 witness: Scenario A with one staged artifact `report_a0.md` of 7
bytes; completing position 0 with promotion moves it to the permanent
outputs directory and restamps its row, and the call succeeds. -/
theorem c8_witness :
    ∃ st2 res,
      complete_checkpoint_and_advance c8st "e0" true "e1" 99 = .ok (st2, res) ∧
      (∃ e2, st2.db.findExecution "e0" = some e2 ∧ e2.status = .completed ∧
        e2.completed_at = some 99) ∧
      ∀ a ∈ c8st.db.artifactsOf "e0",
        (c8st.fs.fileExists (promoteStagingPath ⟨"p2"⟩ c2exec a) = true →
          st2.fs.fileSize (promotePermanentPath ⟨"p2"⟩ 1 "alpha" c2exec a) =
            c8st.fs.fileSize (promoteStagingPath ⟨"p2"⟩ c2exec a) ∧
          st2.fs.fileExists (promoteStagingPath ⟨"p2"⟩ c2exec a) = false ∧
          promotedRow ⟨"p2"⟩ 1 "alpha" c2exec 99 a ∈ st2.db.artifacts) ∧
        (c8st.fs.fileExists (promoteStagingPath ⟨"p2"⟩ c2exec a) = false →
          a ∈ st2.db.artifacts) :=
  c8_promotion_missing_skipped c8st "e0" "e1" 99 c2exec c2cd0 c2run c2pl rfl rfl rfl rfl
    (by decide) (by decide) (by decide) (by decide)

/-! C5 support: what `_archive_artifact` really does, and the effect of the
shared per-victim archiving step on the archive files and the
`archived_items` table. -/

/-- `_archive_artifact` on an existing source copies it to the computed
archive destination. -/
theorem archive_artifact_hit (fs : Fs) (a : Artifact) (abp : FPath) (v : Nat) (sz : Nat)
    (hsz : fs.fileSize a.file_path = some sz) :
    archive_artifact fs a abp v =
      ((fs.mkdirp (abp ++ ["artifacts"])).writeFile (archivedArtifactPath abp v a) sz,
        archivedArtifactPath abp v a) := by
  have hex : fs.fileExists a.file_path = true := by
    rw [Fs.fileExists, hsz]; rfl
  unfold archive_artifact
  rw [hex]
  simp only [Bool.not_true, Bool.false_eq_true, if_false]
  simp only [Fs.copy2, fileSize_mkdirp, hsz]
  rfl

/-- `_archive_artifact` on a missing source copies nothing and reports a
path under `missing/`. -/
theorem archive_artifact_miss (fs : Fs) (a : Artifact) (abp : FPath) (v : Nat)
    (hex : fs.fileExists a.file_path = false) :
    archive_artifact fs a abp v = (fs, abp ++ ["missing", pathName a.file_path]) := by
  unfold archive_artifact
  rw [hex]
  rfl

/-- Deleting an execution's rows keeps the `archived_items` table. -/
theorem deleteExecutionCascade_archived_items (db : Db) (i : String) :
    (db.deleteExecutionCascade i).archived_items = db.archived_items := rfl

/-- Appending an archived item appends to the `archived_items` table. -/
theorem addArchivedItem_archived_items (db : Db) (it : ArchivedItem) :
    (db.addArchivedItem it).archived_items = db.archived_items ++ [it] := rfl

/-- One archive step leaves every path other than the artifact's archive
destination untouched. -/
theorem archiveOne_fs_frame (rid : String) (adp : FPath) (v : Nat) (eid : String)
    (a2 : St × List ArchInfo) (a : Artifact) (p : FPath)
    (hp : p ≠ archivedArtifactPath adp v a) :
    (archiveOneArtifact rid adp v eid a2 a).1.fs.fileSize p = a2.1.fs.fileSize p := by
  unfold archiveOneArtifact
  dsimp only
  cases hex : a2.1.fs.fileExists a.file_path with
  | false =>
    rw [archive_artifact_miss a2.1.fs a adp v hex]
  | true =>
    have hsome : (a2.1.fs.fileSize a.file_path).isSome = true := hex
    rcases Option.isSome_iff_exists.mp hsome with ⟨sz, hsz⟩
    rw [archive_artifact_hit a2.1.fs a adp v sz hsz]
    dsimp only
    rw [fileSize_writeFile, if_neg hp, fileSize_mkdirp]

/-- One archive step only appends to `archived_items`. -/
theorem archiveOne_items_mono (rid : String) (adp : FPath) (v : Nat) (eid : String)
    (a2 : St × List ArchInfo) (a : Artifact) (it : ArchivedItem)
    (h : it ∈ a2.1.db.archived_items) :
    it ∈ (archiveOneArtifact rid adp v eid a2 a).1.db.archived_items := by
  unfold archiveOneArtifact
  dsimp only [Db.addArchivedItem]
  exact List.mem_append_left _ h

/-- One archive step on an artifact whose source file exists with the
recorded size: the destination now holds that size and the `ArchivedItem`
row is recorded. -/
theorem archiveOne_hit (rid : String) (adp : FPath) (v : Nat) (eid : String)
    (a2 : St × List ArchInfo) (a : Artifact)
    (hsz : a2.1.fs.fileSize a.file_path = some a.size_bytes) :
    (archiveOneArtifact rid adp v eid a2 a).1.fs.fileSize (archivedArtifactPath adp v a) =
      some a.size_bytes ∧
    artifactArchivedItem rid adp v a ∈
      (archiveOneArtifact rid adp v eid a2 a).1.db.archived_items := by
  unfold archiveOneArtifact
  dsimp only [Db.addArchivedItem]
  rw [archive_artifact_hit a2.1.fs a adp v a.size_bytes hsz]
  dsimp only
  constructor
  · rw [fileSize_writeFile, if_pos rfl]
  · refine List.mem_append_right _ ?_
    simp [artifactArchivedItem]

/-- The archive fold leaves untouched every path that is no artifact's
archive destination. -/
theorem archive_fold_fs_frame (rid : String) (adp : FPath) (v : Nat) (eid : String) :
    ∀ (arts : List Artifact) (a2 : St × List ArchInfo) (p : FPath),
      (∀ b ∈ arts, p ≠ archivedArtifactPath adp v b) →
      (arts.foldl (archiveOneArtifact rid adp v eid) a2).1.fs.fileSize p =
        a2.1.fs.fileSize p := by
  intro arts
  induction arts with
  | nil => intro a2 p _; rfl
  | cons a t ih =>
    intro a2 p hp
    rw [List.foldl_cons,
      ih (archiveOneArtifact rid adp v eid a2 a) p
        (fun b hb => hp b (List.mem_cons_of_mem a hb))]
    exact archiveOne_fs_frame rid adp v eid a2 a p (hp a (List.mem_cons_self a t))

/-- The archive fold only appends to `archived_items`. -/
theorem archive_fold_items_mono (rid : String) (adp : FPath) (v : Nat) (eid : String) :
    ∀ (arts : List Artifact) (a2 : St × List ArchInfo) (it : ArchivedItem),
      it ∈ a2.1.db.archived_items →
      it ∈ (arts.foldl (archiveOneArtifact rid adp v eid) a2).1.db.archived_items := by
  intro arts
  induction arts with
  | nil => intro a2 it h; exact h
  | cons a t ih =>
    intro a2 it h
    rw [List.foldl_cons]
    exact ih _ it (archiveOne_items_mono rid adp v eid a2 a it h)

/-- Effect of the archive fold on each artifact whose source file exists
with the recorded size: the archive destination holds that size and the
`ArchivedItem` row is in the table. -/
theorem archive_fold_effects (rid : String) (adp : FPath) (v : Nat) (eid : String) :
    ∀ (arts : List Artifact) (a2 : St × List ArchInfo),
      (arts.Pairwise (fun a b => archivedArtifactPath adp v a ≠ archivedArtifactPath adp v b)) →
      (∀ a ∈ arts, ∀ b ∈ arts, archivedArtifactPath adp v a ≠ b.file_path) →
      ∀ a ∈ arts, a2.1.fs.fileSize a.file_path = some a.size_bytes →
        (arts.foldl (archiveOneArtifact rid adp v eid) a2).1.fs.fileSize
            (archivedArtifactPath adp v a) = some a.size_bytes ∧
        artifactArchivedItem rid adp v a ∈
          (arts.foldl (archiveOneArtifact rid adp v eid) a2).1.db.archived_items := by
  intro arts
  induction arts with
  | nil => intro a2 _ _ a ha; exact absurd ha (List.not_mem_nil a)
  | cons hd t ih =>
    intro a2 hdist hsrc a ha hsz
    rw [List.foldl_cons]
    rcases List.mem_cons.mp ha with rfl | hat
    · have hh := archiveOne_hit rid adp v eid a2 a hsz
      constructor
      · rw [archive_fold_fs_frame rid adp v eid t _ _ (List.pairwise_cons.mp hdist).1]
        exact hh.1
      · exact archive_fold_items_mono rid adp v eid t _ _ hh.2
    · have hfr : (archiveOneArtifact rid adp v eid a2 hd).1.fs.fileSize a.file_path =
          a2.1.fs.fileSize a.file_path :=
        archiveOne_fs_frame rid adp v eid a2 hd a.file_path
          (Ne.symm (hsrc hd (List.mem_cons_self hd t) a ha))
      exact ih (archiveOneArtifact rid adp v eid a2 hd)
        (List.pairwise_cons.mp hdist).2
        (fun x hx b hb => hsrc x (List.mem_cons_of_mem hd hx) b (List.mem_cons_of_mem hd hb))
        a hat (by rw [hfr]; exact hsz)

/-- C5 counterexample: in the concrete two-checkpoint state `c5st`,
`checkpoint_level_rollback` succeeds and records an `ArchivedItem` of type
`checkpoint_execution` at whose `archived_path` nothing exists — the
placeholder path `archived_data/execution_{id}` is never created, so the
claimed round-trip fails for that item. -/
theorem c5_counterexample :
    ∃ st2 res,
      checkpoint_level_rollback c5st "p5" "r5" 0 none "rb5" 77 = .ok (st2, res) ∧
      ∃ it ∈ st2.db.archived_items, it.item_type = "checkpoint_execution" ∧
        st2.fs.pathExists it.archived_path = false := by
  refine ⟨_, _, rfl, ?_⟩
  decide

/-- C5 (amended): in the per-victim archiving step shared by both rollback
operations, every artifact of the victim whose source file exists with the
recorded `size_bytes` does round-trip: a file exists at the recorded
`archived_path` with exactly `size_bytes` bytes, and the `artifact`-typed
`ArchivedItem` row is in the table.  Hypotheses: archive destinations are
pairwise distinct and distinct from all source paths, and the victim's
(mis-joined) temp path does not lie above any archive destination. -/
theorem c5_artifact_archive_roundtrip (pipeline_id rollback_id : String) (adp : FPath)
    (v : Nat) (acc : St × List ArchInfo) (e : CheckpointExecution)
    (hdist : (acc.1.db.artifactsOf e.execution_id).Pairwise
      (fun a b => archivedArtifactPath adp v a ≠ archivedArtifactPath adp v b))
    (hsrc : ∀ a ∈ acc.1.db.artifactsOf e.execution_id,
      ∀ b ∈ acc.1.db.artifactsOf e.execution_id,
        archivedArtifactPath adp v a ≠ b.file_path)
    (htemp : ∀ a ∈ acc.1.db.artifactsOf e.execution_id,
      pathUnder ((⟨pipeline_id⟩ : FileManager).base_path ++ e.temp_workspace_path)
        (archivedArtifactPath adp v a) = false) :
    ∀ a ∈ acc.1.db.artifactsOf e.execution_id,
      acc.1.fs.fileSize a.file_path = some a.size_bytes →
      (processExecutionVictim pipeline_id rollback_id adp v acc e).1.fs.fileExists
          (archivedArtifactPath adp v a) = true ∧
      (processExecutionVictim pipeline_id rollback_id adp v acc e).1.fs.fileSize
          (archivedArtifactPath adp v a) = some a.size_bytes ∧
      artifactArchivedItem rollback_id adp v a ∈
        (processExecutionVictim pipeline_id rollback_id adp v acc e).1.db.archived_items := by
  intro a ha hsz
  have hfold := archive_fold_effects rollback_id adp v e.execution_id
    (acc.1.db.artifactsOf e.execution_id) acc hdist hsrc a ha hsz
  have hsizeF : (processExecutionVictim pipeline_id rollback_id adp v acc e).1.fs.fileSize
      (archivedArtifactPath adp v a) = some a.size_bytes := by
    unfold processExecutionVictim
    dsimp only
    split
    · rw [fileSize_rmtree _ _ _ (htemp a ha)]
      exact hfold.1
    · exact hfold.1
  have hmemF : artifactArchivedItem rollback_id adp v a ∈
      (processExecutionVictim pipeline_id rollback_id adp v acc e).1.db.archived_items := by
    unfold processExecutionVictim
    dsimp only [Db.deleteExecutionCascade, Db.addArchivedItem]
    split
    · exact List.mem_append_left _ hfold.2
    · exact List.mem_append_left _ hfold.2
  refine ⟨?_, hsizeF, hmemF⟩
  rw [Fs.fileExists, hsizeF]
  rfl

/-- C5 amended-claim witness: one victim artifact `doc_wa.txt` of 3 bytes;
the archiving step produces `arch/artifacts/doc_wa_v1.txt` with 3 bytes and
records the matching `artifact` row. -/
theorem c5_witness :
    (processExecutionVictim "p5w" "rb9" ["arch"] 1 ((c5wst, []) : St × List ArchInfo)
        c5we).1.fs.fileExists (archivedArtifactPath ["arch"] 1 c5wart) = true ∧
    (processExecutionVictim "p5w" "rb9" ["arch"] 1 ((c5wst, []) : St × List ArchInfo)
        c5we).1.fs.fileSize (archivedArtifactPath ["arch"] 1 c5wart) = some c5wart.size_bytes ∧
    artifactArchivedItem "rb9" ["arch"] 1 c5wart ∈
      (processExecutionVictim "p5w" "rb9" ["arch"] 1 ((c5wst, []) : St × List ArchInfo)
        c5we).1.db.archived_items :=
  c5_artifact_archive_roundtrip "p5w" "rb9" ["arch"] 1 ((c5wst, []) : St × List ArchInfo) c5we
    (by decide) (by decide) (by decide) c5wart (by decide) (by decide)

/-! C1 support: the effect of the victim loop of `checkpoint_level_rollback`
on the executions table, the runs table, the artifact table of other
executions, and the event trace. -/

/-- Any database projection untouched by `addArchivedItem` passes through
the archive fold. -/
theorem archive_fold_db {α : Type} (rid : String) (adp : FPath) (v : Nat) (eid : String)
    (f : Db → α)
    (hf : ∀ (db : Db) (it : ArchivedItem), f (db.addArchivedItem it) = f db) :
    ∀ (arts : List Artifact) (a2 : St × List ArchInfo),
      f ((arts.foldl (archiveOneArtifact rid adp v eid) a2).1.db) = f (a2.1.db) := by
  intro arts
  induction arts with
  | nil => intro a2; rfl
  | cons a t ih =>
    intro a2
    rw [List.foldl_cons]
    exact (ih (archiveOneArtifact rid adp v eid a2 a)).trans (hf a2.1.db _)

/-- The archive fold appends exactly one `archiveArtifactOf` event per
artifact, in list order. -/
theorem archive_fold_trace (rid : String) (adp : FPath) (v : Nat) (eid : String) :
    ∀ (arts : List Artifact) (a2 : St × List ArchInfo),
      (arts.foldl (archiveOneArtifact rid adp v eid) a2).1.trace =
        a2.1.trace ++ arts.map (fun a => Ev.archiveArtifactOf eid a.artifact_record_id) := by
  intro arts
  induction arts with
  | nil => intro a2; simp
  | cons a t ih =>
    intro a2
    rw [List.foldl_cons, ih]
    have h1 : (archiveOneArtifact rid adp v eid a2 a).1.trace =
        a2.1.trace ++ [Ev.archiveArtifactOf eid a.artifact_record_id] := rfl
    rw [h1]
    simp

/-- Processing one victim deletes exactly its execution rows. -/
theorem processExecutionVictim_executions (pid rid : String) (adp : FPath) (v : Nat)
    (acc : St × List ArchInfo) (e : CheckpointExecution) :
    (processExecutionVictim pid rid adp v acc e).1.db.executions =
      acc.1.db.executions.filter (fun x => x.execution_id != e.execution_id) := by
  unfold processExecutionVictim
  dsimp only [Db.deleteExecutionCascade, Db.addArchivedItem]
  split <;>
    rw [archive_fold_db rid adp v e.execution_id Db.executions
      (fun db it => rfl) (acc.1.db.artifactsOf e.execution_id) acc]

/-- Processing one victim leaves the runs table unchanged. -/
theorem processExecutionVictim_runs (pid rid : String) (adp : FPath) (v : Nat)
    (acc : St × List ArchInfo) (e : CheckpointExecution) :
    (processExecutionVictim pid rid adp v acc e).1.db.runs = acc.1.db.runs := by
  unfold processExecutionVictim
  dsimp only [Db.deleteExecutionCascade, Db.addArchivedItem]
  split <;>
    rw [archive_fold_db rid adp v e.execution_id Db.runs
      (fun db it => rfl) (acc.1.db.artifactsOf e.execution_id) acc]

/-- Processing one victim keeps the artifacts of every other execution. -/
theorem processExecutionVictim_artifactsOf (pid rid : String) (adp : FPath) (v : Nat)
    (acc : St × List ArchInfo) (e : CheckpointExecution) (j : String)
    (hne : j ≠ e.execution_id) :
    (processExecutionVictim pid rid adp v acc e).1.db.artifactsOf j =
      acc.1.db.artifactsOf j := by
  unfold processExecutionVictim
  dsimp only [Db.artifactsOf, Db.deleteExecutionCascade, Db.addArchivedItem]
  split <;>
  · rw [archive_fold_db rid adp v e.execution_id Db.artifacts
      (fun db it => rfl)]
    rw [List.filter_filter]
    refine List.filter_congr ?_
    intro x hx
    cases hq : (x.execution_id == j) with
    | false => simp [hq]
    | true =>
      have hxj : x.execution_id = j := eq_of_beq hq
      simp [hq, hxj, bne, hne]

/-- Processing one victim appends its archive events, possibly a
temp-workspace deletion, and finally the execution-row deletion. -/
theorem processExecutionVictim_trace (pid rid : String) (adp : FPath) (v : Nat)
    (acc : St × List ArchInfo) (e : CheckpointExecution) :
    ∃ mid, (processExecutionVictim pid rid adp v acc e).1.trace =
      (acc.1.trace ++ ((acc.1.db.artifactsOf e.execution_id).map
        (fun a => Ev.archiveArtifactOf e.execution_id a.artifact_record_id) ++ mid)) ++
        [Ev.deleteExecutionRow e.execution_id] := by
  unfold processExecutionVictim
  dsimp only
  split
  · refine ⟨[Ev.deleteTempWorkspace e.execution_id], ?_⟩
    rw [archive_fold_trace]
    simp
  · refine ⟨[], ?_⟩
    rw [archive_fold_trace]
    simp

/-- Processing one victim only appends to the trace. -/
theorem processExecutionVictim_trace_mono (pid rid : String) (adp : FPath) (v : Nat)
    (acc : St × List ArchInfo) (e : CheckpointExecution) :
    ∃ tail, (processExecutionVictim pid rid adp v acc e).1.trace = acc.1.trace ++ tail := by
  rcases processExecutionVictim_trace pid rid adp v acc e with ⟨mid, h⟩
  refine ⟨((acc.1.db.artifactsOf e.execution_id).map
    (fun a => Ev.archiveArtifactOf e.execution_id a.artifact_record_id) ++ mid) ++
    [Ev.deleteExecutionRow e.execution_id], ?_⟩
  rw [h]
  simp

/-- The victim fold only appends to the trace. -/
theorem victims_fold_trace_mono (pid rid : String) (adp : FPath) (v : Nat) :
    ∀ (vs : List CheckpointExecution) (acc : St × List ArchInfo),
      ∃ tail, (vs.foldl (processExecutionVictim pid rid adp v) acc).1.trace =
        acc.1.trace ++ tail := by
  intro vs
  induction vs with
  | nil => intro acc; exact ⟨[], by simp⟩
  | cons e t ih =>
    intro acc
    rw [List.foldl_cons]
    rcases processExecutionVictim_trace_mono pid rid adp v acc e with ⟨t1, h1⟩
    rcases ih (processExecutionVictim pid rid adp v acc e) with ⟨t2, h2⟩
    refine ⟨t1 ++ t2, ?_⟩
    rw [h2, h1]
    simp

/-- The victim fold deletes exactly the victims' execution rows. -/
theorem victims_fold_executions (pid rid : String) (adp : FPath) (v : Nat) :
    ∀ (vs : List CheckpointExecution) (acc : St × List ArchInfo),
      (vs.foldl (processExecutionVictim pid rid adp v) acc).1.db.executions =
        acc.1.db.executions.filter
          (fun x => !(vs.any (fun e => x.execution_id == e.execution_id))) := by
  intro vs
  induction vs with
  | nil => intro acc; simp
  | cons e t ih =>
    intro acc
    rw [List.foldl_cons, ih, processExecutionVictim_executions, List.filter_filter]
    refine List.filter_congr ?_
    intro x hx
    simp [List.any_cons, Bool.not_or, Bool.and_comm, bne]

/-- The victim fold leaves the runs table unchanged. -/
theorem victims_fold_runs (pid rid : String) (adp : FPath) (v : Nat) :
    ∀ (vs : List CheckpointExecution) (acc : St × List ArchInfo),
      (vs.foldl (processExecutionVictim pid rid adp v) acc).1.db.runs = acc.1.db.runs := by
  intro vs
  induction vs with
  | nil => intro acc; rfl
  | cons e t ih =>
    intro acc
    rw [List.foldl_cons, ih, processExecutionVictim_runs]

/-- Archive-before-delete, through the whole victim fold: every artifact of
every victim gets its archive event strictly before the victim's
execution-row deletion event. -/
theorem victims_fold_trace_order (pid rid : String) (adp : FPath) (v : Nat) :
    ∀ (vs : List CheckpointExecution) (acc : St × List ArchInfo),
      ((vs.map (fun e => e.execution_id)).Nodup) →
      ∀ e ∈ vs, ∀ a ∈ acc.1.db.artifactsOf e.execution_id,
        ∃ pre mid post, (vs.foldl (processExecutionVictim pid rid adp v) acc).1.trace =
          pre ++ Ev.archiveArtifactOf e.execution_id a.artifact_record_id ::
            (mid ++ Ev.deleteExecutionRow e.execution_id :: post) := by
  intro vs
  induction vs with
  | nil => intro acc _ e he; exact absurd he (List.not_mem_nil e)
  | cons hd t ih =>
    intro acc hnd e he a ha
    have hnd2 : ((fun x : CheckpointExecution => x.execution_id) hd ::
        t.map (fun x => x.execution_id)).Nodup := by
      rw [← List.map_cons]
      exact hnd
    rw [List.foldl_cons]
    rcases List.mem_cons.mp he with rfl | het
    · rcases processExecutionVictim_trace pid rid adp v acc e with ⟨midt, hsh⟩
      rcases victims_fold_trace_mono pid rid adp v t
        (processExecutionVictim pid rid adp v acc e) with ⟨tail, htail⟩
      rcases List.append_of_mem ha with ⟨l1, l2, hsplit⟩
      refine ⟨acc.1.trace ++ l1.map
          (fun a2 => Ev.archiveArtifactOf e.execution_id a2.artifact_record_id),
        l2.map (fun a2 => Ev.archiveArtifactOf e.execution_id a2.artifact_record_id) ++ midt,
        tail, ?_⟩
      rw [htail, hsh, hsplit]
      simp
    · have hne : e.execution_id ≠ hd.execution_id := by
        intro heq
        apply (List.nodup_cons.mp hnd2).1
        show hd.execution_id ∈ List.map (fun x : CheckpointExecution => x.execution_id) t
        rw [← heq]
        exact List.mem_map_of_mem (fun x : CheckpointExecution => x.execution_id) het
      have hstab := processExecutionVictim_artifactsOf pid rid adp v acc hd
        e.execution_id hne
      exact ih (processExecutionVictim pid rid adp v acc hd) (List.nodup_cons.mp hnd2).2
        e het a (by rw [hstab]; exact ha)

/-- Run lookups ignore the rollback-event table. -/
theorem findRun_setRollbackEvents (db : Db) (evs : List RollbackEvent) (j : String) :
    ({ db with rollback_events := evs } : Db).findRun j = db.findRun j := rfl

/-- C1: `checkpoint_level_rollback`.  With a valid run of the pipeline:
if no checkpoint exists at the target position the call raises the client
error; with a target checkpoint, no victim beyond the target yields the
distinct no-op result on an unchanged state; otherwise the call succeeds,
deletes exactly the run's executions with position strictly above the
target (reported in descending position order), archives every artifact of
every victim strictly before deleting that victim's execution row, reopens
a completed run to `in_progress`, and resets the current position to the
target.  Execution ids are assumed unique (database key). -/
theorem c1_checkpoint_level_rollback (st : St) (pipeline_id run_id : String)
    (target : Nat) (reason : Option String) (rollback_id : String) (now : Nat)
    (run : PipelineRun)
    (hr : st.db.findRun run_id = some run)
    (hpid : run.pipeline_id = pipeline_id)
    (hnodup : (st.db.executions.map (fun e => e.execution_id)).Nodup) :
    (getCheckpointAtPosition st.db pipeline_id target = none →
      checkpoint_level_rollback st pipeline_id run_id target reason rollback_id now =
        .error ("No checkpoint found at position " ++ toString target, st)) ∧
    (∀ tc, getCheckpointAtPosition st.db pipeline_id target = some tc →
      (st.db.executions.filter
          (fun e => e.run_id == run_id && target < e.checkpoint_position) = [] →
        checkpoint_level_rollback st pipeline_id run_id target reason rollback_id now =
          .ok (st, noopCkptResult target)) ∧
      (st.db.executions.filter
          (fun e => e.run_id == run_id && target < e.checkpoint_position) ≠ [] →
        ∃ st2 res,
          checkpoint_level_rollback st pipeline_id run_id target reason rollback_id now =
            .ok (st2, res) ∧
          st2.db.executions = st.db.executions.filter
            (fun e => !(e.run_id == run_id && target < e.checkpoint_position)) ∧
          (∃ ds : List CheckpointExecution,
            res.deleted_executions = ds.map (fun e => e.execution_id) ∧
            ds.Perm (st.db.executions.filter
              (fun e => e.run_id == run_id && target < e.checkpoint_position)) ∧
            ds.Pairwise (fun x y => y.checkpoint_position ≤ x.checkpoint_position)) ∧
          (∀ e ∈ st.db.executions.filter
              (fun e => e.run_id == run_id && target < e.checkpoint_position),
            ∀ a ∈ st.db.artifactsOf e.execution_id,
            ∃ pre mid post, st2.trace =
              pre ++ Ev.archiveArtifactOf e.execution_id a.artifact_record_id ::
                (mid ++ Ev.deleteExecutionRow e.execution_id :: post)) ∧
          (∃ r2, st2.db.findRun run_id = some r2 ∧
            r2.status = (if run.status = .completed then RunStatus.in_progress
              else run.status) ∧
            r2.current_checkpoint_position = some target ∧
            r2.current_checkpoint_id = some tc.checkpoint_id) ∧
          res.rollback_id = some rollback_id)) := by
  have hguard : ¬(run.pipeline_id ≠ pipeline_id) := fun h => h hpid
  refine ⟨?_, ?_⟩
  · intro hcknone
    simp only [checkpoint_level_rollback, hr]
    rw [if_neg hguard]
    simp only [hcknone]
  · intro tc hck
    refine ⟨?_, ?_⟩
    · intro hvic
      simp only [checkpoint_level_rollback, hr]
      rw [if_neg hguard]
      simp only [hck, hvic]
      rfl
    · intro hne
      have hise : (sortByDesc (fun e => e.checkpoint_position)
          (st.db.executions.filter
            (fun e => e.run_id == run_id && target < e.checkpoint_position))).isEmpty =
          false := by
        cases hsrt : sortByDesc (fun e => e.checkpoint_position)
            (st.db.executions.filter
              (fun e => e.run_id == run_id && target < e.checkpoint_position)) with
        | nil =>
          exfalso
          apply hne
          have hperm := sortByDesc_perm
            (fun e : CheckpointExecution => e.checkpoint_position)
            (st.db.executions.filter
              (fun e => e.run_id == run_id && target < e.checkpoint_position))
          rw [hsrt] at hperm
          exact (List.Perm.nil_eq hperm).symm
        | cons x xs => rfl
      have hvnodup : ((sortByDesc (fun e => e.checkpoint_position)
          (st.db.executions.filter
            (fun e => e.run_id == run_id && target < e.checkpoint_position))).map
          (fun e => e.execution_id)).Nodup := by
        have h1 : (st.db.executions.filter
            (fun e => e.run_id == run_id && target < e.checkpoint_position)).Sublist
            st.db.executions := List.filter_sublist _
        have h2 := hnodup.sublist (h1.map (fun e => e.execution_id))
        exact (((sortByDesc_perm (fun e : CheckpointExecution => e.checkpoint_position)
          (st.db.executions.filter
            (fun e => e.run_id == run_id && target < e.checkpoint_position))).map
          (fun e => e.execution_id)).nodup_iff).mpr h2
      have hf : ∀ r : PipelineRun,
          (rollbackRunUpdate tc.checkpoint_id target r).run_id = r.run_id := by
        intro r
        unfold rollbackRunUpdate
        dsimp only
        split <;> rfl
      simp only [checkpoint_level_rollback, hr]
      rw [if_neg hguard]
      simp only [hck, hise, Bool.false_eq_true, if_false]
      refine ⟨_, _, rfl, ?_, ?_, ?_, ?_, rfl⟩
      · dsimp only
        simp only [updateRun_executions]
        rw [victims_fold_executions]
        refine List.filter_congr ?_
        intro x hx
        have hmain : ((sortByDesc (fun e => e.checkpoint_position)
            (st.db.executions.filter
              (fun e => e.run_id == run_id && target < e.checkpoint_position))).any
            (fun e => x.execution_id == e.execution_id)) =
            (x.run_id == run_id && decide (target < x.checkpoint_position)) := by
          cases hvp : (x.run_id == run_id && decide (target < x.checkpoint_position)) with
          | true =>
            refine List.any_eq_true.mpr ⟨x, ?_, ?_⟩
            · exact (sortByDesc_mem _ _ x).mpr (List.mem_filter.mpr ⟨hx, hvp⟩)
            · simp
          | false =>
            cases hany : ((sortByDesc (fun e => e.checkpoint_position)
                (st.db.executions.filter
                  (fun e => e.run_id == run_id && target < e.checkpoint_position))).any
                (fun e => x.execution_id == e.execution_id)) with
            | false => rfl
            | true =>
              exfalso
              rcases List.any_eq_true.mp hany with ⟨e2, he2, hbeq⟩
              have he2v := (sortByDesc_mem
                (fun e : CheckpointExecution => e.checkpoint_position) _ e2).mp he2
              have he2x := (List.mem_filter.mp he2v).1
              have he2p := (List.mem_filter.mp he2v).2
              have hxe : x = e2 :=
                List.inj_on_of_nodup_map hnodup hx he2x (eq_of_beq hbeq)
              rw [hxe] at hvp
              exact absurd (hvp.symm.trans he2p) (by decide)
        rw [hmain]
      · refine ⟨sortByDesc (fun e => e.checkpoint_position)
          (st.db.executions.filter
            (fun e => e.run_id == run_id && target < e.checkpoint_position)),
          rfl, sortByDesc_perm _ _, sortByDesc_sorted _ _⟩
      · intro e he a ha
        have hes : e ∈ sortByDesc (fun e => e.checkpoint_position)
            (st.db.executions.filter
              (fun e => e.run_id == run_id && target < e.checkpoint_position)) :=
          (sortByDesc_mem _ _ e).mpr he
        exact victims_fold_trace_order pipeline_id rollback_id
          (((⟨pipeline_id⟩ : FileManager).archived_dir ++
            ["rollback_" ++ rollback_id ++ "_" ++ toString now]) ++ ["archived_data"])
          run.run_version
          (sortByDesc (fun e => e.checkpoint_position)
            (st.db.executions.filter
              (fun e => e.run_id == run_id && target < e.checkpoint_position)))
          _ hvnodup e hes a ha
      · refine ⟨rollbackRunUpdate tc.checkpoint_id target run, ?_, ?_, rfl, rfl⟩
        · dsimp only
          rw [findRun_updateRun _ run_id _ hf]
          have h1 : ((sortByDesc (fun e => e.checkpoint_position)
              (st.db.executions.filter
                (fun e => e.run_id == run_id &&
                  target < e.checkpoint_position))).foldl
              (processExecutionVictim pipeline_id rollback_id
                (((⟨pipeline_id⟩ : FileManager).archived_dir ++
                  ["rollback_" ++ rollback_id ++ "_" ++ toString now]) ++
                  ["archived_data"]) run.run_version)
              (({ st with fs := ((st.fs.mkdirp ((⟨pipeline_id⟩ : FileManager).archived_dir ++
                  ["rollback_" ++ rollback_id ++ "_" ++ toString now])).mkdirp
                  (((⟨pipeline_id⟩ : FileManager).archived_dir ++
                    ["rollback_" ++ rollback_id ++ "_" ++ toString now]) ++
                    ["archived_data"])) } : St), [])).1.db.findRun run_id = some run := by
            unfold Db.findRun
            rw [victims_fold_runs]
            exact hr
          rw [findRun_setRollbackEvents, h1]
          rfl
        · unfold rollbackRunUpdate
          dsimp only
          by_cases hc : run.status = RunStatus.completed
          · simp [hc]
          · simp [hc]

/-- C1 witness: in the concrete state `c5st`, rolling run r5 back to
position 0 deletes exactly the position-1 execution, reports it, keeps the
run `in_progress`, and resets the pointer to position 0. -/
theorem c1_witness :
    ∃ st2 res,
      checkpoint_level_rollback c5st "p5" "r5" 0 none "rbw" 55 = .ok (st2, res) ∧
      st2.db.executions = c5st.db.executions.filter
        (fun e => !(e.run_id == "r5" && 0 < e.checkpoint_position)) ∧
      (∃ ds : List CheckpointExecution,
        res.deleted_executions = ds.map (fun e => e.execution_id) ∧
        ds.Perm (c5st.db.executions.filter
          (fun e => e.run_id == "r5" && 0 < e.checkpoint_position)) ∧
        ds.Pairwise (fun x y => y.checkpoint_position ≤ x.checkpoint_position)) ∧
      (∀ e ∈ c5st.db.executions.filter
          (fun e => e.run_id == "r5" && 0 < e.checkpoint_position),
        ∀ a ∈ c5st.db.artifactsOf e.execution_id,
        ∃ pre mid post, st2.trace =
          pre ++ Ev.archiveArtifactOf e.execution_id a.artifact_record_id ::
            (mid ++ Ev.deleteExecutionRow e.execution_id :: post)) ∧
      (∃ r2, st2.db.findRun "r5" = some r2 ∧
        r2.status = (if c5run.status = .completed then RunStatus.in_progress
          else c5run.status) ∧
        r2.current_checkpoint_position = some 0 ∧
        r2.current_checkpoint_id = some c5kd0.checkpoint_id) ∧
      res.rollback_id = some "rbw" :=
  ((c1_checkpoint_level_rollback c5st "p5" "r5" 0 none "rbw" 55 c5run rfl rfl
    (by decide)).2 c5kd0 rfl).2 (by decide)

/-! C4 support, part 1: filesystem frame facts for `copytree`, archive-item
membership through the per-victim step, and lookup helpers. -/

/-- A list is a `isPrefixOf` of itself extended. -/
theorem isPrefixOf_append (l t : FPath) : l.isPrefixOf (l ++ t) = true := by
  induction l with
  | nil => simp [List.isPrefixOf]
  | cons a l2 ih => simp [List.isPrefixOf, ih]

/-- `copytree` never touches a file outside the destination. -/
theorem copytree_fileSize_frame (fs : Fs) (src dst p : FPath)
    (hdst : pathUnder dst p = false) :
    (fs.copytree src dst).fileSize p = fs.fileSize p := by
  simp only [Fs.copytree, Fs.fileSize]
  rw [List.find?_append]
  have hnone : (fs.files.filterMap
      (fun f => if pathUnder src f.1 then some (dst ++ f.1.drop src.length, f.2)
        else none)).find? (fun f => f.1 == p) = none := by
    rw [List.find?_eq_none]
    intro c hc hb
    rcases List.mem_filterMap.mp hc with ⟨f0, _, hf0⟩
    have hc1 : c.1 = dst ++ f0.1.drop src.length := by
      by_cases hu : pathUnder src f0.1 = true
      · rw [if_pos hu] at hf0
        injection hf0 with h2
        rw [← h2]
      · rw [if_neg hu] at hf0
        cases hf0
    have hp : p = dst ++ f0.1.drop src.length := by
      rw [← hc1]
      exact (eq_of_beq hb).symm
    rw [hp, pathUnder] at hdst
    rw [isPrefixOf_append] at hdst
    cases hdst
  rw [hnone, Option.none_or]

/-- After `update_latest_symlink`, the pipeline's latest entry is the new
version. -/
theorem setLatest_find (l : List (String × Nat)) (pid : String) (v : Nat) :
    (setLatest l pid v).find? (fun e => e.1 == pid) = some (pid, v) := by
  simp [setLatest]

/-- `find?` by id survives filtering, when the found row passes the filter. -/
theorem findRun_filter (runs : List PipelineRun) (j : String) (r : PipelineRun)
    (F : PipelineRun → Bool) (h : runs.find? (fun x => x.run_id == j) = some r)
    (hF : F r = true) :
    (runs.filter F).find? (fun x => x.run_id == j) = some r := by
  induction runs with
  | nil => cases h
  | cons y t ih =>
    cases hb : (y.run_id == j) with
    | true =>
      rw [@List.find?_cons_of_pos _ (fun x => x.run_id == j) y t hb] at h
      cases h
      rw [List.filter_cons, if_pos hF]
      exact @List.find?_cons_of_pos _ (fun x => x.run_id == j) _ (List.filter F t) hb
    | false =>
      rw [@List.find?_cons_of_neg _ (fun x => x.run_id == j) y t (by simp [hb])] at h
      rw [List.filter_cons]
      by_cases hFy : F y = true
      · rw [if_pos hFy,
          @List.find?_cons_of_neg _ (fun x => x.run_id == j) y (List.filter F t)
            (by simp [hb])]
        exact ih h
      · rw [if_neg hFy]
        exact ih h

/-- One archive step records the artifact's `ArchivedItem` row (at some
archive destination). -/
theorem archiveOne_item_mem (rid : String) (adp : FPath) (v : Nat) (eid : String)
    (a2 : St × List ArchInfo) (a : Artifact) :
    ∃ ap, artifactArchivedItemAt rid a ap ∈
      (archiveOneArtifact rid adp v eid a2 a).1.db.archived_items := by
  refine ⟨(archive_artifact a2.1.fs a adp v).2, ?_⟩
  unfold archiveOneArtifact
  dsimp only [Db.addArchivedItem]
  refine List.mem_append_right _ ?_
  simp [artifactArchivedItemAt]

/-- The archive fold records an `ArchivedItem` row for every artifact. -/
theorem archive_fold_item (rid : String) (adp : FPath) (v : Nat) (eid : String) :
    ∀ (arts : List Artifact) (a2 : St × List ArchInfo),
      ∀ a ∈ arts, ∃ ap, artifactArchivedItemAt rid a ap ∈
        (arts.foldl (archiveOneArtifact rid adp v eid) a2).1.db.archived_items := by
  intro arts
  induction arts with
  | nil => intro a2 a ha; exact absurd ha (List.not_mem_nil a)
  | cons hd t ih =>
    intro a2 a ha
    rw [List.foldl_cons]
    rcases List.mem_cons.mp ha with rfl | hat
    · rcases archiveOne_item_mem rid adp v eid a2 a with ⟨ap, hm⟩
      exact ⟨ap, archive_fold_items_mono rid adp v eid t _ _ hm⟩
    · exact ih _ a hat

/-- The exec-victim step keeps the rollback-event table. -/
theorem processExecutionVictim_rollback_events (pid rid : String) (adp : FPath) (v : Nat)
    (acc : St × List ArchInfo) (e : CheckpointExecution) :
    (processExecutionVictim pid rid adp v acc e).1.db.rollback_events =
      acc.1.db.rollback_events := by
  unfold processExecutionVictim
  dsimp only [Db.deleteExecutionCascade, Db.addArchivedItem]
  split <;>
    rw [archive_fold_db rid adp v e.execution_id Db.rollback_events
      (fun db it => rfl) (acc.1.db.artifactsOf e.execution_id) acc]

/-- The exec-victim step only appends to `archived_items`. -/
theorem processExecutionVictim_archived_mono (pid rid : String) (adp : FPath) (v : Nat)
    (acc : St × List ArchInfo) (e : CheckpointExecution) (it : ArchivedItem)
    (h : it ∈ acc.1.db.archived_items) :
    it ∈ (processExecutionVictim pid rid adp v acc e).1.db.archived_items := by
  unfold processExecutionVictim
  dsimp only [Db.deleteExecutionCascade, Db.addArchivedItem]
  split <;> exact List.mem_append_left _ (archive_fold_items_mono rid adp v e.execution_id
    (acc.1.db.artifactsOf e.execution_id) acc it h)

/-- The exec-victim step records the execution's placeholder row. -/
theorem processExecutionVictim_execItem_mem (pid rid : String) (adp : FPath) (v : Nat)
    (acc : St × List ArchInfo) (e : CheckpointExecution) :
    executionArchivedItem rid e ∈
      (processExecutionVictim pid rid adp v acc e).1.db.archived_items := by
  unfold processExecutionVictim
  dsimp only [Db.deleteExecutionCascade, Db.addArchivedItem]
  split <;> exact List.mem_append_right _ (List.mem_singleton.mpr rfl)

/-- The exec-victim step records an `ArchivedItem` row for each artifact of
the victim. -/
theorem processExecutionVictim_artifact_items (pid rid : String) (adp : FPath) (v : Nat)
    (acc : St × List ArchInfo) (e : CheckpointExecution) :
    ∀ a ∈ acc.1.db.artifactsOf e.execution_id,
      ∃ ap, artifactArchivedItemAt rid a ap ∈
        (processExecutionVictim pid rid adp v acc e).1.db.archived_items := by
  intro a ha
  rcases archive_fold_item rid adp v e.execution_id
    (acc.1.db.artifactsOf e.execution_id) acc a ha with ⟨ap, hm⟩
  refine ⟨ap, ?_⟩
  unfold processExecutionVictim
  dsimp only [Db.deleteExecutionCascade, Db.addArchivedItem]
  split <;> exact List.mem_append_left _ hm

/-- The exec-victim step leaves every file untouched that is no artifact's
archive destination and not under the victim's (mis-joined) temp path. -/
theorem processExecutionVictim_fileSize_frame (pid rid : String) (adp : FPath) (v : Nat)
    (acc : St × List ArchInfo) (e : CheckpointExecution) (p : FPath)
    (hAP : ∀ a : Artifact, p ≠ archivedArtifactPath adp v a)
    (htp : e.temp_workspace_path.isEmpty = false →
      pathUnder ((⟨pid⟩ : FileManager).base_path ++ e.temp_workspace_path) p = false) :
    (processExecutionVictim pid rid adp v acc e).1.fs.fileSize p = acc.1.fs.fileSize p := by
  unfold processExecutionVictim
  dsimp only
  split
  · rename_i hcond
    have hie : e.temp_workspace_path.isEmpty = false := by
      have hcond2 := hcond
      simp only [Bool.and_eq_true] at hcond2
      have h1 := hcond2.1
      cases hy : e.temp_workspace_path.isEmpty with
      | false => rfl
      | true => rw [hy] at h1; exact absurd h1 (by decide)
    rw [fileSize_rmtree _ _ _ (htp hie)]
    exact archive_fold_fs_frame rid adp v e.execution_id _ acc p (fun b _ => hAP b)
  · exact archive_fold_fs_frame rid adp v e.execution_id _ acc p (fun b _ => hAP b)

/-- Artifact tables of other executions pass through the exec-victim fold. -/
theorem exec_fold_artifactsOf (pid rid : String) (adp : FPath) (v : Nat) :
    ∀ (es : List CheckpointExecution) (acc : St × List ArchInfo) (j : String),
      (∀ x ∈ es, j ≠ x.execution_id) →
      (es.foldl (processExecutionVictim pid rid adp v) acc).1.db.artifactsOf j =
        acc.1.db.artifactsOf j := by
  intro es
  induction es with
  | nil => intro acc j _; rfl
  | cons x t ih =>
    intro acc j hj
    rw [List.foldl_cons,
      ih _ j (fun y hy => hj y (List.mem_cons_of_mem x hy)),
      processExecutionVictim_artifactsOf pid rid adp v acc x j
        (hj x (List.mem_cons_self x t))]

/-- `archived_items` membership is monotone along the exec-victim fold. -/
theorem exec_fold_archived_mono (pid rid : String) (adp : FPath) (v : Nat) :
    ∀ (es : List CheckpointExecution) (acc : St × List ArchInfo) (it : ArchivedItem),
      it ∈ acc.1.db.archived_items →
      it ∈ (es.foldl (processExecutionVictim pid rid adp v) acc).1.db.archived_items := by
  intro es
  induction es with
  | nil => intro acc it h; exact h
  | cons x t ih =>
    intro acc it h
    rw [List.foldl_cons]
    exact ih _ it (processExecutionVictim_archived_mono pid rid adp v acc x it h)

/-- The rollback-event table passes through the exec-victim fold. -/
theorem exec_fold_rollback_events (pid rid : String) (adp : FPath) (v : Nat) :
    ∀ (es : List CheckpointExecution) (acc : St × List ArchInfo),
      (es.foldl (processExecutionVictim pid rid adp v) acc).1.db.rollback_events =
        acc.1.db.rollback_events := by
  intro es
  induction es with
  | nil => intro acc; rfl
  | cons x t ih =>
    intro acc
    rw [List.foldl_cons, ih, processExecutionVictim_rollback_events]

/-- The exec-victim fold leaves every file untouched that is no archive
destination and under no victim's (mis-joined) temp path. -/
theorem exec_fold_fileSize_frame (pid rid : String) (adp : FPath) (v : Nat) :
    ∀ (es : List CheckpointExecution) (acc : St × List ArchInfo) (p : FPath),
      (∀ a : Artifact, p ≠ archivedArtifactPath adp v a) →
      (∀ e ∈ es, e.temp_workspace_path.isEmpty = false →
        pathUnder ((⟨pid⟩ : FileManager).base_path ++ e.temp_workspace_path) p = false) →
      (es.foldl (processExecutionVictim pid rid adp v) acc).1.fs.fileSize p =
        acc.1.fs.fileSize p := by
  intro es
  induction es with
  | nil => intro acc p _ _; rfl
  | cons x t ih =>
    intro acc p hAP htp
    rw [List.foldl_cons,
      ih _ p hAP (fun y hy => htp y (List.mem_cons_of_mem x hy)),
      processExecutionVictim_fileSize_frame pid rid adp v acc x p hAP
        (htp x (List.mem_cons_self x t))]

/-- The per-victim archive/delete records: for every execution of the list,
the placeholder row and one row per artifact end up in `archived_items`. -/
theorem exec_fold_archives (pid rid : String) (adp : FPath) (v : Nat) :
    ∀ (es : List CheckpointExecution) (acc : St × List ArchInfo),
      ((es.map (fun e => e.execution_id)).Nodup) →
      ∀ e ∈ es,
        executionArchivedItem rid e ∈
          (es.foldl (processExecutionVictim pid rid adp v) acc).1.db.archived_items ∧
        ∀ a ∈ acc.1.db.artifactsOf e.execution_id,
          ∃ ap, artifactArchivedItemAt rid a ap ∈
            (es.foldl (processExecutionVictim pid rid adp v) acc).1.db.archived_items := by
  intro es
  induction es with
  | nil => intro acc _ e he; exact absurd he (List.not_mem_nil e)
  | cons hd t ih =>
    intro acc hnd e he
    have hnd2 : ((fun x : CheckpointExecution => x.execution_id) hd ::
        t.map (fun x => x.execution_id)).Nodup := by
      rw [← List.map_cons]
      exact hnd
    rw [List.foldl_cons]
    rcases List.mem_cons.mp he with rfl | het
    · constructor
      · exact exec_fold_archived_mono pid rid adp v t _ _
          (processExecutionVictim_execItem_mem pid rid adp v acc e)
      · intro a ha
        rcases processExecutionVictim_artifact_items pid rid adp v acc e a ha with ⟨ap, hm⟩
        exact ⟨ap, exec_fold_archived_mono pid rid adp v t _ _ hm⟩
    · have hne : e.execution_id ≠ hd.execution_id := by
        intro heq
        apply (List.nodup_cons.mp hnd2).1
        show hd.execution_id ∈ List.map (fun x : CheckpointExecution => x.execution_id) t
        rw [← heq]
        exact List.mem_map_of_mem (fun x : CheckpointExecution => x.execution_id) het
      have hstab := processExecutionVictim_artifactsOf pid rid adp v acc hd
        e.execution_id hne
      have hih := ih (processExecutionVictim pid rid adp v acc hd)
        (List.nodup_cons.mp hnd2).2 e het
      exact ⟨hih.1, fun a ha => hih.2 a (by rw [hstab]; exact ha)⟩

/-! C4 support, part 2: the effect of one `processRunVictim` step and of the
victim-run fold. -/

/-- Artifact reads ignore an appended archived item. -/
theorem addArchivedItem_artifactsOf (db : Db) (it : ArchivedItem) (j : String) :
    (db.addArchivedItem it).artifactsOf j = db.artifactsOf j := rfl

/-- The run cascade keeps the artifacts of an execution no row of the dead
run carries. -/
theorem deleteRunCascade_artifactsOf (db : Db) (rid2 j : String)
    (h : (db.executions.any (fun x => x.run_id == rid2 && x.execution_id == j)) = false) :
    (db.deleteRunCascade rid2).artifactsOf j = db.artifactsOf j := by
  unfold Db.deleteRunCascade Db.artifactsOf
  dsimp only
  rw [List.filter_filter]
  refine List.filter_congr ?_
  intro a ha
  cases hq : (a.execution_id == j) with
  | false => simp [hq]
  | true =>
    have haj : a.execution_id = j := eq_of_beq hq
    simp [hq, haj, h]

/-- Deleting a victim run deletes exactly its run row. -/
theorem processRunVictim_runs (pid rid : String) (adp0 : FPath)
    (acc : St × List ArchInfo) (r : PipelineRun) :
    (processRunVictim pid rid adp0 acc r).1.db.runs =
      acc.1.db.runs.filter (fun x => x.run_id != r.run_id) := by
  unfold processRunVictim
  dsimp only [Db.deleteRunCascade, Db.addArchivedItem]
  split <;> rw [victims_fold_runs]

/-- The executions surviving one victim run are among the previous ones. -/
theorem processRunVictim_executions_sublist (pid rid : String) (adp0 : FPath)
    (acc : St × List ArchInfo) (r : PipelineRun) :
    ((processRunVictim pid rid adp0 acc r).1.db.executions).Sublist
      acc.1.db.executions := by
  unfold processRunVictim
  dsimp only [Db.deleteRunCascade, Db.addArchivedItem]
  split <;>
  · rw [victims_fold_executions]
    exact (List.filter_sublist _).trans (List.filter_sublist _)

/-- With unique execution ids, one victim run deletes exactly its own
executions. -/
theorem processRunVictim_executions_eq (pid rid : String) (adp0 : FPath)
    (acc : St × List ArchInfo) (r : PipelineRun)
    (hnd : ((acc.1.db.executions.map (fun e => e.execution_id))).Nodup) :
    (processRunVictim pid rid adp0 acc r).1.db.executions =
      acc.1.db.executions.filter (fun x => x.run_id != r.run_id) := by
  unfold processRunVictim
  dsimp only [Db.deleteRunCascade, Db.addArchivedItem]
  split <;>
  · rw [victims_fold_executions, List.filter_filter]
    refine List.filter_congr ?_
    intro x hx
    cases hr2 : (x.run_id == r.run_id) with
    | true => simp [bne, hr2]
    | false =>
      have hany : ((acc.1.db.executions.filter
          (fun e => e.run_id == r.run_id)).any
          (fun e => x.execution_id == e.execution_id)) = false := by
        cases ha2 : ((acc.1.db.executions.filter
            (fun e => e.run_id == r.run_id)).any
            (fun e => x.execution_id == e.execution_id)) with
        | false => rfl
        | true =>
          exfalso
          rcases List.any_eq_true.mp ha2 with ⟨e2, he2, hbeq⟩
          have he2m := (List.mem_filter.mp he2).1
          have he2r := (List.mem_filter.mp he2).2
          have hxe : x = e2 := List.inj_on_of_nodup_map hnd hx he2m (eq_of_beq hbeq)
          rw [← hxe] at he2r
          exact absurd (hr2.symm.trans he2r) (by decide)
      simp [bne, hr2, hany]

/-- Rollback events surviving one victim run were already present. -/
theorem processRunVictim_rollback_events_sub (pid rid : String) (adp0 : FPath)
    (acc : St × List ArchInfo) (r : PipelineRun) (ev : RollbackEvent)
    (h : ev ∈ (processRunVictim pid rid adp0 acc r).1.db.rollback_events) :
    ev ∈ acc.1.db.rollback_events := by
  unfold processRunVictim at h
  dsimp only [Db.deleteRunCascade, Db.addArchivedItem] at h
  split at h <;>
  · rw [exec_fold_rollback_events] at h
    exact (List.mem_filter.mp h).1

/-- An archived item with a fresh rollback id survives one victim run. -/
theorem processRunVictim_archived_mem (pid rid : String) (adp0 : FPath)
    (acc : St × List ArchInfo) (r : PipelineRun) (it : ArchivedItem)
    (hev : ∀ ev ∈ acc.1.db.rollback_events, ev.rollback_id ≠ it.rollback_id)
    (h : it ∈ acc.1.db.archived_items) :
    it ∈ (processRunVictim pid rid adp0 acc r).1.db.archived_items := by
  have hany : (acc.1.db.rollback_events.any
      (fun ev2 => ev2.source_run_id == r.run_id &&
        ev2.rollback_id == it.rollback_id)) = false := by
    cases hb : (acc.1.db.rollback_events.any
        (fun ev2 => ev2.source_run_id == r.run_id &&
          ev2.rollback_id == it.rollback_id)) with
    | false => rfl
    | true =>
      exfalso
      rcases List.any_eq_true.mp hb with ⟨ev2, hm, hp⟩
      simp only [Bool.and_eq_true] at hp
      exact hev ev2 hm (eq_of_beq hp.2)
  unfold processRunVictim
  dsimp only [Db.deleteRunCascade, Db.addArchivedItem]
  split
  · refine List.mem_filter.mpr ⟨List.mem_append_left _
      (exec_fold_archived_mono pid rid (adp0 ++ ["archived_data"]) r.run_version _ _ it h),
      ?_⟩
    rw [exec_fold_rollback_events, hany]
    rfl
  · refine List.mem_filter.mpr ⟨exec_fold_archived_mono pid rid (adp0 ++ ["archived_data"])
      r.run_version _ _ it h, ?_⟩
    rw [exec_fold_rollback_events, hany]
    rfl

/-- Deleting a victim run keeps the artifacts of executions of other runs. -/
theorem processRunVictim_artifactsOf (pid rid : String) (adp0 : FPath)
    (acc : St × List ArchInfo) (r : PipelineRun) (e : CheckpointExecution)
    (hnd : (acc.1.db.executions.map (fun x => x.execution_id)).Nodup)
    (hee : e ∈ acc.1.db.executions) (her : e.run_id ≠ r.run_id) :
    (processRunVictim pid rid adp0 acc r).1.db.artifactsOf e.execution_id =
      acc.1.db.artifactsOf e.execution_id := by
  have hj : ∀ x ∈ acc.1.db.executions.filter (fun x => x.run_id == r.run_id),
      e.execution_id ≠ x.execution_id := by
    intro x hx heq
    have hxm := (List.mem_filter.mp hx).1
    have hxr := (List.mem_filter.mp hx).2
    have hex : e = x := List.inj_on_of_nodup_map hnd hee hxm heq
    rw [← hex] at hxr
    exact her (eq_of_beq hxr)
  have hsub : ∀ y ∈ ((acc.1.db.executions.filter (fun x => x.run_id == r.run_id)).foldl
      (processExecutionVictim pid rid (adp0 ++ ["archived_data"]) r.run_version)
      (acc.1, acc.2)).1.db.executions, y ∈ acc.1.db.executions := by
    intro y hy
    rw [victims_fold_executions] at hy
    exact (List.mem_filter.mp hy).1
  have hdeadF : (((acc.1.db.executions.filter (fun x => x.run_id == r.run_id)).foldl
      (processExecutionVictim pid rid (adp0 ++ ["archived_data"]) r.run_version)
      (acc.1, acc.2)).1.db.executions.any
      (fun x => x.run_id == r.run_id && x.execution_id == e.execution_id)) = false := by
    cases hb : (((acc.1.db.executions.filter (fun x => x.run_id == r.run_id)).foldl
        (processExecutionVictim pid rid (adp0 ++ ["archived_data"]) r.run_version)
        (acc.1, acc.2)).1.db.executions.any
        (fun x => x.run_id == r.run_id && x.execution_id == e.execution_id)) with
    | false => rfl
    | true =>
      exfalso
      rcases List.any_eq_true.mp hb with ⟨y, hym, hyp⟩
      simp only [Bool.and_eq_true] at hyp
      have hy2 := hsub y hym
      have hye : y = e :=
        List.inj_on_of_nodup_map hnd hy2 hee (eq_of_beq hyp.2)
      rw [hye] at hyp
      exact her (eq_of_beq hyp.1)
  have key : ∀ (dbX : Db),
      dbX.executions = ((acc.1.db.executions.filter (fun x => x.run_id == r.run_id)).foldl
        (processExecutionVictim pid rid (adp0 ++ ["archived_data"]) r.run_version)
        (acc.1, acc.2)).1.db.executions →
      dbX.artifactsOf e.execution_id =
        ((acc.1.db.executions.filter (fun x => x.run_id == r.run_id)).foldl
          (processExecutionVictim pid rid (adp0 ++ ["archived_data"]) r.run_version)
          (acc.1, acc.2)).1.db.artifactsOf e.execution_id →
      (dbX.deleteRunCascade r.run_id).artifactsOf e.execution_id =
        acc.1.db.artifactsOf e.execution_id := by
    intro dbX h1 h2
    rw [deleteRunCascade_artifactsOf dbX r.run_id e.execution_id (by rw [h1]; exact hdeadF),
      h2, exec_fold_artifactsOf pid rid (adp0 ++ ["archived_data"]) r.run_version _ _ _ hj]
  unfold processRunVictim
  dsimp only
  split
  · exact key _ rfl rfl
  · exact key _ rfl rfl

/-- One victim run leaves every file untouched that lies outside the archive
and outside all (mis-joined) temp paths. -/
theorem processRunVictim_fileSize_frame (pid rid : String) (adp0 : FPath)
    (acc : St × List ArchInfo) (r : PipelineRun) (p : FPath)
    (hAP : ∀ (a : Artifact) (v : Nat),
      p ≠ archivedArtifactPath (adp0 ++ ["archived_data"]) v a)
    (hct : ∀ v : Nat, pathUnder (adp0 ++ ["archived_data", "v" ++ toString v]) p = false)
    (htp : ∀ e ∈ acc.1.db.executions, e.temp_workspace_path.isEmpty = false →
      pathUnder ((⟨pid⟩ : FileManager).base_path ++ e.temp_workspace_path) p = false) :
    (processRunVictim pid rid adp0 acc r).1.fs.fileSize p = acc.1.fs.fileSize p := by
  unfold processRunVictim
  dsimp only
  split
  · rw [copytree_fileSize_frame _ _ _ _ (hct r.run_version)]
    exact exec_fold_fileSize_frame pid rid (adp0 ++ ["archived_data"]) r.run_version _
      (acc.1, acc.2) p (fun a => hAP a r.run_version)
      (fun e he hie => htp e (List.mem_filter.mp he).1 hie)
  · exact exec_fold_fileSize_frame pid rid (adp0 ++ ["archived_data"]) r.run_version _
      (acc.1, acc.2) p (fun a => hAP a r.run_version)
      (fun e he hie => htp e (List.mem_filter.mp he).1 hie)

/-- One victim run appends its events and ends with (optionally) the
directory-copy event followed directly by the run-row deletion. -/
theorem processRunVictim_trace (pid rid : String) (adp0 : FPath)
    (acc : St × List ArchInfo) (r : PipelineRun) :
    ∃ pre cp, (processRunVictim pid rid adp0 acc r).1.trace =
      acc.1.trace ++ (pre ++ (cp ++ [Ev.deleteRunRow r.run_id])) ∧
      (cp = [] ∨ ∃ src dst, cp = [Ev.copyRunDir r.run_id src dst]) := by
  unfold processRunVictim
  dsimp only
  rcases victims_fold_trace_mono pid rid (adp0 ++ ["archived_data"]) r.run_version
    (acc.1.db.executions.filter (fun x => x.run_id == r.run_id))
    (acc.1, acc.2) with ⟨tail, htail⟩
  split
  · refine ⟨tail, [Ev.copyRunDir r.run_id
      ((⟨pid⟩ : FileManager).get_run_directory r.run_version)
      (adp0 ++ ["archived_data", "v" ++ toString r.run_version])], ?_, Or.inr ⟨_, _, rfl⟩⟩
    rw [htail]
    simp
  · refine ⟨tail, [], ?_, Or.inl rfl⟩
    rw [htail]
    simp

/-- One victim run only appends to the trace. -/
theorem processRunVictim_trace_mono (pid rid : String) (adp0 : FPath)
    (acc : St × List ArchInfo) (r : PipelineRun) :
    ∃ tail, (processRunVictim pid rid adp0 acc r).1.trace = acc.1.trace ++ tail := by
  rcases processRunVictim_trace pid rid adp0 acc r with ⟨pre, cp, h, _⟩
  exact ⟨pre ++ (cp ++ [Ev.deleteRunRow r.run_id]), h⟩

/-- The victim-run fold deletes exactly the victims' run rows. -/
theorem runs_fold_runs (pid rid : String) (adp0 : FPath) :
    ∀ (vs : List PipelineRun) (acc : St × List ArchInfo),
      (vs.foldl (processRunVictim pid rid adp0) acc).1.db.runs =
        acc.1.db.runs.filter
          (fun x => !(vs.any (fun r => x.run_id == r.run_id))) := by
  intro vs
  induction vs with
  | nil => intro acc; simp
  | cons r t ih =>
    intro acc
    rw [List.foldl_cons, ih, processRunVictim_runs, List.filter_filter]
    refine List.filter_congr ?_
    intro x hx
    simp [List.any_cons, Bool.not_or, Bool.and_comm, bne]

/-- The victim-run fold only appends to the trace. -/
theorem runs_fold_trace_mono (pid rid : String) (adp0 : FPath) :
    ∀ (vs : List PipelineRun) (acc : St × List ArchInfo),
      ∃ tail, (vs.foldl (processRunVictim pid rid adp0) acc).1.trace =
        acc.1.trace ++ tail := by
  intro vs
  induction vs with
  | nil => intro acc; exact ⟨[], by simp⟩
  | cons r t ih =>
    intro acc
    rw [List.foldl_cons]
    rcases processRunVictim_trace_mono pid rid adp0 acc r with ⟨t1, h1⟩
    rcases ih (processRunVictim pid rid adp0 acc r) with ⟨t2, h2⟩
    refine ⟨t1 ++ t2, ?_⟩
    rw [h2, h1]
    simp

/-- Copy-before-delete through the victim-run fold: each victim's run-row
deletion event is directly preceded by its (possible) directory-copy
event. -/
theorem runs_fold_trace_order (pid rid : String) (adp0 : FPath) :
    ∀ (vs : List PipelineRun) (acc : St × List ArchInfo),
      ∀ r ∈ vs, ∃ pre cp post,
        (vs.foldl (processRunVictim pid rid adp0) acc).1.trace =
          pre ++ (cp ++ Ev.deleteRunRow r.run_id :: post) ∧
        (cp = [] ∨ ∃ src dst, cp = [Ev.copyRunDir r.run_id src dst]) := by
  intro vs
  induction vs with
  | nil => intro acc r hr; exact absurd hr (List.not_mem_nil r)
  | cons hd t ih =>
    intro acc r hr
    rw [List.foldl_cons]
    rcases List.mem_cons.mp hr with rfl | hrt
    · rcases processRunVictim_trace pid rid adp0 acc r with ⟨pre0, cp, hsh, hcp⟩
      rcases runs_fold_trace_mono pid rid adp0 t
        (processRunVictim pid rid adp0 acc r) with ⟨tail, htail⟩
      refine ⟨acc.1.trace ++ pre0, cp, tail, ?_, hcp⟩
      rw [htail, hsh]
      simp
    · exact ih (processRunVictim pid rid adp0 acc hd) r hrt

/-- Archived items with a fresh rollback id survive the victim-run fold. -/
theorem runs_fold_archived_mono (pid rid : String) (adp0 : FPath) :
    ∀ (vs : List PipelineRun) (acc : St × List ArchInfo) (it : ArchivedItem),
      (∀ ev ∈ acc.1.db.rollback_events, ev.rollback_id ≠ it.rollback_id) →
      it ∈ acc.1.db.archived_items →
      it ∈ (vs.foldl (processRunVictim pid rid adp0) acc).1.db.archived_items := by
  intro vs
  induction vs with
  | nil => intro acc it _ h; exact h
  | cons hd t ih =>
    intro acc it hev h
    rw [List.foldl_cons]
    exact ih _ it
      (fun ev hm => hev ev (processRunVictim_rollback_events_sub pid rid adp0 acc hd ev hm))
      (processRunVictim_archived_mem pid rid adp0 acc hd it hev h)

/-- The victim-run fold leaves every file untouched that lies outside the
archive and outside all (mis-joined) temp paths. -/
theorem runs_fold_fileSize_frame (pid rid : String) (adp0 : FPath) :
    ∀ (vs : List PipelineRun) (acc : St × List ArchInfo) (p : FPath),
      (∀ (a : Artifact) (v : Nat),
        p ≠ archivedArtifactPath (adp0 ++ ["archived_data"]) v a) →
      (∀ v : Nat, pathUnder (adp0 ++ ["archived_data", "v" ++ toString v]) p = false) →
      (∀ e ∈ acc.1.db.executions, e.temp_workspace_path.isEmpty = false →
        pathUnder ((⟨pid⟩ : FileManager).base_path ++ e.temp_workspace_path) p = false) →
      (vs.foldl (processRunVictim pid rid adp0) acc).1.fs.fileSize p =
        acc.1.fs.fileSize p := by
  intro vs
  induction vs with
  | nil => intro acc p _ _ _; rfl
  | cons hd t ih =>
    intro acc p hAP hct htp
    rw [List.foldl_cons,
      ih _ p hAP hct (fun e he hie => htp e
        ((processRunVictim_executions_sublist pid rid adp0 acc hd).mem he) hie),
      processRunVictim_fileSize_frame pid rid adp0 acc hd p hAP hct htp]

/-- Archive-before-delete through the victim-run fold: every execution of
every victim run gets its placeholder `ArchivedItem`, and every artifact of
such an execution its artifact `ArchivedItem`. -/
theorem runs_fold_archives (pid rid : String) (adp0 : FPath) :
    ∀ (vs : List PipelineRun) (acc : St × List ArchInfo),
      ((vs.map (fun r => r.run_id)).Nodup) →
      ((acc.1.db.executions.map (fun e => e.execution_id)).Nodup) →
      (∀ ev ∈ acc.1.db.rollback_events, ev.rollback_id ≠ rid) →
      ∀ r ∈ vs, ∀ e ∈ acc.1.db.executions, e.run_id = r.run_id →
        executionArchivedItem rid e ∈
          (vs.foldl (processRunVictim pid rid adp0) acc).1.db.archived_items ∧
        ∀ a ∈ acc.1.db.artifactsOf e.execution_id,
          ∃ ap, artifactArchivedItemAt rid a ap ∈
            (vs.foldl (processRunVictim pid rid adp0) acc).1.db.archived_items := by
  intro vs
  induction vs with
  | nil => intro acc _ _ _ r hr; exact absurd hr (List.not_mem_nil r)
  | cons hd t ih =>
    intro acc hrnd hend hev r hr e he her
    have hrnd2 : ((fun x : PipelineRun => x.run_id) hd ::
        t.map (fun x => x.run_id)).Nodup := by
      rw [← List.map_cons]
      exact hrnd
    have hend2 : (((processRunVictim pid rid adp0 acc hd).1.db.executions.map
        (fun x => x.execution_id))).Nodup :=
      hend.sublist ((processRunVictim_executions_sublist pid rid adp0 acc hd).map _)
    have hev2 : ∀ ev ∈ (processRunVictim pid rid adp0 acc hd).1.db.rollback_events,
        ev.rollback_id ≠ rid :=
      fun ev hm => hev ev (processRunVictim_rollback_events_sub pid rid adp0 acc hd ev hm)
    rw [List.foldl_cons]
    rcases List.mem_cons.mp hr with rfl | hrt
    · have hcap : e ∈ acc.1.db.executions.filter (fun x => x.run_id == r.run_id) :=
        List.mem_filter.mpr ⟨he, by simp [her]⟩
      have hnd3 : (((acc.1.db.executions.filter (fun x => x.run_id == r.run_id)).map
          (fun x => x.execution_id))).Nodup :=
        hend.sublist ((List.filter_sublist _).map _)
      have harch := exec_fold_archives pid rid (adp0 ++ ["archived_data"]) r.run_version
        (acc.1.db.executions.filter (fun x => x.run_id == r.run_id))
        (acc.1, acc.2) hnd3 e hcap
      have hstep_exec : executionArchivedItem rid e ∈
          (processRunVictim pid rid adp0 acc r).1.db.archived_items := by
        unfold processRunVictim
        dsimp only [Db.deleteRunCascade, Db.addArchivedItem]
        have hany : ∀ (evs : List RollbackEvent),
            (∀ ev ∈ evs, ev.rollback_id ≠ rid) →
            (evs.any (fun ev2 => ev2.source_run_id == r.run_id &&
              ev2.rollback_id == rid)) = false := by
          intro evs hf
          cases hb : (evs.any (fun ev2 => ev2.source_run_id == r.run_id &&
              ev2.rollback_id == rid)) with
          | false => rfl
          | true =>
            exfalso
            rcases List.any_eq_true.mp hb with ⟨ev2, hm, hp⟩
            simp only [Bool.and_eq_true] at hp
            exact hf ev2 hm (eq_of_beq hp.2)
        have hfin : (!(acc.1.db.rollback_events.any fun ev =>
            ev.source_run_id == r.run_id && ev.rollback_id == rid)) = true := by
          rw [hany acc.1.db.rollback_events hev]
          rfl
        split
        · refine List.mem_filter.mpr ⟨List.mem_append_left _ harch.1, ?_⟩
          rw [exec_fold_rollback_events]
          exact hfin
        · refine List.mem_filter.mpr ⟨harch.1, ?_⟩
          rw [exec_fold_rollback_events]
          exact hfin
      refine ⟨runs_fold_archived_mono pid rid adp0 t _ _ hev2 hstep_exec, ?_⟩
      intro a ha
      rcases harch.2 a ha with ⟨ap, hm⟩
      have hstep_art : artifactArchivedItemAt rid a ap ∈
          (processRunVictim pid rid adp0 acc r).1.db.archived_items := by
        unfold processRunVictim
        dsimp only [Db.deleteRunCascade, Db.addArchivedItem]
        have hany : ∀ (evs : List RollbackEvent),
            (∀ ev ∈ evs, ev.rollback_id ≠ rid) →
            (evs.any (fun ev2 => ev2.source_run_id == r.run_id &&
              ev2.rollback_id == rid)) = false := by
          intro evs hf
          cases hb : (evs.any (fun ev2 => ev2.source_run_id == r.run_id &&
              ev2.rollback_id == rid)) with
          | false => rfl
          | true =>
            exfalso
            rcases List.any_eq_true.mp hb with ⟨ev2, hm2, hp⟩
            simp only [Bool.and_eq_true] at hp
            exact hf ev2 hm2 (eq_of_beq hp.2)
        have hfin : (!(acc.1.db.rollback_events.any fun ev =>
            ev.source_run_id == r.run_id && ev.rollback_id == rid)) = true := by
          rw [hany acc.1.db.rollback_events hev]
          rfl
        split
        · refine List.mem_filter.mpr ⟨List.mem_append_left _ hm, ?_⟩
          rw [exec_fold_rollback_events]
          exact hfin
        · refine List.mem_filter.mpr ⟨hm, ?_⟩
          rw [exec_fold_rollback_events]
          exact hfin
      exact ⟨ap, runs_fold_archived_mono pid rid adp0 t _ _ hev2 hstep_art⟩
    · have hhdne : r.run_id ≠ hd.run_id := by
        intro heq
        apply (List.nodup_cons.mp hrnd2).1
        show hd.run_id ∈ List.map (fun x : PipelineRun => x.run_id) t
        rw [← heq]
        exact List.mem_map_of_mem (fun x : PipelineRun => x.run_id) hrt
      have herne : e.run_id ≠ hd.run_id := by
        rw [her]
        exact hhdne
      have he2 : e ∈ (processRunVictim pid rid adp0 acc hd).1.db.executions := by
        rw [processRunVictim_executions_eq pid rid adp0 acc hd hend]
        exact List.mem_filter.mpr ⟨he, by simp [bne, herne]⟩
      have hstab := processRunVictim_artifactsOf pid rid adp0 acc hd e hend he herne
      have hih := ih (processRunVictim pid rid adp0 acc hd) (List.nodup_cons.mp hrnd2).2
        hend2 hev2 r hrt e he2 her
      exact ⟨hih.1, fun a ha => hih.2 a (by rw [hstab]; exact ha)⟩

/-- A prefix decomposes the longer list. -/
theorem isPrefixOf_exists (l : FPath) :
    ∀ (p : FPath), l.isPrefixOf p = true → ∃ q, l ++ q = p := by
  induction l with
  | nil => intro p _; exact ⟨p, rfl⟩
  | cons a t ih =>
    intro p h
    cases p with
    | nil => exact absurd h (by simp [List.isPrefixOf])
    | cons b q =>
      have h2 : (a == b && t.isPrefixOf q) = true := h
      simp only [Bool.and_eq_true] at h2
      rcases ih q h2.2 with ⟨q2, hq2⟩
      refine ⟨q2, ?_⟩
      rw [List.cons_append, hq2, eq_of_beq h2.1]

/-- A list whose `head?` is known decomposes. -/
theorem head?_decomp (l : FPath) (x : String) (h : l.head? = some x) : ∃ t, l = x :: t := by
  cases l with
  | nil => cases h
  | cons a t =>
    refine ⟨t, ?_⟩
    injection h with h2
    rw [h2]

/-- Mapping an id-preserving row update does not change the ids. -/
theorem map_run_id_map (l : List PipelineRun) (G : PipelineRun → PipelineRun)
    (hG : ∀ r, (G r).run_id = r.run_id) :
    (l.map G).map (fun r => r.run_id) = l.map (fun r => r.run_id) := by
  induction l with
  | nil => rfl
  | cons a t ih => simp [hG, ih]

/-- C4: `run_level_rollback` with a valid current run, target run and target
checkpoint, and at least one newer run: the call succeeds; exactly the
pipeline's runs with version above the target's are deleted (the current
run, being newer, is among them) and reported newest-first; every execution
of every victim run gets its placeholder `ArchivedItem` and every artifact
of such an execution its artifact `ArchivedItem`; each victim's run-row
deletion event is directly preceded by its (possible) run-directory copy
event; nothing under `runs/` is removed or changed — the archive is a copy,
not a move; the target run is reopened if completed, its pointer is reset
to the target position, and the pipeline's latest pointer is repointed at
the target version.  Run ids and execution ids are assumed unique, the
rollback id fresh, and stored temp-workspace paths either empty or rooted
at the `pipelines` tree. -/
theorem c4_run_level_rollback (st : St) (pipeline_id current_run_id target_run_id : String)
    (target : Nat) (reason : Option String) (rollback_id : String) (now : Nat)
    (current_run target_run : PipelineRun) (tc : CheckpointDefn)
    (hc : st.db.findRun current_run_id = some current_run)
    (ht : st.db.findRun target_run_id = some target_run)
    (hpidc : current_run.pipeline_id = pipeline_id)
    (hpidt : target_run.pipeline_id = pipeline_id)
    (hck : getCheckpointAtPosition st.db pipeline_id target = some tc)
    (hrnodup : (st.db.runs.map (fun r => r.run_id)).Nodup)
    (henodup : (st.db.executions.map (fun e => e.execution_id)).Nodup)
    (hfreshev : ∀ ev ∈ st.db.rollback_events, ev.rollback_id ≠ rollback_id)
    (htshape : ∀ e ∈ st.db.executions, e.temp_workspace_path = [] ∨
      e.temp_workspace_path.head? = some "pipelines")
    (hne : st.db.runs.filter (fun r => r.pipeline_id == pipeline_id &&
      target_run.run_version < r.run_version) ≠ []) :
    ∃ st2 res,
      run_level_rollback st pipeline_id current_run_id target_run_id target reason
        rollback_id now = .ok (st2, res) ∧
      st2.db.runs.map (fun r => r.run_id) =
        (st.db.runs.filter (fun r => !(r.pipeline_id == pipeline_id &&
          target_run.run_version < r.run_version))).map (fun r => r.run_id) ∧
      res.deleted_runs = (sortByDesc (fun r => r.run_version)
        (st.db.runs.filter (fun r => r.pipeline_id == pipeline_id &&
          target_run.run_version < r.run_version))).map
          (fun r => (r.run_id, r.run_version)) ∧
      (∀ r ∈ st.db.runs.filter (fun r => r.pipeline_id == pipeline_id &&
          target_run.run_version < r.run_version),
        ∀ e ∈ st.db.executions, e.run_id = r.run_id →
          executionArchivedItem rollback_id e ∈ st2.db.archived_items ∧
          ∀ a ∈ st.db.artifactsOf e.execution_id,
            ∃ ap, artifactArchivedItemAt rollback_id a ap ∈ st2.db.archived_items) ∧
      (∀ r ∈ st.db.runs.filter (fun r => r.pipeline_id == pipeline_id &&
          target_run.run_version < r.run_version),
        ∃ pre cp post, st2.trace = pre ++ (cp ++ Ev.deleteRunRow r.run_id :: post) ∧
          (cp = [] ∨ ∃ src dst, cp = [Ev.copyRunDir r.run_id src dst])) ∧
      (∀ p : FPath, pathUnder ((⟨pipeline_id⟩ : FileManager).runs_dir) p = true →
        st2.fs.fileSize p = st.fs.fileSize p) ∧
      (∃ r2, st2.db.findRun target_run_id = some r2 ∧
        r2.status = (if target_run.status = .completed then RunStatus.in_progress
          else target_run.status) ∧
        r2.current_checkpoint_position = some target ∧
        r2.current_checkpoint_id = some tc.checkpoint_id) ∧
      st2.latest.find? (fun pr => pr.1 == pipeline_id) =
        some (pipeline_id, target_run.run_version) ∧
      res.rollback_id = some rollback_id := by
  have hguard : ¬(current_run.pipeline_id ≠ pipeline_id ∨
      target_run.pipeline_id ≠ pipeline_id) := by
    intro h
    rcases h with h | h
    · exact h hpidc
    · exact h hpidt
  have hfru : ∀ r : PipelineRun,
      (rollbackRunUpdate tc.checkpoint_id target r).run_id = r.run_id := by
    intro r
    unfold rollbackRunUpdate
    dsimp only
    split <;> rfl
  have hins : (if target_run.run_version < current_run.run_version &&
      !((sortByDesc (fun r => r.run_version)
        (st.db.runs.filter (fun r => r.pipeline_id == pipeline_id &&
          target_run.run_version < r.run_version))).any
        (fun r => r.run_id == current_run.run_id)) then
      current_run :: sortByDesc (fun r => r.run_version)
        (st.db.runs.filter (fun r => r.pipeline_id == pipeline_id &&
          target_run.run_version < r.run_version))
    else sortByDesc (fun r => r.run_version)
      (st.db.runs.filter (fun r => r.pipeline_id == pipeline_id &&
        target_run.run_version < r.run_version))) =
      sortByDesc (fun r => r.run_version)
        (st.db.runs.filter (fun r => r.pipeline_id == pipeline_id &&
          target_run.run_version < r.run_version)) := by
    by_cases hlt : target_run.run_version < current_run.run_version
    · have hcv : current_run ∈ st.db.runs.filter
          (fun r => r.pipeline_id == pipeline_id &&
            target_run.run_version < r.run_version) :=
        List.mem_filter.mpr ⟨findRun_mem _ _ _ hc, by simp [hpidc, hlt]⟩
      have hsv := (sortByDesc_mem (fun r : PipelineRun => r.run_version) _
        current_run).mpr hcv
      have hany : ((sortByDesc (fun r : PipelineRun => r.run_version)
          (st.db.runs.filter (fun r => r.pipeline_id == pipeline_id &&
            target_run.run_version < r.run_version))).any
          (fun r => r.run_id == current_run.run_id)) = true :=
        List.any_eq_true.mpr ⟨current_run, hsv, by simp⟩
      simp [hany]
    · simp [hlt]
  have hise : (sortByDesc (fun r => r.run_version)
      (st.db.runs.filter (fun r => r.pipeline_id == pipeline_id &&
        target_run.run_version < r.run_version))).isEmpty = false := by
    cases hsrt : sortByDesc (fun r => r.run_version)
        (st.db.runs.filter (fun r => r.pipeline_id == pipeline_id &&
          target_run.run_version < r.run_version)) with
    | nil =>
      exfalso
      apply hne
      have hperm := sortByDesc_perm (fun r : PipelineRun => r.run_version)
        (st.db.runs.filter (fun r => r.pipeline_id == pipeline_id &&
          target_run.run_version < r.run_version))
      rw [hsrt] at hperm
      exact (List.Perm.nil_eq hperm).symm
    | cons x xs => rfl
  have hvsnodup : ((sortByDesc (fun r => r.run_version)
      (st.db.runs.filter (fun r => r.pipeline_id == pipeline_id &&
        target_run.run_version < r.run_version))).map (fun r => r.run_id)).Nodup := by
    have h1 : (st.db.runs.filter (fun r => r.pipeline_id == pipeline_id &&
        target_run.run_version < r.run_version)).Sublist st.db.runs :=
      List.filter_sublist _
    have h2 := hrnodup.sublist (h1.map (fun r => r.run_id))
    exact (((sortByDesc_perm (fun r : PipelineRun => r.run_version)
      (st.db.runs.filter (fun r => r.pipeline_id == pipeline_id &&
        target_run.run_version < r.run_version))).map
      (fun r => r.run_id)).nodup_iff).mpr h2
  simp only [run_level_rollback, hc, ht]
  rw [if_neg hguard]
  simp only [hck, hins, hise, Bool.false_eq_true, if_false]
  refine ⟨_, _, rfl, ?_, rfl, ?_, ?_, ?_, ?_, ?_, rfl⟩
  · -- runs ids
    dsimp only
    have hur : ∀ (db : Db) (i : String) (f : PipelineRun → PipelineRun),
        (Db.updateRun db i f).runs =
          db.runs.map (fun r => if r.run_id == i then f r else r) := fun _ _ _ => rfl
    rw [hur]
    dsimp only
    rw [runs_fold_runs]
    rw [map_run_id_map _ _ (by
      intro r
      by_cases hb : (r.run_id == target_run_id) = true
      · rw [if_pos hb]
        exact hfru r
      · rw [if_neg hb])]
    refine congrArg (List.map (fun r : PipelineRun => r.run_id)) ?_
    refine List.filter_congr ?_
    intro x hx
    have hmain : ((sortByDesc (fun r => r.run_version)
        (st.db.runs.filter (fun r => r.pipeline_id == pipeline_id &&
          target_run.run_version < r.run_version))).any
        (fun r => x.run_id == r.run_id)) =
        (x.pipeline_id == pipeline_id && decide (target_run.run_version < x.run_version)) := by
      cases hvp : (x.pipeline_id == pipeline_id &&
          decide (target_run.run_version < x.run_version)) with
      | true =>
        refine List.any_eq_true.mpr ⟨x, ?_, ?_⟩
        · exact (sortByDesc_mem _ _ x).mpr (List.mem_filter.mpr ⟨hx, hvp⟩)
        · simp
      | false =>
        cases hany : ((sortByDesc (fun r => r.run_version)
            (st.db.runs.filter (fun r => r.pipeline_id == pipeline_id &&
              target_run.run_version < r.run_version))).any
            (fun r => x.run_id == r.run_id)) with
        | false => rfl
        | true =>
          exfalso
          rcases List.any_eq_true.mp hany with ⟨e2, he2, hbeq⟩
          have he2v := (sortByDesc_mem
            (fun r : PipelineRun => r.run_version) _ e2).mp he2
          have he2x := (List.mem_filter.mp he2v).1
          have he2p := (List.mem_filter.mp he2v).2
          have hxe : x = e2 :=
            List.inj_on_of_nodup_map hrnodup hx he2x (eq_of_beq hbeq)
          rw [← hxe] at he2p
          exact absurd (hvp.symm.trans he2p) (by decide)
    rw [hmain]
  · -- archived items
    intro r hrv e he her
    have hrs := (sortByDesc_mem (fun r : PipelineRun => r.run_version) _ r).mpr hrv
    have h := runs_fold_archives pipeline_id rollback_id
      ((⟨pipeline_id⟩ : FileManager).archived_dir ++
        ["rollback_" ++ rollback_id ++ "_" ++ toString now])
      (sortByDesc (fun r => r.run_version)
        (st.db.runs.filter (fun r => r.pipeline_id == pipeline_id &&
          target_run.run_version < r.run_version)))
      (({ st with fs := ((st.fs.mkdirp ((⟨pipeline_id⟩ : FileManager).archived_dir ++
        ["rollback_" ++ rollback_id ++ "_" ++ toString now])).mkdirp
        (((⟨pipeline_id⟩ : FileManager).archived_dir ++
          ["rollback_" ++ rollback_id ++ "_" ++ toString now]) ++
          ["archived_data"])) } : St), [])
      hvsnodup henodup hfreshev r hrs e he her
    exact ⟨h.1, fun a ha => h.2 a ha⟩
  · -- trace ordering
    intro r hrv
    have hrs := (sortByDesc_mem (fun r : PipelineRun => r.run_version) _ r).mpr hrv
    exact runs_fold_trace_order pipeline_id rollback_id
      ((⟨pipeline_id⟩ : FileManager).archived_dir ++
        ["rollback_" ++ rollback_id ++ "_" ++ toString now])
      (sortByDesc (fun r => r.run_version)
        (st.db.runs.filter (fun r => r.pipeline_id == pipeline_id &&
          target_run.run_version < r.run_version)))
      _ r hrs
  · -- runs/ frame
    intro p hp
    rcases isPrefixOf_exists ((⟨pipeline_id⟩ : FileManager).runs_dir) p hp with ⟨q, happ⟩
    have hpshape : p = (⟨pipeline_id⟩ : FileManager).base_path ++ "runs" :: q := by
      rw [← happ]
      simp [FileManager.runs_dir]
    have hAP : ∀ (a : Artifact) (v : Nat),
        p ≠ archivedArtifactPath ((((⟨pipeline_id⟩ : FileManager).archived_dir ++
          ["rollback_" ++ rollback_id ++ "_" ++ toString now])) ++ ["archived_data"]) v a := by
      intro a v heq
      have h2 : archivedArtifactPath ((((⟨pipeline_id⟩ : FileManager).archived_dir ++
          ["rollback_" ++ rollback_id ++ "_" ++ toString now])) ++ ["archived_data"]) v a =
          (⟨pipeline_id⟩ : FileManager).base_path ++ ".archived" ::
            ["rollback_" ++ rollback_id ++ "_" ++ toString now, "archived_data",
              "artifacts", a.artifact_name ++ "_" ++ a.artifact_id ++ "_v" ++ toString v ++
                nameSuffix (pathName a.file_path)] := by
        simp [archivedArtifactPath, FileManager.archived_dir]
      rw [hpshape, h2] at heq
      exact append_head_ne _ _ _ _ _ (by decide) heq
    have hct : ∀ v : Nat, pathUnder ((((⟨pipeline_id⟩ : FileManager).archived_dir ++
        ["rollback_" ++ rollback_id ++ "_" ++ toString now])) ++
        ["archived_data", "v" ++ toString v]) p = false := by
      intro v
      have h2 : (((⟨pipeline_id⟩ : FileManager).archived_dir ++
          ["rollback_" ++ rollback_id ++ "_" ++ toString now])) ++
          ["archived_data", "v" ++ toString v] =
          (⟨pipeline_id⟩ : FileManager).base_path ++ ".archived" ::
            ["rollback_" ++ rollback_id ++ "_" ++ toString now, "archived_data",
              "v" ++ toString v] := by
        simp [FileManager.archived_dir]
      rw [h2, hpshape]
      exact pathUnder_append_diff_head _ _ _ _ _ (by decide)
    have htp : ∀ e ∈ st.db.executions, e.temp_workspace_path.isEmpty = false →
        pathUnder ((⟨pipeline_id⟩ : FileManager).base_path ++ e.temp_workspace_path) p =
          false := by
      intro e he hie
      rcases htshape e he with hnil | hhead
      · rw [hnil] at hie
        exact absurd hie (by decide)
      · rcases head?_decomp _ _ hhead with ⟨rest, hrest⟩
        rw [hrest, hpshape]
        exact pathUnder_append_diff_head _ _ _ _ _ (by decide)
    have hfr := runs_fold_fileSize_frame pipeline_id rollback_id
      ((⟨pipeline_id⟩ : FileManager).archived_dir ++
        ["rollback_" ++ rollback_id ++ "_" ++ toString now])
      (sortByDesc (fun r => r.run_version)
        (st.db.runs.filter (fun r => r.pipeline_id == pipeline_id &&
          target_run.run_version < r.run_version)))
      (({ st with fs := ((st.fs.mkdirp ((⟨pipeline_id⟩ : FileManager).archived_dir ++
        ["rollback_" ++ rollback_id ++ "_" ++ toString now])).mkdirp
        (((⟨pipeline_id⟩ : FileManager).archived_dir ++
          ["rollback_" ++ rollback_id ++ "_" ++ toString now]) ++
          ["archived_data"])) } : St), []) p hAP hct htp
    have h2 : ((st.fs.mkdirp ((⟨pipeline_id⟩ : FileManager).archived_dir ++
        ["rollback_" ++ rollback_id ++ "_" ++ toString now])).mkdirp
        (((⟨pipeline_id⟩ : FileManager).archived_dir ++
          ["rollback_" ++ rollback_id ++ "_" ++ toString now]) ++
          ["archived_data"])).fileSize p = st.fs.fileSize p := by
      rw [fileSize_mkdirp, fileSize_mkdirp]
    exact hfr.trans h2
  · -- target run reopened and repointed
    refine ⟨rollbackRunUpdate tc.checkpoint_id target target_run, ?_, ?_, rfl, rfl⟩
    · dsimp only
      rw [findRun_updateRun _ target_run_id _ hfru]
      have hFtv : (!((sortByDesc (fun r => r.run_version)
          (st.db.runs.filter (fun r => r.pipeline_id == pipeline_id &&
            target_run.run_version < r.run_version))).any
          (fun r => target_run.run_id == r.run_id))) = true := by
        have hany : ((sortByDesc (fun r => r.run_version)
            (st.db.runs.filter (fun r => r.pipeline_id == pipeline_id &&
              target_run.run_version < r.run_version))).any
            (fun r => target_run.run_id == r.run_id)) = false := by
          cases hb : ((sortByDesc (fun r => r.run_version)
              (st.db.runs.filter (fun r => r.pipeline_id == pipeline_id &&
                target_run.run_version < r.run_version))).any
              (fun r => target_run.run_id == r.run_id)) with
          | false => rfl
          | true =>
            exfalso
            rcases List.any_eq_true.mp hb with ⟨e2, he2, hbeq⟩
            have he2v := (sortByDesc_mem
              (fun r : PipelineRun => r.run_version) _ e2).mp he2
            have he2x := (List.mem_filter.mp he2v).1
            have he2p := (List.mem_filter.mp he2v).2
            have hxe : target_run = e2 :=
              List.inj_on_of_nodup_map hrnodup (findRun_mem _ _ _ ht) he2x
                (eq_of_beq hbeq)
            rw [← hxe] at he2p
            simp only [Bool.and_eq_true] at he2p
            exact absurd (of_decide_eq_true he2p.2) (lt_irrefl _)
        rw [hany]
        rfl
      have h1 : ((sortByDesc (fun r => r.run_version)
          (st.db.runs.filter (fun r => r.pipeline_id == pipeline_id &&
            target_run.run_version < r.run_version))).foldl
          (processRunVictim pipeline_id rollback_id
            ((⟨pipeline_id⟩ : FileManager).archived_dir ++
              ["rollback_" ++ rollback_id ++ "_" ++ toString now]))
          (({ st with fs := ((st.fs.mkdirp ((⟨pipeline_id⟩ : FileManager).archived_dir ++
            ["rollback_" ++ rollback_id ++ "_" ++ toString now])).mkdirp
            (((⟨pipeline_id⟩ : FileManager).archived_dir ++
              ["rollback_" ++ rollback_id ++ "_" ++ toString now]) ++
              ["archived_data"])) } : St), [])).1.db.findRun target_run_id =
          some target_run := by
        unfold Db.findRun
        rw [runs_fold_runs]
        exact findRun_filter st.db.runs target_run_id target_run _ ht hFtv
      rw [findRun_setRollbackEvents, h1]
      rfl
    · unfold rollbackRunUpdate
      dsimp only
      by_cases hcst : target_run.status = RunStatus.completed
      · simp [hcst]
      · simp [hcst]
  · -- latest pointer
    exact setLatest_find _ _ _

/-- C4 witness: rolling back pipeline p4 from run version 2 to version 1
deletes exactly run r42, archives its execution, reopens r41 and repoints
latest at version 1. -/
theorem c4_witness :
    ∃ st2 res,
      run_level_rollback c4st "p4" "r42" "r41" 0 none "rb4" 66 = .ok (st2, res) ∧
      st2.db.runs.map (fun r => r.run_id) =
        (c4st.db.runs.filter (fun r => !(r.pipeline_id == "p4" &&
          c4r1.run_version < r.run_version))).map (fun r => r.run_id) ∧
      res.deleted_runs = (sortByDesc (fun r => r.run_version)
        (c4st.db.runs.filter (fun r => r.pipeline_id == "p4" &&
          c4r1.run_version < r.run_version))).map (fun r => (r.run_id, r.run_version)) ∧
      (∀ r ∈ c4st.db.runs.filter (fun r => r.pipeline_id == "p4" &&
          c4r1.run_version < r.run_version),
        ∀ e ∈ c4st.db.executions, e.run_id = r.run_id →
          executionArchivedItem "rb4" e ∈ st2.db.archived_items ∧
          ∀ a ∈ c4st.db.artifactsOf e.execution_id,
            ∃ ap, artifactArchivedItemAt "rb4" a ap ∈ st2.db.archived_items) ∧
      (∀ r ∈ c4st.db.runs.filter (fun r => r.pipeline_id == "p4" &&
          c4r1.run_version < r.run_version),
        ∃ pre cp post, st2.trace = pre ++ (cp ++ Ev.deleteRunRow r.run_id :: post) ∧
          (cp = [] ∨ ∃ src dst, cp = [Ev.copyRunDir r.run_id src dst])) ∧
      (∀ p : FPath, pathUnder ((⟨"p4"⟩ : FileManager).runs_dir) p = true →
        st2.fs.fileSize p = c4st.fs.fileSize p) ∧
      (∃ r2, st2.db.findRun "r41" = some r2 ∧
        r2.status = (if c4r1.status = .completed then RunStatus.in_progress
          else c4r1.status) ∧
        r2.current_checkpoint_position = some 0 ∧
        r2.current_checkpoint_id = some c4kd.checkpoint_id) ∧
      st2.latest.find? (fun pr => pr.1 == "p4") = some ("p4", c4r1.run_version) ∧
      res.rollback_id = some "rb4" :=
  c4_run_level_rollback c4st "p4" "r42" "r41" 0 none "rb4" 66 c4r2 c4r1 c4kd rfl rfl rfl rfl
    rfl (by decide) (by decide) (by decide) (by decide) (by decide)

/-! C9 support: an inductive invariant over the reachable states of the
service layer.  `Inv` is preserved by every `Step`; its `uniquePositions`
conjunct yields the per-(run, position) uniqueness of execution rows. -/

/-- `Inv` only reads the executions and runs tables. -/
theorem Inv_transfer (st st' : St) (hex : st'.db.executions = st.db.executions)
    (hruns : st'.db.runs = st.db.runs) (h : Inv st) : Inv st' := by
  unfold Inv uniquePositions
  rw [hex, hruns]
  exact h

/-- Two execution rows with the same id are the same row when ids are
unique. -/
theorem exec_mem_id_unique (l : List CheckpointExecution)
    (hnd : (l.map (fun e => e.execution_id)).Nodup) (x y : CheckpointExecution)
    (hx : x ∈ l) (hy : y ∈ l) (hid : x.execution_id = y.execution_id) : x = y :=
  List.inj_on_of_nodup_map hnd hx hy hid

/-- An execution-row map that keeps id, run and position and never revives
a non-live row, combined with a run-row map that keeps ids and never
un-starts a run, preserves the invariant. -/
theorem Inv_exec_map (st st' : St) (g : CheckpointExecution → CheckpointExecution)
    (rupd : PipelineRun → PipelineRun)
    (hrupd : ∀ x, (rupd x).run_id = x.run_id ∧
      ((rupd x).status = RunStatus.not_started → x.status = RunStatus.not_started))
    (hruns : st'.db.runs = st.db.runs.map rupd)
    (hexec : st'.db.executions = st.db.executions.map g)
    (hid : ∀ x, (g x).execution_id = x.execution_id)
    (hrunid : ∀ x, (g x).run_id = x.run_id)
    (hpos : ∀ x, (g x).checkpoint_position = x.checkpoint_position)
    (hact : ∀ x ∈ st.db.executions, (g x).status.active = true → x.status.active = true)
    (h : Inv st) : Inv st' := by
  obtain ⟨hnd, hUP, hAT, hNSE⟩ := h
  refine ⟨?_, ?_, ?_, ?_⟩
  · rw [hexec, List.map_map]
    have : st.db.executions.map ((fun e => e.execution_id) ∘ g) =
        st.db.executions.map (fun e => e.execution_id) :=
      List.map_congr_left (fun x _ => hid x)
    rw [this]
    exact hnd
  · unfold uniquePositions
    rw [hexec]
    rw [List.pairwise_map]
    refine List.Pairwise.imp ?_ hUP
    intro a b hab hgid
    rw [hrunid, hrunid] at hgid
    intro hgpos
    rw [hpos, hpos] at hgpos
    exact hab hgid hgpos
  · intro e he hact' e2 he2 hid2
    rw [hexec] at he he2
    rcases List.mem_map.mp he with ⟨x, hx, rfl⟩
    rcases List.mem_map.mp he2 with ⟨y, hy, rfl⟩
    rw [hrunid, hrunid] at hid2
    have hxact := hact x hx hact'
    have hold := hAT x hx hxact y hy hid2
    refine ⟨?_, ?_⟩
    · rw [hpos, hpos]
      exact hold.1
    · intro hy'
      exact congrArg g (hold.2 (hact y hy hy'))
  · intro r hr hns e' he'
    rw [hruns] at hr
    rcases List.mem_map.mp hr with ⟨r0, hr0, rfl⟩
    rw [hexec] at he'
    rcases List.mem_map.mp he' with ⟨x, hx, rfl⟩
    rw [hrunid, (hrupd r0).1]
    exact hNSE r0 hr0 ((hrupd r0).2 hns) x hx

/-- Dropping execution rows and keeping (possibly reopened, never
un-started) run rows preserves the invariant: the common shape of both
rollback operations. -/
theorem Inv_rollback_core (st st' : St)
    (hex : st'.db.executions.Sublist st.db.executions)
    (hrun : ∀ r2 ∈ st'.db.runs, ∃ r ∈ st.db.runs, r2.run_id = r.run_id ∧
      (r2.status = RunStatus.not_started → r.status = RunStatus.not_started))
    (h : Inv st) : Inv st' := by
  obtain ⟨hnd, hUP, hAT, hNSE⟩ := h
  refine ⟨?_, ?_, ?_, ?_⟩
  · exact List.Nodup.sublist (List.Sublist.map _ hex) hnd
  · exact List.Pairwise.sublist hex hUP
  · intro e he hact' e2 he2 hid2
    exact hAT e (hex.subset he) hact' e2 (hex.subset he2) hid2
  · intro r2 hr2 hns e he
    rcases hrun r2 hr2 with ⟨r, hr, hideq, hrefl⟩
    rw [hideq]
    exact hNSE r hr (hrefl hns) e (hex.subset he)

/-- Appending a fresh `not_started` run whose id no execution row carries
preserves the invariant: the shape of `create_run`. -/
theorem inv_addRun (st st' : St) (run : PipelineRun)
    (hex : st'.db.executions = st.db.executions)
    (hruns : st'.db.runs = st.db.runs ++ [run])
    (hfr : ∀ e ∈ st.db.executions, e.run_id ≠ run.run_id)
    (h : Inv st) : Inv st' := by
  obtain ⟨hnd, hUP, hAT, hNSE⟩ := h
  refine ⟨?_, ?_, ?_, ?_⟩
  · rw [hex]; exact hnd
  · unfold uniquePositions
    rw [hex]
    exact hUP
  · intro e he hact' e2 he2 hid2
    rw [hex] at he he2
    exact hAT e he hact' e2 he2 hid2
  · intro r2 hr2 hns e he
    rw [hruns] at hr2
    rw [hex] at he
    rcases List.mem_append.mp hr2 with hr2 | hr2
    · exact hNSE r2 hr2 hns e he
    · rcases List.mem_singleton.mp hr2 with rfl
      exact hfr e he

/-- Appending the position-0 execution of a freshly started run preserves
the invariant: the shape of `start_run`. -/
theorem inv_startRun_core (st st' : St) (run run2 : PipelineRun)
    (newe : CheckpointExecution)
    (hex : st'.db.executions = st.db.executions ++ [newe])
    (hruns : st'.db.runs =
      st.db.runs.map (fun r => if r.run_id == run.run_id then run2 else r))
    (hrun_mem : run ∈ st.db.runs) (hns : run.status = RunStatus.not_started)
    (hnew_run : newe.run_id = run.run_id)
    (hrun2_st : run2.status = RunStatus.in_progress)
    (hfr : ∀ e ∈ st.db.executions, e.execution_id ≠ newe.execution_id)
    (h : Inv st) : Inv st' := by
  obtain ⟨hnd, hUP, hAT, hNSE⟩ := h
  have hnoe : ∀ e ∈ st.db.executions, e.run_id ≠ run.run_id :=
    fun e he => hNSE run hrun_mem hns e he
  refine ⟨?_, ?_, ?_, ?_⟩
  · rw [hex, List.map_append]
    refine List.Nodup.append hnd (List.nodup_singleton _) ?_
    intro a ha hb
    rcases List.mem_map.mp ha with ⟨e, he, rfl⟩
    have hb2 : e.execution_id = newe.execution_id := by
      simpa using hb
    exact hfr e he hb2
  · unfold uniquePositions
    rw [hex]
    refine List.pairwise_append.mpr ⟨hUP, List.pairwise_singleton _ _, ?_⟩
    intro a ha b hb
    rcases List.mem_singleton.mp hb with rfl
    intro hid2
    exact absurd (hnew_run ▸ hid2) (hnoe a ha)
  · intro e he hact' e2 he2 hid2
    rw [hex] at he he2
    rcases List.mem_append.mp he with ha1 | ha1
    · rcases List.mem_append.mp he2 with ha2 | ha2
      · exact hAT e ha1 hact' e2 ha2 hid2
      · have hes : e2 = newe := List.mem_singleton.mp ha2
        rw [hes, hnew_run] at hid2
        exact absurd hid2.symm (hnoe e ha1)
    · have hes : e = newe := List.mem_singleton.mp ha1
      rcases List.mem_append.mp he2 with ha2 | ha2
      · rw [hes, hnew_run] at hid2
        exact absurd hid2 (hnoe e2 ha2)
      · have hes2 : e2 = newe := List.mem_singleton.mp ha2
        rw [hes, hes2]
        exact ⟨le_refl _, fun _ => rfl⟩
  · intro r2 hr2 hns2 e he
    rw [hruns] at hr2
    rw [hex] at he
    rcases List.mem_map.mp hr2 with ⟨r, hr, rfl⟩
    by_cases hb : (r.run_id == run.run_id) = true
    · rw [if_pos hb] at hns2
      rw [hrun2_st] at hns2
      exact absurd hns2 (by decide)
    · rw [if_neg hb] at hns2 ⊢
      rcases List.mem_append.mp he with he | he
      · exact hNSE r hr hns2 e he
      · rcases List.mem_singleton.mp he with rfl
        rw [hnew_run]
        exact fun heq => hb (beq_iff_eq.mpr heq.symm)

/-- A status-only row rewrite at a single id preserves the invariant when
it never revives the row. -/
theorem Inv_statusUpd (st st' : St) (i : String)
    (f : CheckpointExecution → CheckpointExecution)
    (hruns : st'.db.runs = st.db.runs)
    (hexec : st'.db.executions =
      st.db.executions.map (fun e => if e.execution_id == i then f e else e))
    (hid : ∀ x, (f x).execution_id = x.execution_id)
    (hrunid : ∀ x, (f x).run_id = x.run_id)
    (hpos : ∀ x, (f x).checkpoint_position = x.checkpoint_position)
    (hact : ∀ x ∈ st.db.executions, x.execution_id = i → (f x).status.active = true →
      x.status.active = true)
    (h : Inv st) : Inv st' := by
  refine Inv_exec_map st st' (fun e => if e.execution_id == i then f e else e)
    id (fun x => ⟨rfl, fun hx => hx⟩) (by rw [hruns]; exact (List.map_id _).symm)
    hexec ?_ ?_ ?_ ?_ h
  · intro x
    show (if x.execution_id == i then f x else x).execution_id = x.execution_id
    by_cases hbx : (x.execution_id == i) = true
    · rw [if_pos hbx]; exact hid x
    · rw [if_neg hbx]
  · intro x
    show (if x.execution_id == i then f x else x).run_id = x.run_id
    by_cases hbx : (x.execution_id == i) = true
    · rw [if_pos hbx]; exact hrunid x
    · rw [if_neg hbx]
  · intro x
    show (if x.execution_id == i then f x else x).checkpoint_position = x.checkpoint_position
    by_cases hbx : (x.execution_id == i) = true
    · rw [if_pos hbx]; exact hpos x
    · rw [if_neg hbx]
  · intro x hx hgx
    have hgx2 : (if x.execution_id == i then f x else x).status.active = true := hgx
    by_cases hbx : (x.execution_id == i) = true
    · rw [if_pos hbx] at hgx2
      exact hact x hx (eq_of_beq hbx) hgx2
    · rw [if_neg hbx] at hgx2
      exact hgx2

/-- `create_run` preserves the invariant. -/
theorem inv_createRun (st : St) (pipeline_id : String) (ext : Option String)
    (new_run_id : String) (now : Nat)
    (hfr : ∀ e ∈ st.db.executions, e.run_id ≠ new_run_id) (h : Inv st) :
    Inv (outState (create_run st pipeline_id ext new_run_id now)) := by
  cases hp : st.db.findPipeline pipeline_id with
  | none => simp only [create_run, hp]; exact h
  | some pipeline =>
    simp only [create_run, hp]
    by_cases hemp : pipeline.checkpoint_order.isEmpty = true
    · rw [if_pos hemp]; exact h
    · rw [if_neg hemp]
      cases ext with
      | none =>
        exact inv_addRun st _ _ rfl rfl hfr h
      | some eid =>
        cases hfe : st.db.findRun eid with
        | none => simp only [hfe]; exact h
        | some p =>
          simp only [hfe]
          by_cases hpid : p.pipeline_id ≠ pipeline_id
          · rw [if_pos hpid]; exact h
          · rw [if_neg hpid]
            exact inv_addRun st _ _ rfl rfl hfr h

/-- Reduction of a successful `start_run`: the executions table gains the
position-0 execution, the run row is rewritten to `startedRun`. -/
theorem start_run_ok_shape (st : St) (run_id feid : String) (now : Nat)
    (run : PipelineRun) (pipeline : Pipeline) (cd : CheckpointDefn) (fc : String)
    (rest : List String)
    (hrun : st.db.findRun run_id = some run)
    (hns : run.status = RunStatus.not_started)
    (hp : st.db.findPipeline run.pipeline_id = some pipeline)
    (hco : pipeline.checkpoint_order = fc :: rest)
    (hfc : st.db.findCheckpointDef fc = some cd) :
    (outState (start_run st run_id feid now)).db.executions =
      st.db.executions ++ [(create_checkpoint_execution st run cd 0 feid now).2] ∧
    (outState (start_run st run_id feid now)).db.runs =
      st.db.runs.map (fun r => if r.run_id == run.run_id then
        startedRun run (create_checkpoint_execution st run cd 0 feid now).2.checkpoint_id now
        else r) := by
  have hrid : run.run_id = run_id := findRun_id _ _ _ hrun
  simp only [start_run, hrun, hp, hco, hfc]
  rw [if_neg (by rw [hns]; exact fun hc => hc rfl)]
  constructor
  · exact cce_fst_executions st run cd 0 feid now
  · rw [← hrid]
    exact congrArg
      (List.map (fun r => if r.run_id == run.run_id then
        startedRun run (create_checkpoint_execution st run cd 0 feid now).2.checkpoint_id now
        else r))
      (cce_fst_runs st run cd 0 feid now)

/-- `start_run` preserves the invariant. -/
theorem inv_startRun (st : St) (run_id first_execution_id : String) (now : Nat)
    (hfr : ∀ e ∈ st.db.executions, e.execution_id ≠ first_execution_id) (h : Inv st) :
    Inv (outState (start_run st run_id first_execution_id now)) := by
  cases hrun : st.db.findRun run_id with
  | none => simp only [start_run, hrun]; exact h
  | some run =>
    by_cases hst : run.status ≠ RunStatus.not_started
    · simp only [start_run, hrun]
      rw [if_pos hst]
      exact h
    · have hns : run.status = RunStatus.not_started := not_ne_iff.mp hst
      cases hp : st.db.findPipeline run.pipeline_id with
      | none =>
        simp only [start_run, hrun, hp]
        rw [if_neg hst]
        exact h
      | some pipeline =>
        cases hco : pipeline.checkpoint_order with
        | nil =>
          simp only [start_run, hrun, hp, hco]
          rw [if_neg hst]
          exact h
        | cons fc rest =>
          cases hfc : st.db.findCheckpointDef fc with
          | none =>
            simp only [start_run, hrun, hp, hco, hfc]
            rw [if_neg hst]
            exact h
          | some cd =>
            have hshape := start_run_ok_shape st run_id first_execution_id now run pipeline
              cd fc rest hrun hns hp hco hfc
            exact inv_startRun_core st _ run
              (startedRun run
                (create_checkpoint_execution st run cd 0 first_execution_id now).2.checkpoint_id
                now)
              (create_checkpoint_execution st run cd 0 first_execution_id now).2
              hshape.1 hshape.2 (findRun_mem _ _ _ hrun) hns rfl rfl hfr h

/-- `approve_start` preserves the invariant. -/
theorem inv_approveStart (st : St) (execution_id : String) (now : Nat) (h : Inv st) :
    Inv (outState (approve_start st execution_id now)) := by
  cases he : st.db.findExecution execution_id with
  | none => simp only [approve_start, he]; exact h
  | some execution =>
    simp only [approve_start, he]
    by_cases hs : execution.status ≠ ExecStatus.waiting_approval_to_start
    · rw [if_pos hs]; exact h
    · rw [if_neg hs]
      have hsw : execution.status = ExecStatus.waiting_approval_to_start := not_ne_iff.mp hs
      refine Inv_statusUpd st _ execution_id _ rfl rfl ?_ ?_ ?_ ?_ h
      · intro x; rfl
      · intro x; rfl
      · intro x; rfl
      · intro x hx hxi hfx
        have hxe : x = execution := exec_mem_id_unique _ h.1 x execution hx
          (findExecution_mem _ _ _ he) (hxi.trans (findExecution_id _ _ _ he).symm)
        rw [hxe, hsw]
        rfl

/-- `request_revision` preserves the invariant for both outcomes (below the
limit the row returns to `in_progress`; at the limit it is failed and the
error state carries the flushed mutation). -/
theorem inv_requestRevision (st : St) (execution_id feedback : String) (now : Nat)
    (h : Inv st) : Inv (outState (request_revision st execution_id feedback now)) := by
  cases he : st.db.findExecution execution_id with
  | none => simp only [request_revision, he]; exact h
  | some execution =>
    simp only [request_revision, he]
    by_cases hs : execution.status ≠ ExecStatus.waiting_approval_to_complete
    · rw [if_pos hs]; exact h
    · rw [if_neg hs]
      have hsw : execution.status = ExecStatus.waiting_approval_to_complete := not_ne_iff.mp hs
      by_cases hlim : execution.max_revision_iterations ≤ execution.revision_iteration
      · rw [if_pos hlim]
        refine Inv_statusUpd st _ execution_id _ rfl rfl ?_ ?_ ?_ ?_ h
        · intro x; rfl
        · intro x; rfl
        · intro x; rfl
        · intro x hx hxi hfx
          have hfx2 : ExecStatus.active ExecStatus.failed = true := hfx
          exact absurd hfx2 (by decide)
      · rw [if_neg hlim]
        refine Inv_statusUpd st _ execution_id _ rfl rfl ?_ ?_ ?_ ?_ h
        · intro x; rfl
        · intro x; rfl
        · intro x; rfl
        · intro x hx hxi hfx
          have hxe : x = execution := exec_mem_id_unique _ h.1 x execution hx
            (findExecution_mem _ _ _ he) (hxi.trans (findExecution_id _ _ _ he).symm)
          rw [hxe, hsw]
          rfl

/-- `completionUpd` keeps the row id. -/
theorem completionUpd_id (i : String) (now : Nat) (e : CheckpointExecution) :
    (completionUpd i now e).execution_id = e.execution_id := by
  unfold completionUpd
  split <;> rfl

/-- `completionUpd` keeps the run id. -/
theorem completionUpd_run_id (i : String) (now : Nat) (e : CheckpointExecution) :
    (completionUpd i now e).run_id = e.run_id := by
  unfold completionUpd
  split <;> rfl

/-- `completionUpd` keeps the position. -/
theorem completionUpd_pos (i : String) (now : Nat) (e : CheckpointExecution) :
    (completionUpd i now e).checkpoint_position = e.checkpoint_position := by
  unfold completionUpd
  split <;> rfl

/-- `completionUpd` never revives a row. -/
theorem completionUpd_act (i : String) (now : Nat) (e : CheckpointExecution) :
    (completionUpd i now e).status.active = true → e.status.active = true := by
  unfold completionUpd
  split
  · intro hx
    have hx2 : ExecStatus.active ExecStatus.completed = true := hx
    exact absurd hx2 (by decide)
  · exact fun hx => hx

/-- A per-id row update whose id occurs nowhere in the list is the
identity. -/
theorem exec_map_frozen (l : List CheckpointExecution) (i : String)
    (g : CheckpointExecution → CheckpointExecution)
    (h : ∀ x ∈ l, x.execution_id ≠ i) :
    l.map (fun e => if e.execution_id == i then g e else e) = l := by
  induction l with
  | nil => rfl
  | cons a t ih =>
    rw [List.map_cons,
      if_neg (show ¬(a.execution_id == i) = true by
        simp [h a (List.mem_cons_self a t)]),
      ih (fun x hx => h x (List.mem_cons_of_mem a hx))]

/-- A guarded run-row update keeps the id when the update does. -/
theorem ite_runUpd_run_id (c : Bool) (u : PipelineRun → PipelineRun) (x : PipelineRun)
    (hu : (u x).run_id = x.run_id) :
    (if c = true then u x else x).run_id = x.run_id := by
  cases c
  · rfl
  · exact hu

/-- A guarded run-row update never un-starts a run when the update does
not. -/
theorem ite_runUpd_status (c : Bool) (u : PipelineRun → PipelineRun) (x : PipelineRun)
    (hu : (u x).status = RunStatus.not_started → x.status = RunStatus.not_started) :
    (if c = true then u x else x).status = RunStatus.not_started →
      x.status = RunStatus.not_started := by
  cases c
  · exact fun hx => hx
  · exact hu

/-- Reduction of the completion protocol, for the invariant argument: with
the four lookups succeeding, the state left behind rewrites every run row
through an id-preserving, never-un-starting update, and the executions
table is the old table with the completing row completed, possibly
extended by exactly one spawned row at the next position carrying the
fresh id. -/
theorem ccaa_out_shape (st : St) (execution_id : String) (promote : Bool)
    (next_execution_id : String) (now : Nat)
    (execution : CheckpointExecution) (checkpoint_def : CheckpointDefn) (run : PipelineRun)
    (pipeline : Pipeline)
    (he : st.db.findExecution execution_id = some execution)
    (hcd : st.db.findCheckpointDef execution.checkpoint_id = some checkpoint_def)
    (hr : st.db.findRun execution.run_id = some run)
    (hp : st.db.findPipeline run.pipeline_id = some pipeline)
    (hfresh : ∀ e ∈ st.db.executions, e.execution_id ≠ next_execution_id) :
    (∃ rupd : PipelineRun → PipelineRun,
      (∀ x, (rupd x).run_id = x.run_id ∧
        ((rupd x).status = RunStatus.not_started → x.status = RunStatus.not_started)) ∧
      (outState (complete_checkpoint_and_advance st execution_id promote
        next_execution_id now)).db.runs = st.db.runs.map rupd) ∧
    ((outState (complete_checkpoint_and_advance st execution_id promote
        next_execution_id now)).db.executions =
        st.db.executions.map (completionUpd execution_id now) ∨
      ∃ ne2 : CheckpointExecution,
        (outState (complete_checkpoint_and_advance st execution_id promote
          next_execution_id now)).db.executions =
          st.db.executions.map (completionUpd execution_id now) ++ [ne2] ∧
        ne2.run_id = run.run_id ∧
        ne2.checkpoint_position = execution.checkpoint_position + 1 ∧
        ne2.execution_id = next_execution_id) := by
  rcases promote_fold_shape ⟨run.pipeline_id⟩ run.run_version checkpoint_def.checkpoint_name
    execution now (st.db.artifactsOf execution.execution_id) st [] with ⟨fsX, artsX, promX, hstp0⟩
  have hstp : ∃ fsY artsY promY,
      (if promote then
        (st.db.artifactsOf execution.execution_id).foldl
          (promoteOneArtifact ⟨run.pipeline_id⟩ run.run_version checkpoint_def.checkpoint_name
            execution now) (st, [])
      else (st, [])) =
      ({ st with fs := fsY, db := { st.db with artifacts := artsY } }, promY) := by
    cases promote with
    | false => exact ⟨st.fs, st.db.artifacts, [], rfl⟩
    | true => exact ⟨fsX, artsX, promX, hstp0⟩
  rcases hstp with ⟨fsY, artsY, promY, hstp⟩
  simp only [complete_checkpoint_and_advance, he, hcd, hr, hp, hstp]
  cases hnext : pipeline.checkpoint_order[execution.checkpoint_position + 1]? with
  | none =>
    simp only [hnext]
    dsimp only [outState, Db.updateRun, Db.addInteraction, Db.updateExecution]
    refine ⟨⟨fun r => if r.run_id == run.run_id then completedRunUpd now r else r,
      ?_, rfl⟩, Or.inl rfl⟩
    intro x
    exact ⟨ite_runUpd_run_id _ _ x rfl,
      ite_runUpd_status _ _ x
        (fun hc => absurd (show RunStatus.completed = RunStatus.not_started from hc)
          (by decide))⟩
  | some ncid =>
    simp only [hnext, findCheckpointDef_update_addInteraction, findCheckpointDef_setArtifacts]
    cases hncd : st.db.findCheckpointDef ncid with
    | none =>
      simp only [hncd]
      dsimp only [outState, Db.updateRun, Db.addInteraction, Db.updateExecution]
      refine ⟨⟨id, fun x => ⟨rfl, fun hx => hx⟩, ?_⟩, Or.inl rfl⟩
      rw [List.map_id]
    | some ncp =>
      simp only [hncd]
      by_cases hauto : pipeline.auto_advance = true
      · by_cases hra : ncp.human_interaction.requires_approval_to_start.getD false = true
        · simp only [hauto, hra, if_true]
          dsimp only [outState, Db.updateRun, Db.addInteraction, Db.updateExecution]
          refine ⟨⟨fun r => if r.run_id == run.run_id then
              advancedRunUpd ncid (execution.checkpoint_position + 1) r else r, ?_, ?_⟩,
            Or.inr ⟨(create_checkpoint_execution ({} : St) run ncp
              (execution.checkpoint_position + 1) next_execution_id now).2,
              ?_, rfl, rfl, rfl⟩⟩
          · intro x
            exact ⟨ite_runUpd_run_id _ _ x rfl, ite_runUpd_status _ _ x (fun hc => hc)⟩
          · rw [cce_fst_runs]
            rfl
          · rw [cce_fst_executions]
            rfl
        · have hra2 : ncp.human_interaction.requires_approval_to_start.getD false = false := by
            simpa using hra
          simp only [hauto, hra2, if_true, Bool.false_eq_true, if_false]
          dsimp only [outState, Db.updateRun, Db.addInteraction, Db.updateExecution]
          refine ⟨⟨fun r => if r.run_id == run.run_id then
              advancedRunUpd ncid (execution.checkpoint_position + 1) r else r, ?_, ?_⟩,
            Or.inr ⟨startedNext now (create_checkpoint_execution ({} : St) run ncp
              (execution.checkpoint_position + 1) next_execution_id now).2,
              ?_, rfl, rfl, rfl⟩⟩
          · intro x
            exact ⟨ite_runUpd_run_id _ _ x rfl, ite_runUpd_status _ _ x (fun hc => hc)⟩
          · rw [cce_fst_runs]
            rfl
          · rw [cce_fst_executions, List.map_append]
            dsimp only
            congr 1
            · refine exec_map_frozen _ _ _ ?_
              intro x hx
              rcases List.mem_map.mp hx with ⟨a, ha, rfl⟩
              have ha2 : (completionUpd execution_id now a).execution_id ≠
                  next_execution_id := by
                rw [completionUpd_id]
                exact hfresh a ha
              exact ha2
            · rw [List.map_cons, List.map_nil]
              refine congrArg (fun z => [z]) ?_
              rw [if_pos (beq_self_eq_true _)]
              rfl
      · have hauto2 : pipeline.auto_advance = false := by simpa using hauto
        simp only [hauto2, Bool.false_eq_true, if_false]
        dsimp only [outState, Db.updateRun, Db.addInteraction, Db.updateExecution]
        refine ⟨⟨fun r => if r.run_id == run.run_id then
            advancedRunUpd ncid (execution.checkpoint_position + 1) r else r, ?_, ?_⟩,
          Or.inr ⟨queuedNext (create_checkpoint_execution ({} : St) run ncp
            (execution.checkpoint_position + 1) next_execution_id now).2,
            ?_, rfl, rfl, rfl⟩⟩
        · intro x
          exact ⟨ite_runUpd_run_id _ _ x rfl, ite_runUpd_status _ _ x (fun hc => hc)⟩
        · rw [cce_fst_runs]
          rfl
        · rw [cce_fst_executions, List.map_append]
          dsimp only
          congr 1
          · refine exec_map_frozen _ _ _ ?_
            intro x hx
            rcases List.mem_map.mp hx with ⟨a, ha, rfl⟩
            have ha2 : (completionUpd execution_id now a).execution_id ≠
                next_execution_id := by
              rw [completionUpd_id]
              exact hfresh a ha
            exact ha2
          · rw [List.map_cons, List.map_nil]
            refine congrArg (fun z => [z]) ?_
            rw [if_pos (beq_self_eq_true _)]
            rfl

/-- The invariant survives the completion-protocol rewrite: the completing
row becomes terminal, and the spawned row (if any) sits strictly above
every row of its run at a fresh id, so uniqueness and the top-position
discipline carry over. -/
theorem Inv_advance_core (st st' : St) (execution_id next_id : String) (now : Nat)
    (execution : CheckpointExecution) (runid : String)
    (rupd : PipelineRun → PipelineRun)
    (hrupd : ∀ x, (rupd x).run_id = x.run_id ∧
      ((rupd x).status = RunStatus.not_started → x.status = RunStatus.not_started))
    (hruns : st'.db.runs = st.db.runs.map rupd)
    (hmemE : execution ∈ st.db.executions)
    (heid : execution.execution_id = execution_id)
    (hactE : execution.status.active = true)
    (hrunid2 : runid = execution.run_id)
    (hfresh : ∀ e ∈ st.db.executions, e.execution_id ≠ next_id)
    (hexec : st'.db.executions = st.db.executions.map (completionUpd execution_id now) ∨
      ∃ ne2, st'.db.executions =
          st.db.executions.map (completionUpd execution_id now) ++ [ne2] ∧
        ne2.run_id = runid ∧ ne2.checkpoint_position = execution.checkpoint_position + 1 ∧
        ne2.execution_id = next_id)
    (h : Inv st) : Inv st' := by
  have hgid := completionUpd_id execution_id now
  have hgrun := completionUpd_run_id execution_id now
  have hgpos := completionUpd_pos execution_id now
  have hgact := completionUpd_act execution_id now
  rcases hexec with hexe | ⟨ne2, hexe, hne2run, hne2pos, hne2id⟩
  · exact Inv_exec_map st st' (completionUpd execution_id now) rupd hrupd hruns hexe
      hgid hgrun hgpos (fun x _ => hgact x) h
  · obtain ⟨hnd, hUP, hAT, hNSE⟩ := h
    have hActMap : ∀ x ∈ st.db.executions,
        (completionUpd execution_id now x).status.active = true →
        x.status.active = true ∧ x.run_id ≠ execution.run_id := by
      intro x hx hgx
      have hxa := hgact x hgx
      refine ⟨hxa, ?_⟩
      intro hxr
      have hx_eq : x = execution := (hAT execution hmemE hactE x hx hxr).2 hxa
      have hbeq : (x.execution_id == execution_id) = true := by
        rw [hx_eq, heid]
        exact beq_self_eq_true _
      have hcompleted : completionUpd execution_id now x =
          { x with status := .completed, completed_at := some now } := by
        unfold completionUpd
        rw [if_pos hbeq]
      rw [hcompleted] at hgx
      have hgx2 : ExecStatus.active ExecStatus.completed = true := hgx
      exact absurd hgx2 (by decide)
    have hmax : ∀ y ∈ st.db.executions, y.run_id = execution.run_id →
        y.checkpoint_position ≤ execution.checkpoint_position :=
      fun y hy hyr => (hAT execution hmemE hactE y hy hyr).1
    refine ⟨?_, ?_, ?_, ?_⟩
    · rw [hexe, List.map_append]
      have hids : (st.db.executions.map (completionUpd execution_id now)).map
          (fun e => e.execution_id) = st.db.executions.map (fun e => e.execution_id) := by
        rw [List.map_map]
        exact List.map_congr_left (fun x _ => hgid x)
      rw [hids]
      refine List.Nodup.append hnd (List.nodup_singleton _) ?_
      intro a ha hb
      rcases List.mem_map.mp ha with ⟨x, hx, rfl⟩
      have hb2 : x.execution_id = ne2.execution_id := by simpa using hb
      rw [hne2id] at hb2
      exact hfresh x hx hb2
    · unfold uniquePositions
      rw [hexe]
      refine List.pairwise_append.mpr ⟨?_, List.pairwise_singleton _ _, ?_⟩
      · rw [List.pairwise_map]
        refine List.Pairwise.imp ?_ hUP
        intro a b hab hgid2 hgpos2
        rw [hgrun, hgrun] at hgid2
        rw [hgpos, hgpos] at hgpos2
        exact hab hgid2 hgpos2
      · intro a ha b hb
        have hbs : b = ne2 := List.mem_singleton.mp hb
        rcases List.mem_map.mp ha with ⟨x, hx, rfl⟩
        intro hid2 hpos2
        rw [hbs, hne2run, hrunid2, hgrun] at hid2
        have hle := hmax x hx hid2
        rw [hbs, hne2pos, hgpos] at hpos2
        omega
    · intro e he hact' e2 he2 hid2
      rw [hexe] at he he2
      rcases List.mem_append.mp he with hea | hea
      · rcases List.mem_map.mp hea with ⟨x, hx, rfl⟩
        obtain ⟨hxa, hxr⟩ := hActMap x hx hact'
        rcases List.mem_append.mp he2 with heb | heb
        · rcases List.mem_map.mp heb with ⟨y, hy, rfl⟩
          rw [hgrun, hgrun] at hid2
          have hold := hAT x hx hxa y hy hid2
          refine ⟨?_, ?_⟩
          · rw [hgpos, hgpos]
            exact hold.1
          · intro hy'
            exact congrArg _ (hold.2 (hgact y hy'))
        · have hbs : e2 = ne2 := List.mem_singleton.mp heb
          rw [hbs, hne2run, hrunid2, hgrun] at hid2
          exact absurd hid2.symm hxr
      · have hes : e = ne2 := List.mem_singleton.mp hea
        rcases List.mem_append.mp he2 with heb | heb
        · rcases List.mem_map.mp heb with ⟨y, hy, rfl⟩
          rw [hes, hne2run, hrunid2, hgrun] at hid2
          refine ⟨?_, ?_⟩
          · rw [hes, hne2pos, hgpos]
            exact Nat.le_succ_of_le (hmax y hy hid2)
          · intro hy'
            obtain ⟨_, hyr⟩ := hActMap y hy hy'
            exact absurd hid2 hyr
        · have hes2 : e2 = ne2 := List.mem_singleton.mp heb
          rw [hes, hes2]
          exact ⟨le_refl _, fun _ => rfl⟩
    · intro r2 hr2 hns e' he'
      rw [hruns] at hr2
      rcases List.mem_map.mp hr2 with ⟨r0, hr0, rfl⟩
      have hr0ns := (hrupd r0).2 hns
      rw [hexe] at he'
      rcases List.mem_append.mp he' with hea | hea
      · rcases List.mem_map.mp hea with ⟨x, hx, rfl⟩
        rw [hgrun, (hrupd r0).1]
        exact hNSE r0 hr0 hr0ns x hx
      · have hes : e' = ne2 := List.mem_singleton.mp hea
        rw [hes, hne2run, hrunid2, (hrupd r0).1]
        exact hNSE r0 hr0 hr0ns execution hmemE

/-- `_complete_checkpoint_and_advance`, entered with a live execution and a
fresh next id, preserves the invariant. -/
theorem ccaa_inv (st : St) (execution_id : String) (promote : Bool) (next_id : String)
    (now : Nat)
    (hfresh : ∀ e ∈ st.db.executions, e.execution_id ≠ next_id)
    (hactF : ∀ execution, st.db.findExecution execution_id = some execution →
      execution.status.active = true)
    (h : Inv st) :
    Inv (outState (complete_checkpoint_and_advance st execution_id promote next_id now)) := by
  cases he : st.db.findExecution execution_id with
  | none => simp only [complete_checkpoint_and_advance, he]; exact h
  | some execution =>
    cases hcd : st.db.findCheckpointDef execution.checkpoint_id with
    | none => simp only [complete_checkpoint_and_advance, he, hcd]; exact h
    | some checkpoint_def =>
      cases hr : st.db.findRun execution.run_id with
      | none => simp only [complete_checkpoint_and_advance, he, hcd, hr]; exact h
      | some run =>
        cases hp : st.db.findPipeline run.pipeline_id with
        | none => simp only [complete_checkpoint_and_advance, he, hcd, hr, hp]; exact h
        | some pipeline =>
          obtain ⟨⟨rupd, hrupd, hruns⟩, hexec⟩ := ccaa_out_shape st execution_id promote
            next_id now execution checkpoint_def run pipeline he hcd hr hp hfresh
          exact Inv_advance_core st _ execution_id next_id now execution run.run_id rupd
            hrupd hruns (findExecution_mem _ _ _ he) (findExecution_id _ _ _ he)
            (hactF execution he) (findRun_id _ _ _ hr) hfresh hexec h

/-- `approve_complete` preserves the invariant. -/
theorem inv_approveComplete (st : St) (execution_id : String) (promote : Bool)
    (next_id : String) (now : Nat)
    (hfresh : ∀ e ∈ st.db.executions, e.execution_id ≠ next_id) (h : Inv st) :
    Inv (outState (approve_complete st execution_id promote next_id now)) := by
  cases he : st.db.findExecution execution_id with
  | none => simp only [approve_complete, he]; exact h
  | some execution =>
    simp only [approve_complete, he]
    by_cases hs : execution.status ≠ ExecStatus.waiting_approval_to_complete
    · rw [if_pos hs]; exact h
    · rw [if_neg hs]
      have hsw : execution.status = ExecStatus.waiting_approval_to_complete := not_ne_iff.mp hs
      refine ccaa_inv st execution_id promote next_id now hfresh ?_ h
      intro e2 he2
      rw [he] at he2
      have h2 : execution = e2 := by injection he2
      rw [← h2, hsw]
      rfl

/-- `submit_form_data` preserves the invariant for both outcomes: the
interaction/artifact writes leave the executions and runs tables alone,
then either the row waits for completion approval (a status-only update)
or the completion protocol runs on the mutated state. -/
theorem inv_submitForm (st : St) (execution_id content faid frid next_id : String)
    (now : Nat)
    (hfresh : ∀ e ∈ st.db.executions, e.execution_id ≠ next_id) (h : Inv st) :
    Inv (outState (submit_form_data st execution_id content faid frid next_id now)) := by
  cases he : st.db.findExecution execution_id with
  | none => simp only [submit_form_data, he]; exact h
  | some execution =>
    simp only [submit_form_data, he, addInteraction_artifacts]
    by_cases hs : execution.status ≠ ExecStatus.in_progress
    · rw [if_pos hs]; exact h
    · rw [if_neg hs]
      have hsw : execution.status = ExecStatus.in_progress := not_ne_iff.mp hs
      cases hcd : st.db.findCheckpointDef execution.checkpoint_id with
      | none => simp only [hcd]; exact h
      | some checkpoint_def =>
        simp only [hcd]
        cases hrn : st.db.findRun execution.run_id with
        | none => simp only [hrn]; exact h
        | some run0 =>
          simp only [hrn]
          have hkey : ∀ (sx : St) (res : Except (String × St) (St × CompleteResult)),
              complete_checkpoint_and_advance sx execution_id true next_id now = res →
              sx.db.executions = st.db.executions → sx.db.runs = st.db.runs →
              Inv (outState res) := by
            intro sx res hres hxe hxr
            rw [← hres]
            refine ccaa_inv sx execution_id true next_id now ?_ ?_
              (Inv_transfer st sx hxe hxr h)
            · rw [hxe]
              exact hfresh
            · intro e2 he2
              have hfe : sx.db.findExecution execution_id =
                  st.db.findExecution execution_id := by
                unfold Db.findExecution
                rw [hxe]
              rw [hfe, he] at he2
              have h2 : execution = e2 := by injection he2
              rw [← h2, hsw]
              rfl
          have hwait : ∀ (st2x : St), st2x.db.executions = st.db.executions →
              st2x.db.runs = st.db.runs →
              Inv { st2x with db := st2x.db.updateExecution execution_id waitUpd } := by
            intro st2x hxe hxr
            refine Inv_statusUpd st _ execution_id waitUpd ?_ ?_ ?_ ?_ ?_ ?_ h
            · exact hxr
            · show st2x.db.executions.map _ = _
              rw [hxe]
            · intro x; rfl
            · intro x; rfl
            · intro x; rfl
            · intro x hx hxi hfx
              have hxe2 : x = execution := exec_mem_id_unique _ h.1 x execution hx
                (findExecution_mem _ _ _ he) (hxi.trans (findExecution_id _ _ _ he).symm)
              rw [hxe2, hsw]
              rfl
          by_cases hsave :
              ((checkpoint_def.execution.human_only_config.getD {}).save_as_artifact.getD
                false) = true
          · simp only [hsave, if_true]
            cases hex2 : st.db.artifacts.find? (fun a => a.execution_id == execution_id &&
                a.artifact_name ==
                  ((checkpoint_def.execution.human_only_config.getD {}).artifact_name.getD
                    "form_data")) with
            | some a0 =>
              simp only [hex2]
              by_cases hreq :
                  checkpoint_def.human_interaction.requires_approval_to_complete.getD false =
                    true
              · simp only [hreq, if_true]
                exact hwait _ rfl rfl
              · have hreq2 :
                    checkpoint_def.human_interaction.requires_approval_to_complete.getD false =
                      false := by simpa using hreq
                simp only [hreq2, Bool.false_eq_true, if_false]
                split
                · rename_i heq
                  exact hkey _ _ heq rfl rfl
                · rename_i heq
                  exact hkey _ _ heq rfl rfl
            | none =>
              simp only [hex2]
              by_cases hreq :
                  checkpoint_def.human_interaction.requires_approval_to_complete.getD false =
                    true
              · simp only [hreq, if_true]
                exact hwait _ rfl rfl
              · have hreq2 :
                    checkpoint_def.human_interaction.requires_approval_to_complete.getD false =
                      false := by simpa using hreq
                simp only [hreq2, Bool.false_eq_true, if_false]
                split
                · rename_i heq
                  exact hkey _ _ heq rfl rfl
                · rename_i heq
                  exact hkey _ _ heq rfl rfl
          · have hsave2 :
                ((checkpoint_def.execution.human_only_config.getD {}).save_as_artifact.getD
                  false) = false := by simpa using hsave
            simp only [hsave2, Bool.false_eq_true, if_false]
            by_cases hreq :
                checkpoint_def.human_interaction.requires_approval_to_complete.getD false =
                  true
            · simp only [hreq, if_true]
              exact hwait _ rfl rfl
            · have hreq2 :
                  checkpoint_def.human_interaction.requires_approval_to_complete.getD false =
                    false := by simpa using hreq
              simp only [hreq2, Bool.false_eq_true, if_false]
              split
              · rename_i heq
                exact hkey _ _ heq rfl rfl
              · rename_i heq
                exact hkey _ _ heq rfl rfl

/-- The victim-run fold only ever removes execution rows. -/
theorem runs_fold_executions_sublist (pid rid : String) (adp0 : FPath) :
    ∀ (vs : List PipelineRun) (acc : St × List ArchInfo),
      ((vs.foldl (processRunVictim pid rid adp0) acc).1.db.executions).Sublist
        acc.1.db.executions := by
  intro vs
  induction vs with
  | nil => intro acc; exact List.Sublist.refl _
  | cons r t ih =>
    intro acc
    rw [List.foldl_cons]
    exact (ih _).trans (processRunVictim_executions_sublist pid rid adp0 acc r)

/-- `rollbackRunUpdate` keeps the run id. -/
theorem rollbackRunUpdate_run_id (tcid : String) (pos : Nat) (r : PipelineRun) :
    (rollbackRunUpdate tcid pos r).run_id = r.run_id := by
  unfold rollbackRunUpdate
  split <;> rfl

/-- `rollbackRunUpdate` never turns a run into `not_started`. -/
theorem rollbackRunUpdate_status (tcid : String) (pos : Nat) (r : PipelineRun) :
    (rollbackRunUpdate tcid pos r).status = RunStatus.not_started →
      r.status = RunStatus.not_started := by
  unfold rollbackRunUpdate
  split
  · intro hc
    have hc2 : RunStatus.in_progress = RunStatus.not_started := hc
    exact absurd hc2 (by decide)
  · exact fun hx => hx

/-- `checkpoint_level_rollback` preserves the invariant. -/
theorem inv_ckptRollback (st : St) (pipeline_id run_id : String) (target : Nat)
    (reason : Option String) (rollback_id : String) (now : Nat) (h : Inv st) :
    Inv (outState (checkpoint_level_rollback st pipeline_id run_id target reason
      rollback_id now)) := by
  cases hrn : st.db.findRun run_id with
  | none => simp only [checkpoint_level_rollback, hrn]; exact h
  | some run =>
    simp only [checkpoint_level_rollback, hrn]
    by_cases hpid : run.pipeline_id ≠ pipeline_id
    · rw [if_pos hpid]; exact h
    · rw [if_neg hpid]
      cases hck : getCheckpointAtPosition st.db pipeline_id target with
      | none => simp only [hck]; exact h
      | some tc =>
        simp only [hck]
        split
        · exact h
        · refine Inv_rollback_core st _ ?_ ?_ h
          · dsimp only [outState, Db.updateRun]
            rw [victims_fold_executions]
            exact List.filter_sublist _
          · dsimp only [outState, Db.updateRun]
            rw [victims_fold_runs]
            intro r2 hr2
            rcases List.mem_map.mp hr2 with ⟨r, hr, rfl⟩
            refine ⟨r, hr, ?_, ?_⟩
            · exact ite_runUpd_run_id _ _ r (rollbackRunUpdate_run_id _ _ r)
            · exact ite_runUpd_status _ _ r (rollbackRunUpdate_status _ _ r)

/-- `run_level_rollback` preserves the invariant. -/
theorem inv_runRollback (st : St) (pipeline_id current_run_id target_run_id : String)
    (target : Nat) (reason : Option String) (rollback_id : String) (now : Nat)
    (h : Inv st) :
    Inv (outState (run_level_rollback st pipeline_id current_run_id target_run_id target
      reason rollback_id now)) := by
  cases hc : st.db.findRun current_run_id with
  | none => simp only [run_level_rollback, hc]; exact h
  | some current_run =>
    simp only [run_level_rollback, hc]
    cases ht : st.db.findRun target_run_id with
    | none => simp only [ht]; exact h
    | some target_run =>
      simp only [ht]
      by_cases hpid : (current_run.pipeline_id ≠ pipeline_id ∨
        target_run.pipeline_id ≠ pipeline_id)
      · rw [if_pos hpid]; exact h
      · rw [if_neg hpid]
        cases hck : getCheckpointAtPosition st.db pipeline_id target with
        | none => simp only [hck]; exact h
        | some tc =>
          simp only [hck]
          split
          · split
            · exact h
            · refine Inv_rollback_core st _ ?_ ?_ h
              · dsimp only [outState, Db.updateRun]
                exact runs_fold_executions_sublist pipeline_id rollback_id _ _ _
              · dsimp only [outState, Db.updateRun]
                rw [runs_fold_runs]
                intro r2 hr2
                rcases List.mem_map.mp hr2 with ⟨r, hr, rfl⟩
                have hr' : r ∈ st.db.runs := (List.mem_filter.mp hr).1
                refine ⟨r, hr', ?_, ?_⟩
                · exact ite_runUpd_run_id _ _ r (rollbackRunUpdate_run_id _ _ r)
                · exact ite_runUpd_status _ _ r (rollbackRunUpdate_status _ _ r)
          · split
            · exact h
            · refine Inv_rollback_core st _ ?_ ?_ h
              · dsimp only [outState, Db.updateRun]
                exact runs_fold_executions_sublist pipeline_id rollback_id _ _ _
              · dsimp only [outState, Db.updateRun]
                rw [runs_fold_runs]
                intro r2 hr2
                rcases List.mem_map.mp hr2 with ⟨r, hr, rfl⟩
                have hr' : r ∈ st.db.runs := (List.mem_filter.mp hr).1
                refine ⟨r, hr', ?_, ?_⟩
                · exact ite_runUpd_run_id _ _ r (rollbackRunUpdate_run_id _ _ r)
                · exact ite_runUpd_status _ _ r (rollbackRunUpdate_status _ _ r)

/-- Every `Step` preserves the invariant. -/
theorem step_inv (st st2 : St) (hs : Step st st2) (h : Inv st) : Inv st2 := by
  cases hs with
  | createRun pipeline_id ext new_run_id now hfr =>
    exact inv_createRun st pipeline_id ext new_run_id now hfr h
  | startRun run_id first_execution_id now hfr =>
    exact inv_startRun st run_id first_execution_id now hfr h
  | approveStart execution_id now =>
    exact inv_approveStart st execution_id now h
  | submitForm execution_id content faid frid next_execution_id now hfr =>
    exact inv_submitForm st execution_id content faid frid next_execution_id now hfr h
  | approveComplete execution_id promote next_execution_id now hfr =>
    exact inv_approveComplete st execution_id promote next_execution_id now hfr h
  | requestRevision execution_id feedback now =>
    exact inv_requestRevision st execution_id feedback now h
  | ckptRollback pipeline_id run_id target reason rollback_id now =>
    exact inv_ckptRollback st pipeline_id run_id target reason rollback_id now h
  | runRollback pipeline_id current_run_id target_run_id target reason rollback_id now =>
    exact inv_runRollback st pipeline_id current_run_id target_run_id target reason
      rollback_id now h

/-- The invariant holds in every initial state. -/
theorem inv_init (pls : List Pipeline) (cds : List CheckpointDefn) :
    Inv (initSt pls cds) := by
  refine ⟨List.nodup_nil, List.Pairwise.nil, ?_, ?_⟩
  · intro e he
    exact absurd he (List.not_mem_nil e)
  · intro r hr
    exact absurd hr (List.not_mem_nil r)

/-- The invariant holds in every reachable state. -/
theorem reachable_inv (pls : List Pipeline) (cds : List CheckpointDefn) (st : St)
    (h : Relation.ReflTransGen Step (initSt pls cds) st) : Inv st := by
  induction h with
  | refl => exact inv_init pls cds
  | tail h1 h2 ih => exact step_inv _ _ h2 ih

/-- Pairwise position-distinctness yields the counting form: at most one
row per (run, position). -/
theorem uniquePositions_atMost (db : Db) (h : uniquePositions db) :
    atMostOnePerPosition db := by
  intro rid pos
  have hP : (db.executions.filter
      (fun e => e.run_id == rid && e.checkpoint_position == pos)).Pairwise
      (fun x y => x.run_id = y.run_id → x.checkpoint_position ≠ y.checkpoint_position) :=
    List.Pairwise.sublist (List.filter_sublist _) h
  cases hL : db.executions.filter
      (fun e => e.run_id == rid && e.checkpoint_position == pos) with
  | nil => exact Nat.zero_le 1
  | cons a t =>
    cases t with
    | nil => exact Nat.le_refl 1
    | cons b t2 =>
      exfalso
      have haM : a ∈ db.executions.filter
          (fun e => e.run_id == rid && e.checkpoint_position == pos) := by
        rw [hL]; exact List.mem_cons_self a _
      have hbM : b ∈ db.executions.filter
          (fun e => e.run_id == rid && e.checkpoint_position == pos) := by
        rw [hL]; exact List.mem_cons_of_mem a (List.mem_cons_self b t2)
      have haP := List.of_mem_filter haM
      have hbP := List.of_mem_filter hbM
      simp only [Bool.and_eq_true, beq_iff_eq] at haP hbP
      rw [hL] at hP
      have hrel := (List.pairwise_cons.mp hP).1 b (List.mem_cons_self b t2)
      exact hrel (haP.1.trans hbP.1.symm) (haP.2.trans hbP.2.symm)

/-- C9: starting from any initial state that holds only static
configuration, every state reachable through the public service calls
(run creation, `start_run`, the approve/submit/revise state machine with
its completion-protocol advance, and both rollback operations, each with
fresh `uuid4` identifiers) has at most one non-archived execution row per
(run, checkpoint position) — archived executions are deleted from the
table, so the table holds exactly the non-archived rows — and one further
call from such a state preserves this. -/
theorem c9_unique_execution_per_position (pls : List Pipeline) (cds : List CheckpointDefn)
    (st : St) (h : Relation.ReflTransGen Step (initSt pls cds) st) :
    atMostOnePerPosition st.db ∧
      ∀ st2, Step st st2 → atMostOnePerPosition st2.db := by
  have hi := reachable_inv pls cds st h
  exact ⟨uniquePositions_atMost _ hi.2.1,
    fun st2 hs => uniquePositions_atMost _ (step_inv st st2 hs hi).2.1⟩

/-- C9 witness: a two-step chain — create a run on pipeline `p9`, then
start it (one execution at position 0) — reaches a state satisfying the
per-(run, position) uniqueness, and every further call keeps it. -/
theorem c9_witness :
    atMostOnePerPosition c9s2.db ∧
      ∀ st2, Step c9s2 st2 → atMostOnePerPosition st2.db :=
  c9_unique_execution_per_position [c9pl] [c9cd] c9s2
    (Relation.ReflTransGen.tail
      (Relation.ReflTransGen.tail Relation.ReflTransGen.refl
        (Step.createRun c9s0 "p9" none "r9" 0 (by decide)))
      (Step.startRun c9s1 "r9" "e9" 1 (by decide)))

end PipelineSys